import Mathlib

/-!
Shallow embedding of the uwasm module loader and bytecode interpreter
(src/uwasm/src/parser.rs, src/uwasm/src/lib.rs, src/uwasm/src/interpreter.rs)
together with theorems settling the specification's claims.

Conventions of the embedding:

* Machine integers are natural-number bit patterns reduced modulo the
  relevant power of two; byte buffers are lists of naturals (semantically
  below 256).  `usize` is 64 bits wide (the configuration the crate's own
  test suite runs under).
* The embedding fixes the release configuration of the crate (the
  configuration it ships in): `debug_assertions` is off, so the
  debug-only type-tag stack of `VmStack` is absent, `+`/`-` on `i32`
  wrap, and shift amounts are masked to the operand width.  Plain
  `assert!`/`assert_eq!`, `unwrap`, `todo!` and out-of-bounds indexing
  still abort in release builds; they are modelled by a dedicated
  "panic" outcome constructor, kept distinct from typed errors.
* Floating point arithmetic (`f32.add`, `f64.sub`, `f64.mul`, and the
  comparison inside `f64.lt`) is kept opaque: the interpreter is
  parameterised by a `FloatOps` record of functions on 32/64-bit
  patterns.  The only float operation the control flow of the claims
  depends on, the `!= 0.0` test of the `if` handler, is expressed
  exactly on IEEE-754 patterns (both zeroes are equal to `0.0`, every
  other pattern, including every NaN, is unequal).
* Host I/O (the `Environment` trait) and the advisory profiling
  counters influence no observable value of any claim and are omitted;
  imported host functions are modelled as opaque functions on the
  operand stack and the linear memory, exactly the data a real import
  callback receives.
-/

set_option maxHeartbeats 4000000

namespace Uwasm

/-! ## Bytes and two's-complement patterns -/

/-- Little-endian encoding of the low `n` bytes of `v`
(`u32::to_le_bytes` / `u64::to_le_bytes` on bit patterns). -/
def toLe : Nat → Nat → List Nat
  | 0, _ => []
  | n + 1, v => (v % 256) :: toLe n (v / 256)

/-- Little-endian decoding of a byte list (`uNN::from_le_bytes`); each
entry is masked to a byte so the result is always a valid pattern. -/
def fromLe : List Nat → Nat
  | [] => 0
  | b :: bs => (b % 256) + 256 * fromLe bs

/-- Signed reading of a 32-bit pattern (`as i32`). -/
def toInt32 (p : Nat) : Int :=
  if p < 2 ^ 31 then (p : Int) else (p : Int) - 2 ^ 32

/-- Signed reading of a 64-bit pattern (`as i64`). -/
def toInt64 (p : Nat) : Int :=
  if p < 2 ^ 63 then (p : Int) else (p : Int) - 2 ^ 64

/-- The 32-bit pattern of an integer (two's complement). -/
def patOfInt32 (v : Int) : Nat := (v % (2 ^ 32 : Int)).toNat

/-- The 64-bit pattern of an integer (two's complement). -/
def patOfInt64 (v : Int) : Nat := (v % (2 ^ 64 : Int)).toNat

/-! ## Parser errors and value kinds (src/uwasm/src/parser.rs) -/

/-- `ParserError` from parser.rs. -/
inductive ParserError where
  | EndOfStream (offset : Nat)
  | InvalidValue (offset : Nat) (found : Nat)
  | UnexpectedBytes (offset : Nat)
  | NotEnoughBytes (offset : Nat)
deriving DecidableEq

/-- `TypeKind` from parser.rs. -/
inductive TypeKind where
  | Void
  | Func
  | FuncRef
  | F64
  | F32
  | I64
  | I32
deriving DecidableEq

/-- `TypeKind::len_bytes`; the `todo!` arms (Void, Func, FuncRef) are a
panic, modelled as `none`. -/
def TypeKind.len_bytes : TypeKind → Option Nat
  | .Void => none
  | .Func => none
  | .FuncRef => none
  | .F64 => some 8
  | .I64 => some 8
  | .I32 => some 4
  | .F32 => some 4

/-! ## The byte reader (src/uwasm/src/parser.rs) -/

/-- `Reader`: a cursor over an immutable byte slice. -/
structure Reader where
  data : List Nat
  pos : Nat
deriving DecidableEq

/-- `Reader::read_bytes::<1>` followed by the projection of `read_u8`. -/
def Reader.read_u8 (r : Reader) : Except ParserError (Nat × Reader) :=
  match r.data.get? r.pos with
  | some b => .ok (b, ⟨r.data, r.pos + 1⟩)
  | none => .error (.EndOfStream r.pos)

/-- `Reader::read_slice`. -/
def Reader.read_slice (r : Reader) (n : Nat) : Except ParserError (List Nat × Reader) :=
  if r.pos + n ≤ r.data.length then
    .ok ((r.data.drop r.pos).take n, ⟨r.data, r.pos + n⟩)
  else
    .error (.EndOfStream r.pos)

/-- `Reader::read_bytes::<N>` (fixed-size chunk). -/
def Reader.read_bytes (r : Reader) (n : Nat) : Except ParserError (List Nat × Reader) :=
  if r.pos + n ≤ r.data.length then
    .ok ((r.data.drop r.pos).take n, ⟨r.data, r.pos + n⟩)
  else
    .error (.EndOfStream r.pos)

/-- `Reader::read_u32` (little-endian u32). -/
def Reader.read_u32 (r : Reader) : Except ParserError (Nat × Reader) :=
  match r.read_bytes 4 with
  | .ok (bs, r') => .ok (fromLe bs, r')
  | .error e => .error e

/-- `Reader::read_f32`: four little-endian bytes, kept as a 32-bit pattern. -/
def Reader.read_f32 (r : Reader) : Except ParserError (Nat × Reader) :=
  match r.read_bytes 4 with
  | .ok (bs, r') => .ok (fromLe bs, r')
  | .error e => .error e

/-- `Reader::read_f64`: eight little-endian bytes, kept as a 64-bit pattern. -/
def Reader.read_f64 (r : Reader) : Except ParserError (Nat × Reader) :=
  match r.read_bytes 8 with
  | .ok (bs, r') => .ok (fromLe bs, r')
  | .error e => .error e

/-- `Reader::expect_bytes`. -/
def Reader.expect_bytes (r : Reader) (expected : List Nat) : Except ParserError Reader :=
  if r.pos + expected.length ≤ r.data.length then
    if (r.data.drop r.pos).take expected.length = expected then
      .ok ⟨r.data, r.pos + expected.length⟩
    else
      .error (.UnexpectedBytes r.pos)
  else
    .error (.NotEnoughBytes r.pos)

/-- The loop body of `Reader::read_number_raw`, recursing over the bytes
still ahead of the cursor.  Returns `(result, last byte, shift, bytes
consumed)`.  The shift of the `<<` is masked to the operand width and the
shifted value truncated to 64 bits, the release-profile semantics of
`u64 << u32` in the source. -/
def lebLoop : List Nat → Nat → Nat → Option (Nat × Nat × Nat × Nat)
  | [], _, _ => none
  | b :: rest, result, shift =>
    let result' := result ||| ((b &&& 127) <<< (shift % 64)) % 2 ^ 64
    if b &&& 128 = 0 then
      some (result', b, shift + 7, 1)
    else
      match lebLoop rest result' (shift + 7) with
      | some (res, lastb, sh, k) => some (res, lastb, sh, k + 1)
      | none => none

/-- `Reader::read_number_raw`. -/
def Reader.read_number_raw (r : Reader) :
    Except ParserError ((Nat × Nat × Nat) × Reader) :=
  match lebLoop (r.data.drop r.pos) 0 0 with
  | some (result, b, shift, k) => .ok ((result, b, shift), ⟨r.data, r.pos + k⟩)
  | none => .error (.EndOfStream r.data.length)

/-- `Reader::read_unsigned`. -/
def Reader.read_unsigned (r : Reader) : Except ParserError (Nat × Reader) :=
  match r.read_number_raw with
  | .ok ((result, _, _), r') => .ok (result, r')
  | .error e => .error e

/-- `Reader::read_signed`: sign-extend using bit 6 of the last byte when
fewer than 64 value bits were read; the result is an `i64`. -/
def Reader.read_signed (r : Reader) : Except ParserError (Int × Reader) :=
  match r.read_number_raw with
  | .ok ((result, b, shift), r') =>
    if shift < 64 ∧ b &&& 64 ≠ 0 then
      .ok (toInt64 ((result ||| ((2 ^ 64 - 1) <<< shift % 2 ^ 64)) % 2 ^ 64), r')
    else
      .ok (toInt64 result, r')
  | .error e => .error e

/-- `Reader::read_usize` (usize is 64 bits wide here). -/
def Reader.read_usize (r : Reader) : Except ParserError (Nat × Reader) :=
  r.read_unsigned

/-- `Reader::read_isize`. -/
def Reader.read_isize (r : Reader) : Except ParserError (Int × Reader) :=
  r.read_signed

/-- `Reader::read_str`: a LEB-length-prefixed byte string. -/
def Reader.read_str (r : Reader) : Except ParserError (List Nat × Reader) :=
  match r.read_usize with
  | .ok (len, r₁) => r₁.read_slice len
  | .error e => .error e

/-- `TypeKind::read` (`impl Item for TypeKind`). -/
def TypeKind.read (r : Reader) : Except ParserError (TypeKind × Reader) :=
  match r.read_u8 with
  | .error e => .error e
  | .ok (b, r') =>
    if b = 0x40 then .ok (.Void, r')
    else if b = 0x60 then .ok (.Func, r')
    else if b = 0x70 then .ok (.FuncRef, r')
    else if b = 0x7C then .ok (.F64, r')
    else if b = 0x7D then .ok (.F32, r')
    else if b = 0x7E then .ok (.I64, r')
    else if b = 0x7F then .ok (.I32, r')
    else .error (.InvalidValue r.pos b)

/-! ## The opcode walker (pre-scan pass, src/uwasm/src/lib.rs) -/

/-- `BlockType` from lib.rs (the loader's pre-scan descriptors). -/
inductive BlockTypeW where
  | Block
  | Loop
  | If
  | Else
deriving DecidableEq

/-- `BlockMeta` from lib.rs. -/
structure BlockMetaW where
  kind : BlockTypeW
  offset : Nat
deriving DecidableEq

/-- `ParserState` from lib.rs.  The `BTreeMap` of jump targets is
embedded as a function to `Option`; `blocks` keeps the top of the
`Vec` at the head of the list. -/
structure ParserStateM where
  blocks : List BlockMetaW
  jump_targets : Nat → Option Nat

/-- `BTreeMap::insert` (overwriting). -/
def jtInsert (m : Nat → Option Nat) (k v : Nat) : Nat → Option Nat :=
  fun x => if x = k then some v else m x

/-- The kinds of structured-control opcodes that open a region. -/
inductive OpenKind where
  | blockE
  | loopE
  | ifE
deriving DecidableEq

/-- A control event observed by the pre-scan: an opening opcode, an
`else`, or an `end`. -/
inductive EvKind where
  | openEv (k : OpenKind)
  | elseEv
  | endEv
deriving DecidableEq

/-- A control event together with the module-absolute offset of its
opcode byte. -/
structure Event where
  pos : Nat
  kind : EvKind
deriving DecidableEq

/-- Openings in the sense of the claim: `block`, `loop`, `if`, `else`. -/
def EvKind.isOpening : EvKind → Bool
  | .openEv _ => true
  | .elseEv => true
  | .endEv => false

/-- Terminators: `else` and `end`. -/
def EvKind.isTerm : EvKind → Bool
  | .openEv _ => false
  | .elseEv => true
  | .endEv => true

/-- Nesting-depth contribution of an event (`else` closes and reopens). -/
def EvKind.delta : EvKind → Int
  | .openEv _ => 1
  | .elseEv => 0
  | .endEv => -1

/-- The descriptor kind pushed for an opening event. -/
def OpenKind.toW : OpenKind → BlockTypeW
  | .blockE => .Block
  | .loopE => .Loop
  | .ifE => .If

/-- The state effect of one control event on the pre-scan state,
translated from the `block`/`loop`/`if`/`else`/`end` arms of
`parse_opcode` in lib.rs.  `none` models a panic for `else`
(`pop().unwrap()` on an empty stack, or the `assert_eq!(kind, If)`),
and for `end` it marks the stack-was-empty case, which `parse_opcode`
turns into `ControlFlow::Break`. -/
def applyEvent (func_offset : Nat) (st : ParserStateM) (e : Event) : Option ParserStateM :=
  match e.kind with
  | .openEv k => some { st with blocks := ⟨k.toW, e.pos⟩ :: st.blocks }
  | .elseEv =>
    match st.blocks with
    | [] => none
    | b :: bs =>
      if b.kind = .If then
        some ⟨⟨.Else, e.pos⟩ :: bs,
          jtInsert st.jump_targets b.offset (e.pos + 1 - func_offset)⟩
      else
        none
  | .endEv =>
    match st.blocks with
    | [] => none
    | b :: bs =>
      some ⟨bs, jtInsert st.jump_targets b.offset (e.pos + 1 - func_offset)⟩

/-- The immediates attached to an opcode, as consumed by the
non-control arms of `parse_opcode`. -/
inductive ImmKind where
  | u8K
  | lebK
  | slebK
  | f32K
  | f64K
  | brTableK

/-- Reads `n` LEB-unsigned entries (the `br_table` target vector). -/
def readLebVec : Nat → Reader → Except ParserError Reader
  | 0, r => .ok r
  | n + 1, r =>
    match r.read_usize with
    | .ok (_, r') => readLebVec n r'
    | .error e => .error e

/-- Consumes one immediate. -/
def readImm (k : ImmKind) (r : Reader) : Except ParserError Reader :=
  match k with
  | .u8K => match r.read_u8 with | .ok (_, r') => .ok r' | .error e => .error e
  | .lebK => match r.read_usize with | .ok (_, r') => .ok r' | .error e => .error e
  | .slebK => match r.read_signed with | .ok (_, r') => .ok r' | .error e => .error e
  | .f32K => match r.read_f32 with | .ok (_, r') => .ok r' | .error e => .error e
  | .f64K => match r.read_f64 with | .ok (_, r') => .ok r' | .error e => .error e
  | .brTableK =>
    match r.read_usize with
    | .ok (n, r₁) =>
      match readLebVec n r₁ with
      | .ok r₂ => match r₂.read_usize with | .ok (_, r₃) => .ok r₃ | .error e => .error e
      | .error e => .error e
    | .error e => .error e

/-- Consumes a list of immediates in order. -/
def readImms : List ImmKind → Reader → Except ParserError Reader
  | [], r => .ok r
  | k :: ks, r =>
    match readImm k r with
    | .ok r' => readImms ks r'
    | .error e => .error e

/-- The immediates of every non-control opcode, copied arm by arm from
`parse_opcode` in lib.rs.  Opcodes that the source's match does not
list fall to its catch-all arm, which only prints, i.e. consumes no
immediate (this includes `0x38`, `0x3c` and `0x3e`). -/
def immsOf (op : Nat) : List ImmKind :=
  if op = 0x0c then [.lebK]                      -- br
  else if op = 0x0d then [.lebK]                 -- br_if
  else if op = 0x0e then [.brTableK]             -- br_table
  else if op = 0x10 then [.lebK]                 -- call
  else if op = 0x11 then [.lebK, .lebK]          -- call_indirect
  else if 0x20 ≤ op ∧ op ≤ 0x24 then [.lebK]     -- local/global get/set/tee
  else if 0x28 ≤ op ∧ op ≤ 0x35 then [.lebK, .lebK] -- loads: align, offset
  else if op = 0x36 ∨ op = 0x37 ∨ op = 0x39 ∨ op = 0x3a ∨ op = 0x3b ∨ op = 0x3d then
    [.lebK, .lebK]                               -- the stores the walker lists
  else if op = 0x40 then [.lebK]                 -- memory.grow
  else if op = 0x41 then [.slebK]                -- i32.const
  else if op = 0x42 then [.slebK]                -- i64.const
  else if op = 0x43 then [.f32K]                 -- f32.const
  else if op = 0x44 then [.f64K]                 -- f64.const
  else []

/-- Result of one `parse_opcode` step.  The `Option Event` component of
`cont` is specification bookkeeping recording which control event the
step performed; it mirrors no source state. -/
inductive POut where
  | cont (r : Reader) (st : ParserStateM) (ev : Option Event)
  | brk (r : Reader) (st : ParserStateM)
  | perr (e : ParserError)
  | pnc

/-- `parse_opcode::<false>` from lib.rs: reads one opcode plus its
immediates and updates the pre-scan state.  The `block`, `loop`, `if`,
`else` and `end` arms apply their control event; every other arm only
consumes immediates (the source's remaining arms and its catch-all only
print). -/
def parse_opcode (r : Reader) (func_offset : Nat) (st : ParserStateM) : POut :=
  let pos := r.pos
  match r.read_u8 with
  | .error e => .perr e
  | .ok (op, r₁) =>
    if op = 0x02 then
      -- block: one block-type byte, push a Block descriptor at pos
      match r₁.read_u8 with
      | .error e => .perr e
      | .ok (_, r₂) =>
        match applyEvent func_offset st ⟨pos, .openEv .blockE⟩ with
        | some st' => .cont r₂ st' (some ⟨pos, .openEv .blockE⟩)
        | none => .pnc
    else if op = 0x03 then
      -- loop: one block-type byte, push a Loop descriptor at pos
      match r₁.read_u8 with
      | .error e => .perr e
      | .ok (_, r₂) =>
        match applyEvent func_offset st ⟨pos, .openEv .loopE⟩ with
        | some st' => .cont r₂ st' (some ⟨pos, .openEv .loopE⟩)
        | none => .pnc
    else if op = 0x04 then
      -- if: a TypeKind immediate, push an If descriptor at pos
      match TypeKind.read r₁ with
      | .error e => .perr e
      | .ok (_, r₂) =>
        match applyEvent func_offset st ⟨pos, .openEv .ifE⟩ with
        | some st' => .cont r₂ st' (some ⟨pos, .openEv .ifE⟩)
        | none => .pnc
    else if op = 0x05 then
      -- else: pop (must be If), record jump target, push an Else descriptor
      match applyEvent func_offset st ⟨pos, .elseEv⟩ with
      | some st' => .cont r₁ st' (some ⟨pos, .elseEv⟩)
      | none => .pnc
    else if op = 0x0b then
      -- end: pop and record a jump target, or break out when the stack
      -- is empty (end of the function body)
      match applyEvent func_offset st ⟨pos, .endEv⟩ with
      | some st' => .cont r₁ st' (some ⟨pos, .endEv⟩)
      | none => .brk r₁ st
    else
      match readImms (immsOf op) r₁ with
      | .ok r₂ => .cont r₂ st none
      | .error e => .perr e

/-- Result of the `parse_code` loop.  `done` carries the list of control
events performed (specification bookkeeping). -/
inductive PCOut where
  | done (r : Reader) (st : ParserStateM) (evs : List Event)
  | perrP (e : ParserError)
  | pncP
  | noFuel

/-- The `loop` of `parse_code`, fuel-bounded. -/
def parseCodeLoop : Nat → Reader → Nat → ParserStateM → PCOut
  | 0, _, _, _ => .noFuel
  | fuel + 1, r, func_offset, st =>
    match parse_opcode r func_offset st with
    | .cont r' st' ev =>
      match parseCodeLoop fuel r' func_offset st' with
      | .done r'' st'' evs => .done r'' st'' (ev.toList ++ evs)
      | other => other
    | .brk r' st' => .done r' st' []
    | .perr e => .perrP e
    | .pnc => .pncP

/-- `CodeInfo` from lib.rs. -/
structure CodeInfo where
  offset : Nat
  code : List Nat
  jump_targets : Nat → Option Nat

/-- Result of `parse_code`. -/
inductive PCRes where
  | okC (info : CodeInfo) (r : Reader) (evs : List Event)
  | errC (e : ParserError)
  | pncC
  | noFuelC

/-- `parse_code` from lib.rs: marks the current position, walks opcodes
until the terminating `end`, and returns the offset, the consumed byte
slice and the jump-target map.  The event list is specification
bookkeeping. -/
def parse_code (fuel : Nat) (r : Reader) : PCRes :=
  match parseCodeLoop fuel r r.pos ⟨[], fun _ => none⟩ with
  | .done r' st evs =>
    .okC ⟨r.pos, (r.data.drop r.pos).take (r'.pos - r.pos), st.jump_targets⟩ r' evs
  | .perrP e => .errC e
  | .pncP => .pncC
  | .noFuel => .noFuelC

/-! ## Declarative bracket matching (modelled from the spec)

The spec's notion of the "structurally matching terminator" of an
opening opcode: the first later `else`/`end` event at the same nesting
depth, where an opening contributes `+1` to the depth, an `end` `-1`,
and an `else` closes and reopens (net `0`). -/

/-- The module-absolute offset of the `i`-th control event. -/
def posAt (E : List Event) (i : Nat) : Nat :=
  ((E.get? i).map Event.pos).getD 0

/-- The kind of the `i`-th control event. -/
def kindAt (E : List Event) (i : Nat) : EvKind :=
  ((E.get? i).map Event.kind).getD .endEv

/-- Sum of depth contributions of the events with indices in `[a, b)`. -/
def deltaSum (E : List Event) (a b : Nat) : Int :=
  (((E.take b).drop a).map (fun e => e.kind.delta)).sum

/-- Whether `j` is a candidate matching terminator for the opening at
index `i`: a later terminator event with net depth zero strictly
between them. -/
def isMatchIdxB (E : List Event) (i j : Nat) : Bool :=
  decide (i < j) && decide (j < E.length) && (kindAt E j).isTerm &&
    decide (deltaSum E (i + 1) j = 0)

/-- The structurally matching terminator of the opening at index `i`:
the first candidate (modelled from the spec). -/
def matchIdx (E : List Event) (i : Nat) : Option Nat :=
  (List.range E.length).find? (isMatchIdxB E i)

/-- Whether the opening at index `i` has a matching terminator in `E`. -/
def matchedB (E : List Event) (i : Nat) : Bool :=
  (List.range E.length).any (isMatchIdxB E i)

/-- Whether index `i` holds an opening event. -/
def isOpeningAt (E : List Event) (i : Nat) : Bool :=
  decide (i < E.length) && (kindAt E i).isOpening

/-- Indices of the openings not yet matched inside `E`, innermost
first. -/
def openIndices (E : List Event) : List Nat :=
  ((List.range E.length).filter (fun i => isOpeningAt E i && ! matchedB E i)).reverse

/-- The pre-scan descriptor an opening event pushes. -/
def metaOf (E : List Event) (i : Nat) : BlockMetaW :=
  match kindAt E i with
  | .openEv k => ⟨k.toW, posAt E i⟩
  | .elseEv => ⟨.Else, posAt E i⟩
  | .endEv => ⟨.Else, posAt E i⟩

/-- Event offsets strictly increase along the run. -/
def PosIncr (E : List Event) : Prop :=
  List.Pairwise (· < ·) (E.map Event.pos)

/-- The correspondence between a pre-scan state and the declarative
matching data of the events processed so far:
the descriptor stack holds exactly the unmatched openings (innermost
first); the net depth above each stacked opening equals its stack
position; and the jump-target map holds exactly the match of every
matched opening. -/
def Inv (off : Nat) (E : List Event) (st : ParserStateM) : Prop :=
  st.blocks = (openIndices E).map (metaOf E)
  ∧ (∀ s (h : s < (openIndices E).length),
      deltaSum E ((openIndices E).get ⟨s, h⟩ + 1) E.length = (s : Int))
  ∧ (∀ i, isOpeningAt E i → matchedB E i →
      ∃ j, matchIdx E i = some j ∧
        st.jump_targets (posAt E i) = some (posAt E j + 1 - off))

/-! ## Module data model (src/uwasm/src/lib.rs) -/

/-- `FuncSignature` from lib.rs. -/
structure FuncSignature where
  params : List TypeKind
  results : List TypeKind
deriving DecidableEq

/-- `FuncBody` from lib.rs. -/
structure FuncBody where
  signature : FuncSignature
  offset : Nat
  code : List Nat
  jump_targets : Nat → Option Nat
  locals_types : List TypeKind
  locals_offsets : List Nat
  params_len_in_bytes : Nat
  non_param_locals_len_in_bytes : Nat

/-- `Func` from lib.rs. -/
structure Func where
  body : Option FuncBody
  name : Option (List Nat)
  signature : Option Nat

/-- `Global` from lib.rs (`initializer` renamed to `initExpr`). -/
structure Global where
  kind : TypeKind
  mutability : Nat
  initExpr : CodeInfo

/-- `DataSegment` from lib.rs (`offset` renamed to `offsetExpr` to avoid
clashing with the record dot name). -/
structure DataSegment where
  flags : Nat
  offsetExpr : CodeInfo
  data : List Nat

/-- `Table` from lib.rs. -/
structure Table where
  kind : TypeKind
  limits_flags : Nat
  limits_initial : Nat
  limits_max : Nat

/-- `WasmModule` from lib.rs. -/
structure WasmModule where
  functions : List Func
  globals : List Global
  data_segments : List DataSegment
  globals_offsets : List Nat
  tables : List Table

/-- `WasmModule::get_function_by_index`. -/
def WasmModule.get_function_by_index (m : WasmModule) (index : Nat) : Option FuncBody :=
  (m.functions.get? index).bind (·.body)

/-- `WasmModule::get_function_index_by_name`. -/
def WasmModule.get_function_index_by_name (m : WasmModule) (name : List Nat) : Option Nat :=
  m.functions.findIdx? (fun f => f.name = some name)

/-- `offsets_of_types`; `none` when a `len_bytes` call panics. -/
def offsets_of_types (types : List TypeKind) : Option (List Nat) :=
  match types with
  | [] => some []
  | t :: ts =>
    match t.len_bytes with
    | none => none
    | some n =>
      match offsets_of_types ts with
      | none => none
      | some rest => some (0 :: rest.map (· + n))

/-- Sum of `len_bytes` over a list of kinds (`none` when one panics). -/
def totalLenBytes (types : List TypeKind) : Option Nat :=
  match types with
  | [] => some 0
  | t :: ts =>
    match t.len_bytes, totalLenBytes ts with
    | some n, some rest => some (n + rest)
    | _, _ => none

/-! ## Interpreter state (src/uwasm/src/interpreter.rs) -/

/-- `MemoryAccessError` from interpreter.rs. -/
inductive MemoryAccessError where
  | InvalidVariable (idx : Nat)
  | InvalidOffset (offset : Nat)
  | InvalidLength (offset : Nat) (length : Nat)
deriving DecidableEq

/-- `InterpreterError` from interpreter.rs. -/
inductive InterpreterError where
  | ParserErrorE (e : ParserError)
  | FunctionNotFound
  | FunctionWithoutBody
  | InvalidSignature
  | StackEmpty
  | StackTooSmall
  | Unreachable
  | MemoryAccessErrorE (e : MemoryAccessError)
deriving DecidableEq

/-- Runtime block kinds (`BlockType` in interpreter.rs). -/
inductive BlockTypeI where
  | Block
  | Loop
deriving DecidableEq

/-- `BlockMeta` from interpreter.rs. -/
structure BlockMetaI where
  offset : Nat
  body_offset : Nat
  kind : BlockTypeI
deriving DecidableEq

/-- `StackFrame` from interpreter.rs: the borrowed code reader is kept
as a cursor `pos` into the function's code; the block `Vec` keeps its
top at the head of the list. -/
structure StackFrame where
  func_idx : Nat
  pos : Nat
  locals_offset : Nat
  curr_loop_start : Option Nat
  blocks : List BlockMetaI
deriving DecidableEq

/-- `VmContext` from interpreter.rs (release build: the operand stack is
its raw byte buffer; the advisory profile counters are omitted).  The
call stack keeps the top frame at the head of the list. -/
structure VmContext where
  stack : List Nat
  call_stack : List StackFrame
  locals : List Nat
deriving DecidableEq

/-- The mutable state threaded through `evaluate`: the VM context plus
the caller-owned linear memory and globals buffers. -/
structure EvalState where
  ctx : VmContext
  memory : List Nat
  globals : List Nat
deriving DecidableEq

/-- Partial results: a value, a typed interpreter error, or a panic. -/
inductive Res (α : Type) where
  | okR (a : α)
  | errR (e : InterpreterError)
  | pncR

/-! ### VmStack operations (release build: no type-tag sidecar) -/

/-- `VmStack::pop_bytes::<N>`: split off the top `n` bytes; returns
`(rest, chunk)`. -/
def pop_bytes (s : List Nat) (n : Nat) : Except InterpreterError (List Nat × List Nat) :=
  if n ≤ s.length then
    .ok (s.take (s.length - n), s.drop (s.length - n))
  else
    .error .StackTooSmall

/-- `VmStack::peek_bytes::<N>`. -/
def peek_bytes (s : List Nat) (n : Nat) : Except InterpreterError (List Nat) :=
  if n ≤ s.length then .ok (s.drop (s.length - n)) else .error .StackTooSmall

/-- `VmStack::pop_i32` / `pop_u32` (the 32-bit pattern). -/
def pop_i32 (s : List Nat) : Except InterpreterError (Nat × List Nat) :=
  match pop_bytes s 4 with
  | .ok (rest, chunk) => .ok (fromLe chunk, rest)
  | .error e => .error e

/-- `VmStack::pop_i64` (the 64-bit pattern). -/
def pop_i64 (s : List Nat) : Except InterpreterError (Nat × List Nat) :=
  match pop_bytes s 8 with
  | .ok (rest, chunk) => .ok (fromLe chunk, rest)
  | .error e => .error e

/-- `VmStack::push_i32` / `push_f32` on patterns. -/
def push_i32 (s : List Nat) (v : Nat) : List Nat := s ++ toLe 4 v

/-- `VmStack::push_i64` / `push_f64` on patterns. -/
def push_i64 (s : List Nat) (v : Nat) : List Nat := s ++ toLe 8 v

/-- `VmStack::pop_many` (release build: drop the top `n` bytes). -/
def pop_many (s : List Nat) (n : Nat) : List Nat := s.take (s.length - n)

/-! ### UntypedMemorySpan (locals arena fragments and globals) -/

/-- `UntypedMemorySpan::variable_to_offset`. -/
def variable_to_offset (offsets : List Nat) (var_idx : Nat) : Except InterpreterError Nat :=
  match offsets.get? var_idx with
  | some o => .ok o
  | none => .error (.MemoryAccessErrorE (.InvalidVariable var_idx))

/-- `UntypedMemorySpan::read_param_raw::<N>` (the source's error carries
a hardcoded length of 4). -/
def read_param_raw (sp : List Nat) (offset n : Nat) : Except InterpreterError (List Nat) :=
  if offset ≤ sp.length then
    if n ≤ sp.length - offset then
      .ok ((sp.drop offset).take n)
    else
      .error (.MemoryAccessErrorE (.InvalidLength offset 4))
  else
    .error (.MemoryAccessErrorE (.InvalidOffset offset))

/-- `UntypedMemorySpan::write_param_raw::<N>`. -/
def write_param_raw (sp : List Nat) (offset : Nat) (bs : List Nat) :
    Except InterpreterError (List Nat) :=
  if offset ≤ sp.length then
    if bs.length ≤ sp.length - offset then
      .ok (sp.take offset ++ bs ++ sp.drop (offset + bs.length))
    else
      .error (.MemoryAccessErrorE (.InvalidLength offset bs.length))
  else
    .error (.MemoryAccessErrorE (.InvalidOffset offset))

/-- `UntypedMemorySpan::push_into`: copy a variable onto the stack.  The
`todo!` arms for Void/Func/FuncRef panic. -/
def push_into (sp : List Nat) (stack : List Nat) (var_idx : Nat) (var_type : TypeKind)
    (offsets : List Nat) : Res (List Nat) :=
  match variable_to_offset offsets var_idx with
  | .error e => .errR e
  | .ok offset =>
    match var_type.len_bytes with
    | none => .pncR
    | some n =>
      match read_param_raw sp offset n with
      | .ok bs => .okR (stack ++ bs)
      | .error e => .errR e

/-- `UntypedMemorySpan::pop_from`: pop a variable's bytes off the stack
into the span.  Returns `(span, stack)`. -/
def pop_from (sp : List Nat) (stack : List Nat) (var_idx : Nat) (var_type : TypeKind)
    (offsets : List Nat) : Res (List Nat × List Nat) :=
  match variable_to_offset offsets var_idx with
  | .error e => .errR e
  | .ok offset =>
    match var_type.len_bytes with
    | none => .pncR
    | some n =>
      match pop_bytes stack n with
      | .error e => .errR e
      | .ok (rest, chunk) =>
        match write_param_raw sp offset chunk with
        | .ok sp' => .okR (sp', rest)
        | .error e => .errR e

/-- `UntypedMemorySpan::copy_from` (`local.tee`): peek without popping. -/
def copy_from (sp : List Nat) (stack : List Nat) (var_idx : Nat) (var_type : TypeKind)
    (offsets : List Nat) : Res (List Nat) :=
  match variable_to_offset offsets var_idx with
  | .error e => .errR e
  | .ok offset =>
    match var_type.len_bytes with
    | none => .pncR
    | some n =>
      match peek_bytes stack n with
      | .error e => .errR e
      | .ok chunk =>
        match write_param_raw sp offset chunk with
        | .ok sp' => .okR sp'
        | .error e => .errR e

/-! ### Linear memory (`Memory` in interpreter.rs) -/

/-- `Memory::read_bytes_at::<N>`: `None` when out of bounds. -/
def read_bytes_at (mem : List Nat) (offset n : Nat) : Option (List Nat) :=
  if offset + n ≤ mem.length then some ((mem.drop offset).take n) else none

/-- `Memory::write_bytes_at::<N>`: the `assert!` aborts (panics) when
out of bounds, so the result is an `Option`. -/
def write_bytes_at (mem : List Nat) (offset : Nat) (bs : List Nat) : Option (List Nat) :=
  if offset + bs.length ≤ mem.length then
    some (mem.take offset ++ bs ++ mem.drop (offset + bs.length))
  else
    none

/-- `copy_params_and_locals` from interpreter.rs. -/
def copy_params_and_locals (locals : List Nat) (params_data : List Nat)
    (func_body : FuncBody) : List Nat :=
  locals ++ params_data ++ List.replicate func_body.non_param_locals_len_in_bytes 0

/-- `usize::checked_add_signed`. -/
def usizeCheckedAddSigned (fixed : Nat) (d : Int) : Option Nat :=
  if 0 ≤ (fixed : Int) + d ∧ (fixed : Int) + d < 2 ^ 64 then
    some ((fixed : Int) + d).toNat
  else
    none

/-! ### Arithmetic helpers (the instantiations of `inplace_bin_op` /
`inplace_unary_op`) -/

/-- A binary i32 operation: pop `b`, pop `a`, push `f a b`. -/
def binOp32 (f : Nat → Nat → Nat) (s : List Nat) : Except InterpreterError (List Nat) :=
  match pop_i32 s with
  | .error e => .error e
  | .ok (b, s₁) =>
    match pop_i32 s₁ with
    | .error e => .error e
    | .ok (a, s₂) => .ok (push_i32 s₂ (f a b))

/-- A binary i32 operation whose Rust counterpart can panic (division
by zero, signed overflow): `none` from `f` is a panic. -/
def binOp32P (f : Nat → Nat → Option Nat) (s : List Nat) : Res (List Nat) :=
  match pop_i32 s with
  | .error e => .errR e
  | .ok (b, s₁) =>
    match pop_i32 s₁ with
    | .error e => .errR e
    | .ok (a, s₂) =>
      match f a b with
      | some v => .okR (push_i32 s₂ v)
      | none => .pncR

/-- A binary i32 comparison: pop two, push 1 or 0 as i32. -/
def binOpCmp32 (f : Nat → Nat → Bool) (s : List Nat) : Except InterpreterError (List Nat) :=
  binOp32 (fun a b => if f a b then 1 else 0) s

/-- A binary i64 operation. -/
def binOp64 (f : Nat → Nat → Nat) (s : List Nat) : Except InterpreterError (List Nat) :=
  match pop_i64 s with
  | .error e => .error e
  | .ok (b, s₁) =>
    match pop_i64 s₁ with
    | .error e => .error e
    | .ok (a, s₂) => .ok (push_i64 s₂ (f a b))

/-- A binary i64 operation that can panic. -/
def binOp64P (f : Nat → Nat → Option Nat) (s : List Nat) : Res (List Nat) :=
  match pop_i64 s with
  | .error e => .errR e
  | .ok (b, s₁) =>
    match pop_i64 s₁ with
    | .error e => .errR e
    | .ok (a, s₂) =>
      match f a b with
      | some v => .okR (push_i64 s₂ v)
      | none => .pncR

/-- A binary i64 comparison: pops two i64, pushes a bool as i32. -/
def binOpCmp64 (f : Nat → Nat → Bool) (s : List Nat) : Except InterpreterError (List Nat) :=
  match pop_i64 s with
  | .error e => .error e
  | .ok (b, s₁) =>
    match pop_i64 s₁ with
    | .error e => .error e
    | .ok (a, s₂) => .ok (push_i32 s₂ (if f a b then 1 else 0))

/-- A unary i32 operation. -/
def unaryOp32 (f : Nat → Nat) (s : List Nat) : Except InterpreterError (List Nat) :=
  match pop_i32 s with
  | .error e => .error e
  | .ok (a, s₁) => .ok (push_i32 s₁ (f a))

/-- The opaque floating-point operations of the handlers the
interpreter implements, as functions on IEEE-754 bit patterns. -/
structure FloatOps where
  f32Add : Nat → Nat → Nat
  f64Sub : Nat → Nat → Nat
  f64Mul : Nat → Nat → Nat
  f64LtB : Nat → Nat → Bool

/-- IEEE-754: a 32-bit float pattern compares unequal to `0.0` exactly
when clearing the sign bit leaves a nonzero pattern (both zeroes are
equal to zero; every other pattern, NaNs included, is unequal). -/
def f32NeZero (p : Nat) : Bool := decide (p % 2 ^ 31 ≠ 0)

/-- IEEE-754: a 64-bit float pattern compares unequal to `0.0`. -/
def f64NeZero (p : Nat) : Bool := decide (p % 2 ^ 63 ≠ 0)

/-- The 64-bit pattern of `1.0f64` (what `(true) as i32 as f64` pushes). -/
def f64One : Nat := 4607182418800017408

/-- An imported host function: it receives the operand stack and the
linear memory and returns their new contents (`ImportedFunc` in
interpreter.rs, with the host environment omitted). -/
def ImportedFunc : Type := List Nat → List Nat → List Nat × List Nat

/-- Signed reading of an 8-bit pattern. -/
def toInt8 (p : Nat) : Int := if p < 2 ^ 7 then (p : Int) else (p : Int) - 2 ^ 8

/-- Signed reading of a 16-bit pattern. -/
def toInt16 (p : Nat) : Int := if p < 2 ^ 15 then (p : Int) else (p : Int) - 2 ^ 16

/-- `do_branch` from interpreter.rs: resolve the `depth`-th block from
the top of the frame's block stack; for a `Block` the target is one
byte before the slot past its `end` (so the next iteration executes the
`end`), for a `Loop` it is the body offset.  Blocks shallower than the
target are drained.  `none` is a panic (depth out of range, or a
missing jump-target entry). -/
def do_branch (frame : StackFrame) (func : FuncBody) (depth : Nat) :
    Option (Nat × List BlockMetaI) :=
  match frame.blocks.get? depth with
  | none => none
  | some block =>
    let blocks' := frame.blocks.drop depth
    match block.kind with
    | .Block =>
      match func.jump_targets block.offset with
      | some t => some (t - 1, blocks')
      | none => none
    | .Loop => some (block.body_offset, blocks')

/-- `do_call` from interpreter.rs: for a defined callee push a frame
whose locals offset is the current arena length, transfer the top
parameter bytes from the stack into the arena and zero-fill the
remaining locals; for an import index invoke the host callback on the
stack and the linear memory.  Panics: stack shorter than the parameter
bytes (slice indexing), or an import index outside the imports array. -/
def do_call (mod : WasmModule) (imports : List ImportedFunc) (s : EvalState)
    (func_idx : Nat) : Res EvalState :=
  match mod.get_function_by_index func_idx with
  | some callee =>
    if callee.params_len_in_bytes ≤ s.ctx.stack.length then
      let params_mem := s.ctx.stack.drop (s.ctx.stack.length - callee.params_len_in_bytes)
      let newFrame : StackFrame := ⟨func_idx, 0, s.ctx.locals.length, none, []⟩
      .okR { s with ctx := ⟨pop_many s.ctx.stack callee.params_len_in_bytes,
                            newFrame :: s.ctx.call_stack,
                            copy_params_and_locals s.ctx.locals params_mem callee⟩ }
    else
      .pncR
  | none =>
    match imports.get? func_idx with
    | some f =>
      let r := f s.ctx.stack s.memory
      .okR { s with ctx := { s.ctx with stack := r.1 }, memory := r.2 }
    | none => .pncR

/-- The scan over the `br_table` target vector: reads `n` depths and
remembers the one whose index equals the popped selector (`idx as i32
== val` compares 32-bit patterns). -/
def brTableScan : Nat → Nat → Reader → Nat → Option Nat →
    Except ParserError (Option Nat × Reader)
  | 0, _, r, _, sel => .ok (sel, r)
  | n + 1, idx, r, val, sel =>
    match r.read_usize with
    | .error e => .error e
    | .ok (depth, r') =>
      brTableScan n (idx + 1) r' val (if idx % 2 ^ 32 = val then some depth else sel)

/-- One iteration of the `evaluate` loop from interpreter.rs: read one
opcode of the top frame and dispatch.  Outcomes: `contS` continue,
`doneS` the call stack is empty (normal termination), `errS` a typed
error is returned (the state carried along is the state at entry of
the failing iteration; the source's caller only sees the error), and
`pncS` a Rust panic. -/
inductive StepRes where
  | contS (s : EvalState)
  | doneS (s : EvalState)
  | errS (e : InterpreterError) (s : EvalState)
  | pncS

/-- The loop body of `evaluate` (src/uwasm/src/interpreter.rs), arm by
arm.  Wrapping integer arithmetic follows the release profile; an
absent opcode falls to the source's `todo!` and panics. -/
def step (mod : WasmModule) (imports : List ImportedFunc) (fops : FloatOps)
    (s : EvalState) : StepRes :=
  match s.ctx.call_stack with
  | [] => .doneS s
  | frame :: rest =>
    match mod.get_function_by_index frame.func_idx with
    | none => .pncS
    | some func =>
      let pos := func.offset + frame.pos
      match func.code.get? frame.pos with
      | none =>
        -- the frame's reader hit EndOfStream: pop the frame and drain
        -- the locals arena down to its locals offset
        if frame.locals_offset ≤ s.ctx.locals.length then
          .contS { s with ctx :=
            { s.ctx with call_stack := rest, locals := s.ctx.locals.take frame.locals_offset } }
        else
          .pncS
      | some op =>
        let r₁ : Reader := ⟨func.code, frame.pos + 1⟩
        let contTop := fun (fr : StackFrame) (stk : List Nat) =>
          StepRes.contS { s with ctx := { s.ctx with call_stack := fr :: rest, stack := stk } }
        let arith := fun (res : Except InterpreterError (List Nat)) =>
          match res with
          | .ok stk => contTop { frame with pos := frame.pos + 1 } stk
          | .error e => StepRes.errS e s
        let arithP := fun (res : Res (List Nat)) =>
          match res with
          | .okR stk => contTop { frame with pos := frame.pos + 1 } stk
          | .errR e => StepRes.errS e s
          | .pncR => StepRes.pncS
        if op = 0x00 then
          -- unreachable
          .errS .Unreachable s
        else if op = 0x02 then
          -- block
          match r₁.read_usize with
          | .error e => .errS (.ParserErrorE e) s
          | .ok (_, r₂) =>
            let fr' : StackFrame :=
              { frame with pos := r₂.pos, curr_loop_start := some pos,
                           blocks := ⟨pos, r₂.pos, .Block⟩ :: frame.blocks }
            contTop fr' s.ctx.stack
        else if op = 0x03 then
          -- loop
          match r₁.read_usize with
          | .error e => .errS (.ParserErrorE e) s
          | .ok (_, r₂) =>
            let fr' : StackFrame :=
              { frame with pos := r₂.pos, curr_loop_start := some pos,
                           blocks := ⟨pos, r₂.pos, .Loop⟩ :: frame.blocks }
            contTop fr' s.ctx.stack
        else if op = 0x04 then
          -- if: the popped condition's kind follows the block type
          match TypeKind.read r₁ with
          | .error e => .errS (.ParserErrorE e) s
          | .ok (ty, r₂) =>
            let condRes : Res (Bool × List Nat) :=
              match ty with
              | .Void => .pncR
              | .Func => .pncR
              | .FuncRef => .pncR
              | .F32 =>
                match pop_i32 s.ctx.stack with
                | .ok (p, stk) => .okR (f32NeZero p, stk)
                | .error e => .errR e
              | .F64 =>
                match pop_i64 s.ctx.stack with
                | .ok (p, stk) => .okR (f64NeZero p, stk)
                | .error e => .errR e
              | .I32 =>
                match pop_i32 s.ctx.stack with
                | .ok (p, stk) => .okR (decide (p ≠ 0), stk)
                | .error e => .errR e
              | .I64 =>
                match pop_i64 s.ctx.stack with
                | .ok (p, stk) => .okR (decide (p ≠ 0), stk)
                | .error e => .errR e
            match condRes with
            | .errR e => .errS e s
            | .pncR => .pncS
            | .okR (cond, stk) =>
              if cond then
                contTop { frame with pos := r₂.pos } stk
              else
                match func.jump_targets pos with
                | some t => contTop { frame with pos := t } stk
                | none => .pncS
        else if op = 0x05 then
          -- else: skip_to(jump_targets[pos] + 1)
          match func.jump_targets pos with
          | some t => contTop { frame with pos := t + 1 } s.ctx.stack
          | none => .pncS
        else if op = 0x0b then
          -- end: pop the innermost block descriptor, if any
          match frame.blocks with
          | _ :: bs => contTop { frame with pos := frame.pos + 1, blocks := bs } s.ctx.stack
          | [] => contTop { frame with pos := frame.pos + 1 } s.ctx.stack
        else if op = 0x0c then
          -- br
          match r₁.read_usize with
          | .error e => .errS (.ParserErrorE e) s
          | .ok (depth, _) =>
            match do_branch frame func depth with
            | some (target, blocks') =>
              contTop { frame with pos := target, blocks := blocks' } s.ctx.stack
            | none => .pncS
        else if op = 0x0d then
          -- br_if
          match r₁.read_usize with
          | .error e => .errS (.ParserErrorE e) s
          | .ok (depth, r₂) =>
            match pop_i32 s.ctx.stack with
            | .error e => .errS e s
            | .ok (c, stk) =>
              if c ≠ 0 then
                match do_branch frame func depth with
                | some (target, blocks') =>
                  contTop { frame with pos := target, blocks := blocks' } stk
                | none => .pncS
              else
                contTop { frame with pos := r₂.pos } stk
        else if op = 0x0e then
          -- br_table
          match pop_i32 s.ctx.stack with
          | .error e => .errS e s
          | .ok (val, stk) =>
            match r₁.read_usize with
            | .error e => .errS (.ParserErrorE e) s
            | .ok (n, r₂) =>
              match brTableScan n 0 r₂ val none with
              | .error e => .errS (.ParserErrorE e) s
              | .ok (sel, r₃) =>
                match r₃.read_usize with
                | .error e => .errS (.ParserErrorE e) s
                | .ok (default_depth, _) =>
                  match do_branch frame func (sel.getD default_depth) with
                  | some (target, blocks') =>
                    contTop { frame with pos := target, blocks := blocks' } stk
                  | none => .pncS
        else if op = 0x0f then
          -- return: fast-forward to the end of the code
          contTop { frame with pos := func.code.length } s.ctx.stack
        else if op = 0x10 then
          -- call
          match r₁.read_usize with
          | .error e => .errS (.ParserErrorE e) s
          | .ok (callee_idx, r₂) =>
            let fr' : StackFrame := { frame with pos := r₂.pos }
            let s₁ : EvalState := { s with ctx := { s.ctx with call_stack := fr' :: rest } }
            match do_call mod imports s₁ callee_idx with
            | .okR s' => .contS s'
            | .errR e => .errS e s
            | .pncR => .pncS
        else if op = 0x11 then
          -- call_indirect: pop the function index off the stack
          match r₁.read_usize with
          | .error e => .errS (.ParserErrorE e) s
          | .ok (_, r₂) =>
            match r₂.read_usize with
            | .error e => .errS (.ParserErrorE e) s
            | .ok (_, r₃) =>
              match pop_i32 s.ctx.stack with
              | .error e => .errS e s
              | .ok (p, stk) =>
                let callee_idx := if p < 2 ^ 31 then p else 2 ^ 64 - 2 ^ 32 + p
                let fr' : StackFrame := { frame with pos := r₃.pos }
                let s₁ : EvalState :=
                  { s with ctx := { s.ctx with stack := stk, call_stack := fr' :: rest } }
                match do_call mod imports s₁ callee_idx with
                | .okR s' => .contS s'
                | .errR e => .errS e s
                | .pncR => .pncS
        else if op = 0x1a then
          -- drop (always pops an i32-sized value)
          match pop_i32 s.ctx.stack with
          | .error e => .errS e s
          | .ok (_, stk) => contTop { frame with pos := frame.pos + 1 } stk
        else if op = 0x1b then
          -- select
          match pop_i32 s.ctx.stack with
          | .error e => .errS e s
          | .ok (cond, stk₁) =>
            match pop_i32 stk₁ with
            | .error e => .errS e s
            | .ok (a, stk₂) =>
              match pop_i32 stk₂ with
              | .error e => .errS e s
              | .ok (b, stk₃) =>
                contTop { frame with pos := frame.pos + 1 }
                  (push_i32 stk₃ (if cond = 0 then a else b))
        else if op = 0x20 then
          -- local.get
          match r₁.read_usize with
          | .error e => .errS (.ParserErrorE e) s
          | .ok (local_idx, r₂) =>
            match func.locals_types.get? local_idx with
            | none => .pncS
            | some ty =>
              if frame.locals_offset ≤ s.ctx.locals.length then
                match push_into (s.ctx.locals.drop frame.locals_offset) s.ctx.stack
                    local_idx ty func.locals_offsets with
                | .okR stk => contTop { frame with pos := r₂.pos } stk
                | .errR e => .errS e s
                | .pncR => .pncS
              else .pncS
        else if op = 0x21 then
          -- local.set
          match r₁.read_usize with
          | .error e => .errS (.ParserErrorE e) s
          | .ok (local_idx, r₂) =>
            match func.locals_types.get? local_idx with
            | none => .pncS
            | some ty =>
              if frame.locals_offset ≤ s.ctx.locals.length then
                match pop_from (s.ctx.locals.drop frame.locals_offset) s.ctx.stack
                    local_idx ty func.locals_offsets with
                | .okR (sp', stk) =>
                  let fr' : StackFrame := { frame with pos := r₂.pos }
                  let lcl' := s.ctx.locals.take frame.locals_offset ++ sp'
                  StepRes.contS { s with ctx := ⟨stk, fr' :: rest, lcl'⟩ }
                | .errR e => .errS e s
                | .pncR => .pncS
              else .pncS
        else if op = 0x22 then
          -- local.tee
          match r₁.read_usize with
          | .error e => .errS (.ParserErrorE e) s
          | .ok (local_idx, r₂) =>
            match func.locals_types.get? local_idx with
            | none => .pncS
            | some ty =>
              if frame.locals_offset ≤ s.ctx.locals.length then
                match copy_from (s.ctx.locals.drop frame.locals_offset) s.ctx.stack
                    local_idx ty func.locals_offsets with
                | .okR sp' =>
                  let fr' : StackFrame := { frame with pos := r₂.pos }
                  let lcl' := s.ctx.locals.take frame.locals_offset ++ sp'
                  StepRes.contS { s with ctx := ⟨s.ctx.stack, fr' :: rest, lcl'⟩ }
                | .errR e => .errS e s
                | .pncR => .pncS
              else .pncS
        else if op = 0x23 then
          -- global.get
          match r₁.read_usize with
          | .error e => .errS (.ParserErrorE e) s
          | .ok (global_idx, r₂) =>
            match mod.globals.get? global_idx with
            | none => .pncS
            | some g =>
              match push_into s.globals s.ctx.stack global_idx g.kind mod.globals_offsets with
              | .okR stk => contTop { frame with pos := r₂.pos } stk
              | .errR e => .errS e s
              | .pncR => .pncS
        else if op = 0x24 then
          -- global.set
          match r₁.read_usize with
          | .error e => .errS (.ParserErrorE e) s
          | .ok (global_idx, r₂) =>
            match mod.globals.get? global_idx with
            | none => .pncS
            | some g =>
              match pop_from s.globals s.ctx.stack global_idx g.kind mod.globals_offsets with
              | .okR (glob', stk) =>
                let fr' : StackFrame := { frame with pos := r₂.pos }
                let ctx' : VmContext := { s.ctx with stack := stk, call_stack := fr' :: rest }
                StepRes.contS { s with ctx := ctx', globals := glob' }
              | .errR e => .errS e s
              | .pncR => .pncS
        else if 0x28 ≤ op ∧ op ≤ 0x35 then
          -- loads; out-of-bounds reads unwrap a None and panic
          match r₁.read_usize with
          | .error e => .errS (.ParserErrorE e) s
          | .ok (_, r₂) =>
            match r₂.read_usize with
            | .error e => .errS (.ParserErrorE e) s
            | .ok (fixed_offset, r₃) =>
              match pop_i32 s.ctx.stack with
              | .error e => .errS e s
              | .ok (p, stk) =>
                match usizeCheckedAddSigned fixed_offset (toInt32 p) with
                | none => .pncS
                | some offset =>
                  let width : Nat :=
                    if op = 0x28 ∨ op = 0x2a then 4
                    else if op = 0x29 ∨ op = 0x2b then 8
                    else if op = 0x2c ∨ op = 0x2d ∨ op = 0x30 ∨ op = 0x31 then 1
                    else if op = 0x2e ∨ op = 0x2f ∨ op = 0x32 ∨ op = 0x33 then 2
                    else 4
                  match read_bytes_at s.memory offset width with
                  | none => .pncS
                  | some bs =>
                    let v := fromLe bs
                    let stk' :=
                      if op = 0x28 ∨ op = 0x2a then push_i32 stk v
                      else if op = 0x29 ∨ op = 0x2b then push_i64 stk v
                      else if op = 0x2c then push_i32 stk (patOfInt32 (toInt8 v))
                      else if op = 0x2d then push_i32 stk v
                      else if op = 0x2e then push_i32 stk (patOfInt32 (toInt16 v))
                      else if op = 0x2f then push_i32 stk v
                      else if op = 0x30 then push_i64 stk (patOfInt64 (toInt8 v))
                      else if op = 0x31 then push_i64 stk v
                      else if op = 0x32 then push_i64 stk (patOfInt64 (toInt16 v))
                      else if op = 0x33 then push_i64 stk v
                      else if op = 0x34 then push_i64 stk (patOfInt64 (toInt32 v))
                      else push_i64 stk v
                    contTop { frame with pos := r₃.pos } stk'
        else if 0x36 ≤ op ∧ op ≤ 0x3e then
          -- stores; the bounds assert! aborts on failure
          match r₁.read_usize with
          | .error e => .errS (.ParserErrorE e) s
          | .ok (_, r₂) =>
            match r₂.read_usize with
            | .error e => .errS (.ParserErrorE e) s
            | .ok (fixed_offset, r₃) =>
              let wide := op = 0x37 ∨ op = 0x39 ∨ op = 0x3c ∨ op = 0x3d ∨ op = 0x3e
              match (if wide then pop_i64 s.ctx.stack else pop_i32 s.ctx.stack) with
              | .error e => .errS e s
              | .ok (val, stk₁) =>
                match pop_i32 stk₁ with
                | .error e => .errS e s
                | .ok (p, stk₂) =>
                  match usizeCheckedAddSigned fixed_offset (toInt32 p) with
                  | none => .pncS
                  | some offset =>
                    let bs :=
                      if op = 0x36 ∨ op = 0x38 then toLe 4 val
                      else if op = 0x37 ∨ op = 0x39 then toLe 8 val
                      else if op = 0x3a ∨ op = 0x3c then toLe 1 val
                      else if op = 0x3b ∨ op = 0x3d then toLe 2 val
                      else toLe 4 val
                    match write_bytes_at s.memory offset bs with
                    | none => .pncS
                    | some mem' =>
                      let fr' : StackFrame := { frame with pos := r₃.pos }
                      let ctx' : VmContext :=
                        { s.ctx with stack := stk₂, call_stack := fr' :: rest }
                      StepRes.contS { s with ctx := ctx', memory := mem' }
        else if op = 0x41 then
          -- i32.const: signed LEB, i32::try_from(...).unwrap()
          match r₁.read_isize with
          | .error e => .errS (.ParserErrorE e) s
          | .ok (v, r₂) =>
            if -(2 ^ 31) ≤ v ∧ v < 2 ^ 31 then
              contTop { frame with pos := r₂.pos } (push_i32 s.ctx.stack (patOfInt32 v))
            else .pncS
        else if op = 0x42 then
          -- i64.const: the source reads an UNSIGNED LEB here, then
          -- i64::try_from(val).unwrap()
          match r₁.read_usize with
          | .error e => .errS (.ParserErrorE e) s
          | .ok (v, r₂) =>
            if v < 2 ^ 63 then
              contTop { frame with pos := r₂.pos } (push_i64 s.ctx.stack v)
            else .pncS
        else if op = 0x43 then
          -- f32.const
          match r₁.read_f32 with
          | .error e => .errS (.ParserErrorE e) s
          | .ok (v, r₂) => contTop { frame with pos := r₂.pos } (push_i32 s.ctx.stack v)
        else if op = 0x44 then
          -- f64.const
          match r₁.read_f64 with
          | .error e => .errS (.ParserErrorE e) s
          | .ok (v, r₂) => contTop { frame with pos := r₂.pos } (push_i64 s.ctx.stack v)
        else if op = 0x45 then
          arith (unaryOp32 (fun a => if a = 0 then 1 else 0) s.ctx.stack)
        else if op = 0x46 then
          arith (binOpCmp32 (fun a b => a = b) s.ctx.stack)
        else if op = 0x47 then
          arith (binOpCmp32 (fun a b => a ≠ b) s.ctx.stack)
        else if op = 0x48 then
          arith (binOpCmp32 (fun a b => toInt32 a < toInt32 b) s.ctx.stack)
        else if op = 0x49 then
          arith (binOpCmp32 (fun a b => a < b) s.ctx.stack)
        else if op = 0x4a then
          arith (binOpCmp32 (fun a b => toInt32 a ≤ toInt32 b) s.ctx.stack)
        else if op = 0x4b then
          arith (binOpCmp32 (fun a b => toInt32 b < toInt32 a) s.ctx.stack)
        else if op = 0x4c then
          arith (binOpCmp32 (fun a b => b < a) s.ctx.stack)
        else if op = 0x4d then
          arith (binOpCmp32 (fun a b => a ≤ b) s.ctx.stack)
        else if op = 0x4e then
          arith (binOpCmp32 (fun a b => toInt32 b ≤ toInt32 a) s.ctx.stack)
        else if op = 0x4f then
          arith (binOpCmp32 (fun a b => b ≤ a) s.ctx.stack)
        else if op = 0x50 then
          -- i64.eqz
          match pop_i64 s.ctx.stack with
          | .error e => .errS e s
          | .ok (a, stk) =>
            contTop { frame with pos := frame.pos + 1 }
              (push_i32 stk (if a = 0 then 1 else 0))
        else if op = 0x52 then
          arith (binOpCmp64 (fun a b => a ≠ b) s.ctx.stack)
        else if op = 0x54 then
          arith (binOpCmp64 (fun a b => a < b) s.ctx.stack)
        else if op = 0x56 then
          arith (binOpCmp64 (fun a b => b < a) s.ctx.stack)
        else if op = 0x5a then
          arith (binOpCmp64 (fun a b => b ≤ a) s.ctx.stack)
        else if op = 0x63 then
          -- f64.lt: pushes (a < b) as i32 as f64, an f64 0.0 or 1.0
          arith (binOp64 (fun a b => if fops.f64LtB a b then f64One else 0) s.ctx.stack)
        else if op = 0x6a then
          -- i32.add (wraps in release builds)
          arith (binOp32 (fun a b => (a + b) % 2 ^ 32) s.ctx.stack)
        else if op = 0x6b then
          -- i32.sub (wraps in release builds)
          arith (binOp32 (fun a b => (a + (2 ^ 32 - b % 2 ^ 32)) % 2 ^ 32) s.ctx.stack)
        else if op = 0x6c then
          -- i32.mul (wrapping_mul)
          arith (binOp32 (fun a b => a * b % 2 ^ 32) s.ctx.stack)
        else if op = 0x6d then
          -- i32.div_s: panics on zero or MIN / -1
          arithP (binOp32P (fun a b =>
            if toInt32 b = 0 ∨ (toInt32 a = -(2 ^ 31) ∧ toInt32 b = -1) then none
            else some (patOfInt32 (Int.tdiv (toInt32 a) (toInt32 b)))) s.ctx.stack)
        else if op = 0x6e then
          -- i32.div_u: panics on zero
          arithP (binOp32P (fun a b => if b = 0 then none else some (a / b)) s.ctx.stack)
        else if op = 0x70 then
          -- i32.rem_u: panics on zero
          arithP (binOp32P (fun a b => if b = 0 then none else some (a % b)) s.ctx.stack)
        else if op = 0x71 then
          arith (binOp32 (fun a b => a &&& b) s.ctx.stack)
        else if op = 0x72 then
          arith (binOp32 (fun a b => a ||| b) s.ctx.stack)
        else if op = 0x73 then
          arith (binOp32 (fun a b => a ^^^ b) s.ctx.stack)
        else if op = 0x74 then
          -- i32.shl (release: shift amount masked)
          arith (binOp32 (fun a b => a * 2 ^ (b % 32) % 2 ^ 32) s.ctx.stack)
        else if op = 0x76 then
          -- the source labels this i32.shr_u but shifts i32 operands,
          -- i.e. an arithmetic shift
          arith (binOp32 (fun a b => patOfInt32 (Int.ediv (toInt32 a) (2 ^ (b % 32)))) s.ctx.stack)
        else if op = 0x7c then
          arith (binOp64 (fun a b => (a + b) % 2 ^ 64) s.ctx.stack)
        else if op = 0x7e then
          arith (binOp64 (fun a b => a * b % 2 ^ 64) s.ctx.stack)
        else if op = 0x80 then
          arithP (binOp64P (fun a b => if b = 0 then none else some (a / b)) s.ctx.stack)
        else if op = 0x82 then
          arithP (binOp64P (fun a b => if b = 0 then none else some (a % b)) s.ctx.stack)
        else if op = 0x83 then
          arith (binOp64 (fun a b => a &&& b) s.ctx.stack)
        else if op = 0x84 then
          arith (binOp64 (fun a b => a ||| b) s.ctx.stack)
        else if op = 0x86 then
          arith (binOp64 (fun a b => a * 2 ^ (b % 64) % 2 ^ 64) s.ctx.stack)
        else if op = 0x88 then
          arith (binOp64 (fun a b => a / 2 ^ (b % 64)) s.ctx.stack)
        else if op = 0x92 then
          arith (binOp32 fops.f32Add s.ctx.stack)
        else if op = 0xa1 then
          arith (binOp64 fops.f64Sub s.ctx.stack)
        else if op = 0xa2 then
          arith (binOp64 fops.f64Mul s.ctx.stack)
        else if op = 0xa7 then
          -- i32.wrap_i64: i32::try_from(a & 0xffffffff).unwrap() panics
          -- when the low 32 bits exceed i32::MAX
          match pop_i64 s.ctx.stack with
          | .error e => .errS e s
          | .ok (a, stk) =>
            if a % 2 ^ 32 < 2 ^ 31 then
              contTop { frame with pos := frame.pos + 1 } (push_i32 stk (a % 2 ^ 32))
            else .pncS
        else if op = 0xad then
          -- i64.extend_i32_u (the source converts via i64::from(i32),
          -- which sign-extends)
          match pop_i32 s.ctx.stack with
          | .error e => .errS e s
          | .ok (a, stk) =>
            contTop { frame with pos := frame.pos + 1 }
              (push_i64 stk (patOfInt64 (toInt32 a)))
        else if op = 0xbe then
          -- f32.reinterpret_i32: the bytes are unchanged
          arith (unaryOp32 (fun a => a) s.ctx.stack)
        else if op = 0xc0 then
          -- i32.extend8_s (the source's closure is the identity)
          arith (unaryOp32 (fun a => a) s.ctx.stack)
        else
          .pncS

/-- Outcome of `evaluate`. -/
inductive EvalRes where
  | okE (s : EvalState)
  | errE (e : InterpreterError) (s : EvalState)
  | pncE
  | noFuelE

/-- The `while let` loop of `evaluate`, fuel-bounded. -/
def evaluateLoop : Nat → WasmModule → List ImportedFunc → FloatOps → EvalState → EvalRes
  | 0, _, _, _, _ => .noFuelE
  | fuel + 1, mod, imports, fops, s =>
    match step mod imports fops s with
    | .contS s' => evaluateLoop fuel mod imports fops s'
    | .doneS s' => .okE s'
    | .errS e s' => .errE e s'
    | .pncS => .pncE

/-- `evaluate` from interpreter.rs: clear the operand stack, append the
arguments and zeroed locals to the (NOT cleared) locals arena, reset
the call stack to a single frame whose locals offset is 0, and run the
loop. -/
def evaluate (fuel : Nat) (mod : WasmModule) (func_idx : Nat) (args : List Nat)
    (ctx : VmContext) (globals memory : List Nat) (imports : List ImportedFunc)
    (fops : FloatOps) : EvalRes :=
  let ctx₁ : VmContext := { ctx with stack := [] }
  match mod.get_function_by_index func_idx with
  | none => .errE .FunctionNotFound ⟨ctx₁, memory, globals⟩
  | some func =>
    let locals' := copy_params_and_locals ctx₁.locals args func
    let frame : StackFrame := ⟨func_idx, 0, 0, none, []⟩
    evaluateLoop fuel mod imports fops ⟨⟨[], [frame], locals'⟩, memory, globals⟩

/-- The element-wise signature check of `execute_function`
(`iter::zip` of expected and actual parameter kinds). -/
def zipKindsEq (a b : List TypeKind) : Bool :=
  (a.zip b).all (fun p => p.1 = p.2)

/-- `TResult::pop`: pop a result of the given kind off the operand
stack, as a bit pattern.  `Void` is the `bool` operand of the source
(a 4-byte pop); `Func`/`FuncRef` have no `Operand` impl in the source
and are unreachable, modelled as 4-byte pops. -/
def popByKind (ty : TypeKind) (s : List Nat) : Except InterpreterError (Nat × List Nat) :=
  match ty with
  | .I64 => pop_i64 s
  | .F64 => pop_i64 s
  | _ => pop_i32 s

/-- Outcome of `execute_function`. -/
inductive ExecRes where
  | okX (value : Nat) (s : EvalState)
  | errX (e : InterpreterError) (s : EvalState)
  | pncX
  | noFuelX

/-- `execute_function` from interpreter.rs: resolve the name, require a
body, check the parameter arity, then each parameter kind, then the
result kind, and only then evaluate; on success pop the typed result.
The argument tuple is modelled as its kind list plus its serialized
bytes. -/
def execute_function (fuel : Nat) (mod : WasmModule) (func_name : List Nat)
    (argTypes : List TypeKind) (argsBytes : List Nat) (resType : TypeKind)
    (ctx : VmContext) (memory globals : List Nat) (imports : List ImportedFunc)
    (fops : FloatOps) : ExecRes :=
  let s₀ : EvalState := ⟨ctx, memory, globals⟩
  match mod.get_function_index_by_name func_name with
  | none => .errX .FunctionNotFound s₀
  | some func_idx =>
    match (mod.functions.get? func_idx).bind (·.body) with
    | none => .errX .FunctionWithoutBody s₀
    | some func =>
      if func.signature.params.length ≠ argTypes.length then
        .errX .InvalidSignature s₀
      else if ¬ zipKindsEq func.signature.params argTypes then
        .errX .InvalidSignature s₀
      else
        let valid_return : Option Bool :=
          match func.signature.results with
          | [] => some (resType = .Void)
          | [ty] => some (ty = resType)
          | _ => none
        match valid_return with
        | none => .pncX
        | some false => .errX .InvalidSignature s₀
        | some true =>
          match evaluate fuel mod func_idx argsBytes ctx globals memory imports fops with
          | .okE s' =>
            match popByKind resType s'.ctx.stack with
            | .ok (v, stk) => .okX v { s' with ctx := { s'.ctx with stack := stk } }
            | .error e => .errX e s'
          | .errE e s' => .errX e s'
          | .pncE => .pncX
          | .noFuelE => .noFuelX

/-! ## The module loader's section walk (`parse` in src/uwasm/src/lib.rs) -/

/-- `SectionKind` from parser.rs. -/
inductive SectionKind where
  | Custom
  | Type
  | Import
  | Function
  | Table
  | Memory
  | Global
  | Export
  | Elem
  | Code
  | Data
deriving DecidableEq

/-- `SectionKind::read` (`impl Item for SectionKind`): the eleven
recognized discriminants; anything else is `InvalidValue`. -/
def SectionKind.read (r : Reader) : Except ParserError (SectionKind × Reader) :=
  match r.read_u8 with
  | .error e => .error e
  | .ok (b, r') =>
    if b = 0x00 then .ok (.Custom, r')
    else if b = 0x01 then .ok (.Type, r')
    else if b = 0x02 then .ok (.Import, r')
    else if b = 0x03 then .ok (.Function, r')
    else if b = 0x04 then .ok (.Table, r')
    else if b = 0x05 then .ok (.Memory, r')
    else if b = 0x06 then .ok (.Global, r')
    else if b = 0x07 then .ok (.Export, r')
    else if b = 0x09 then .ok (.Elem, r')
    else if b = 0x0A then .ok (.Code, r')
    else if b = 0x0B then .ok (.Data, r')
    else .error (.InvalidValue r.pos b)

/-- The accumulated loader state of `parse`'s local variables. -/
structure ParseAcc where
  functions : List Func
  signatures : List FuncSignature
  imports : Nat
  globals : List Global
  data_segments : List DataSegment
  tables : List Table

/-- Loader outcomes: success, a propagated parse error, a panic, or
fuel exhaustion of a fuel-bounded inner loop. -/
inductive SRes (α : Type) where
  | okS (a : α)
  | errSe (e : ParserError)
  | pncSe
  | noFuelSe

/-- Reads `n` `TypeKind`s. -/
def readKinds : Nat → Reader → List TypeKind → Except ParserError (List TypeKind × Reader)
  | 0, r, acc => .ok (acc.reverse, r)
  | n + 1, r, acc =>
    match TypeKind.read r with
    | .error e => .error e
    | .ok (k, r') => readKinds n r' (k :: acc)

/-- `impl Item for FuncSignature` from lib.rs. -/
def FuncSignature.read (r : Reader) : Except ParserError (FuncSignature × Reader) :=
  match r.read_usize with
  | .error e => .error e
  | .ok (num_params, r₁) =>
    match readKinds num_params r₁ [] with
    | .error e => .error e
    | .ok (params, r₂) =>
      match r₂.read_usize with
      | .error e => .error e
      | .ok (num_results, r₃) =>
        match readKinds num_results r₃ [] with
        | .error e => .error e
        | .ok (results, r₄) => .ok (⟨params, results⟩, r₄)

/-- The type-section loop: each entry's form must be `Func` (`todo!`
otherwise). -/
def typeSectionLoop : Nat → Reader → List FuncSignature → SRes (List FuncSignature × Reader)
  | 0, r, sigs => .okS (sigs, r)
  | n + 1, r, sigs =>
    match TypeKind.read r with
    | .error e => .errSe e
    | .ok (.Func, r₁) =>
      match FuncSignature.read r₁ with
      | .error e => .errSe e
      | .ok (sig, r₂) => typeSectionLoop n r₂ (sigs ++ [sig])
    | .ok (_, _) => .pncSe

/-- The import-section loop: function imports (kind 0) append an import
placeholder named after the field. -/
def importSectionLoop : Nat → Reader → List Func → Nat → SRes (List Func × Nat × Reader)
  | 0, r, fns, imps => .okS (fns, imps, r)
  | n + 1, r, fns, imps =>
    match r.read_str with
    | .error e => .errSe e
    | .ok (_, r₁) =>
      match r₁.read_str with
      | .error e => .errSe e
      | .ok (field_name, r₂) =>
        match r₂.read_u8 with
        | .error e => .errSe e
        | .ok (import_kind, r₃) =>
          match r₃.read_usize with
          | .error e => .errSe e
          | .ok (import_sig_idx, r₄) =>
            if import_kind = 0 then
              importSectionLoop n r₄
                (fns ++ [⟨none, some field_name, some import_sig_idx⟩]) (imps + 1)
            else
              importSectionLoop n r₄ fns imps

/-- The function-section loop.  The source's progress print indexes
`signatures[sig_index]`, so an out-of-range index panics even though
the value is otherwise unused. -/
def functionSectionLoop : Nat → Reader → List FuncSignature → List Func →
    SRes (List Func × Reader)
  | 0, r, _, fns => .okS (fns, r)
  | n + 1, r, sigs, fns =>
    match r.read_usize with
    | .error e => .errSe e
    | .ok (sig_index, r₁) =>
      if sig_index < sigs.length then
        functionSectionLoop n r₁ sigs (fns ++ [⟨none, none, some sig_index⟩])
      else
        .pncSe

/-- The table-section loop. -/
def tableSectionLoop : Nat → Reader → List Table → SRes (List Table × Reader)
  | 0, r, tbls => .okS (tbls, r)
  | n + 1, r, tbls =>
    match TypeKind.read r with
    | .error e => .errSe e
    | .ok (kind, r₁) =>
      match r₁.read_u8 with
      | .error e => .errSe e
      | .ok (limits_flags, r₂) =>
        match r₂.read_u8 with
        | .error e => .errSe e
        | .ok (limits_initial, r₃) =>
          match r₃.read_u8 with
          | .error e => .errSe e
          | .ok (limits_max, r₄) =>
            tableSectionLoop n r₄ (tbls ++ [⟨kind, limits_flags, limits_initial, limits_max⟩])

/-- The memory-section loop (flags and initial size only; the source
reads no maximum). -/
def memorySectionLoop : Nat → Reader → SRes Reader
  | 0, r => .okS r
  | n + 1, r =>
    match r.read_u8 with
    | .error e => .errSe e
    | .ok (_, r₁) =>
      match r₁.read_u8 with
      | .error e => .errSe e
      | .ok (_, r₂) => memorySectionLoop n r₂

/-- The global-section loop: kind, mutability, then the init expression
via `parse_code`. -/
def globalSectionLoop (fuel : Nat) : Nat → Reader → List Global → SRes (List Global × Reader)
  | 0, r, gs => .okS (gs, r)
  | n + 1, r, gs =>
    match TypeKind.read r with
    | .error e => .errSe e
    | .ok (kind, r₁) =>
      match r₁.read_u8 with
      | .error e => .errSe e
      | .ok (global_mut, r₂) =>
        match parse_code fuel r₂ with
        | .okC info r₃ _ => globalSectionLoop fuel n r₃ (gs ++ [⟨kind, global_mut, info⟩])
        | .errC e => .errSe e
        | .pncC => .pncSe
        | .noFuelC => .noFuelSe

/-- The export-section loop: function exports name `functions[index]`
(out-of-range indexing panics). -/
def exportSectionLoop : Nat → Reader → List Func → SRes (List Func × Reader)
  | 0, r, fns => .okS (fns, r)
  | n + 1, r, fns =>
    match r.read_str with
    | .error e => .errSe e
    | .ok (name, r₁) =>
      match r₁.read_u8 with
      | .error e => .errSe e
      | .ok (export_kind, r₂) =>
        match r₂.read_usize with
        | .error e => .errSe e
        | .ok (export_func_idx, r₃) =>
          if export_kind = 0 then
            match fns.get? export_func_idx with
            | none => .pncSe
            | some f =>
              exportSectionLoop n r₃ (fns.set export_func_idx { f with name := some name })
          else
            exportSectionLoop n r₃ fns

/-- The element-section offset-expression loop (`i32.const` or `end`
only; anything else is a `todo!` panic). -/
def elemExprLoop : Nat → Reader → SRes Reader
  | 0, _ => .noFuelSe
  | fuel + 1, r =>
    match r.read_u8 with
    | .error e => .errSe e
    | .ok (op, r₁) =>
      if op = 0x41 then
        match r₁.read_usize with
        | .error e => .errSe e
        | .ok (_, r₂) => elemExprLoop fuel r₂
      else if op = 0x0b then .okS r₁
      else .pncSe

/-- The element-section loop (parsed and discarded). -/
def elemSectionLoop (fuel : Nat) : Nat → Reader → SRes Reader
  | 0, r => .okS r
  | n + 1, r =>
    match r.read_u8 with
    | .error e => .errSe e
    | .ok (_, r₁) =>
      match elemExprLoop fuel r₁ with
      | .okS r₂ =>
        match r₂.read_usize with
        | .error e => .errSe e
        | .ok (num_elements, r₃) =>
          match readLebVec num_elements r₃ with
          | .error e => .errSe e
          | .ok r₄ => elemSectionLoop fuel n r₄
      | other => other

/-- The local-declaration loop of one code entry: `locals_num` many
`(count, kind)` run-lengths, flattened. -/
def localDeclLoop : Nat → Reader → List TypeKind → Except ParserError (List TypeKind × Reader)
  | 0, r, acc => .ok (acc, r)
  | n + 1, r, acc =>
    match r.read_usize with
    | .error e => .error e
    | .ok (count, r₁) =>
      match TypeKind.read r₁ with
      | .error e => .error e
      | .ok (ty, r₂) => localDeclLoop n r₂ (acc ++ List.replicate count ty)

/-- The code-section loop: for the `i`-th defined function, resolve its
signature (panicking on a missing index), read the local declarations,
pre-scan the body with `parse_code`, and fill in the `FuncBody`. -/
def codeSectionLoop (fuel imports : Nat) : Nat → Nat → Reader → List FuncSignature →
    List Func → SRes (List Func × Reader)
  | 0, _, r, _, fns => .okS (fns, r)
  | n + 1, func_idx, r, sigs, fns =>
    match fns.get? (imports + func_idx) with
    | none => .pncSe
    | some f =>
      match f.signature with
      | none => .pncSe
      | some sig_idx =>
        match sigs.get? sig_idx with
        | none => .pncSe
        | some signature =>
          match r.read_usize with
          | .error e => .errSe e
          | .ok (_, r₁) =>
            match r₁.read_usize with
            | .error e => .errSe e
            | .ok (locals_num, r₂) =>
              match localDeclLoop locals_num r₂ [] with
              | .error e => .errSe e
              | .ok (own_locals, r₃) =>
                let locals_types := signature.params ++ own_locals
                match offsets_of_types locals_types with
                | none => .pncSe
                | some offsets =>
                  match parse_code fuel r₃ with
                  | .errC e => .errSe e
                  | .pncC => .pncSe
                  | .noFuelC => .noFuelSe
                  | .okC info r₄ _ =>
                    match totalLenBytes signature.params, totalLenBytes own_locals with
                    | some params_len, some non_param_len =>
                      let body : FuncBody :=
                        ⟨signature, info.offset, info.code, info.jump_targets,
                         locals_types, offsets, params_len, non_param_len⟩
                      codeSectionLoop fuel imports n (func_idx + 1) r₄ sigs
                        (fns.set (imports + func_idx) { f with body := some body })
                    | _, _ => .pncSe

/-- The data-section loop: flags, offset expression, then the payload. -/
def dataSectionLoop (fuel : Nat) : Nat → Reader → List DataSegment →
    SRes (List DataSegment × Reader)
  | 0, r, segs => .okS (segs, r)
  | n + 1, r, segs =>
    match r.read_u8 with
    | .error e => .errSe e
    | .ok (segment_flags, r₁) =>
      match parse_code fuel r₁ with
      | .errC e => .errSe e
      | .pncC => .pncSe
      | .noFuelC => .noFuelSe
      | .okC info r₂ _ =>
        match r₂.read_usize with
        | .error e => .errSe e
        | .ok (data_len, r₃) =>
          match r₃.read_slice data_len with
          | .error e => .errSe e
          | .ok (payload, r₄) =>
            dataSectionLoop fuel n r₄ (segs ++ [⟨segment_flags, info, payload⟩])

/-- Assembling the `WasmModule` at the end of `parse` (the globals
offsets computation can hit a `len_bytes` panic). -/
def assembleModule (acc : ParseAcc) : SRes WasmModule :=
  match offsets_of_types (acc.globals.map (·.kind)) with
  | some offs => .okS ⟨acc.functions, acc.globals, acc.data_segments, offs, acc.tables⟩
  | none => .pncSe

/-- The section loop of `parse`: read a section kind — on ANY failure
(unknown discriminant or end of stream) the `while let` exits and the
module assembled so far is returned Ok — then the section size, then
dispatch on the section kind.  The custom-section arm reads the name
and then unconditionally breaks out of the loop (the source's
`break; // FIXME`). -/
def parseSections (fuel : Nat) : Nat → Reader → ParseAcc → SRes WasmModule
  | 0, _, _ => .noFuelSe
  | n + 1, r, acc =>
    match SectionKind.read r with
    | .error _ => assembleModule acc
    | .ok (kind, r₁) =>
      match r₁.read_usize with
      | .error e => .errSe e
      | .ok (_, r₂) =>
        match kind with
        | .Custom =>
          match r₂.read_str with
          | .error e => .errSe e
          | .ok (_, _) => assembleModule acc
        | .Type =>
          match r₂.read_usize with
          | .error e => .errSe e
          | .ok (num_types, r₃) =>
            match typeSectionLoop num_types r₃ acc.signatures with
            | .okS (sigs, r₄) => parseSections fuel n r₄ { acc with signatures := sigs }
            | .errSe e => .errSe e
            | .pncSe => .pncSe
            | .noFuelSe => .noFuelSe
        | .Import =>
          match r₂.read_usize with
          | .error e => .errSe e
          | .ok (num_imports, r₃) =>
            match importSectionLoop num_imports r₃ acc.functions acc.imports with
            | .okS (fns, imps, r₄) =>
              parseSections fuel n r₄ { acc with functions := fns, imports := imps }
            | .errSe e => .errSe e
            | .pncSe => .pncSe
            | .noFuelSe => .noFuelSe
        | .Function =>
          match r₂.read_usize with
          | .error e => .errSe e
          | .ok (num_funcs, r₃) =>
            match functionSectionLoop num_funcs r₃ acc.signatures acc.functions with
            | .okS (fns, r₄) => parseSections fuel n r₄ { acc with functions := fns }
            | .errSe e => .errSe e
            | .pncSe => .pncSe
            | .noFuelSe => .noFuelSe
        | .Table =>
          match r₂.read_usize with
          | .error e => .errSe e
          | .ok (num_tables, r₃) =>
            match tableSectionLoop num_tables r₃ acc.tables with
            | .okS (tbls, r₄) => parseSections fuel n r₄ { acc with tables := tbls }
            | .errSe e => .errSe e
            | .pncSe => .pncSe
            | .noFuelSe => .noFuelSe
        | .Memory =>
          match r₂.read_usize with
          | .error e => .errSe e
          | .ok (num_memories, r₃) =>
            match memorySectionLoop num_memories r₃ with
            | .okS r₄ => parseSections fuel n r₄ acc
            | .errSe e => .errSe e
            | .pncSe => .pncSe
            | .noFuelSe => .noFuelSe
        | .Global =>
          match r₂.read_usize with
          | .error e => .errSe e
          | .ok (num_globals, r₃) =>
            match globalSectionLoop fuel num_globals r₃ acc.globals with
            | .okS (gs, r₄) => parseSections fuel n r₄ { acc with globals := gs }
            | .errSe e => .errSe e
            | .pncSe => .pncSe
            | .noFuelSe => .noFuelSe
        | .Export =>
          match r₂.read_usize with
          | .error e => .errSe e
          | .ok (num_exports, r₃) =>
            match exportSectionLoop num_exports r₃ acc.functions with
            | .okS (fns, r₄) => parseSections fuel n r₄ { acc with functions := fns }
            | .errSe e => .errSe e
            | .pncSe => .pncSe
            | .noFuelSe => .noFuelSe
        | .Elem =>
          match r₂.read_usize with
          | .error e => .errSe e
          | .ok (num_segments, r₃) =>
            match elemSectionLoop fuel num_segments r₃ with
            | .okS r₄ => parseSections fuel n r₄ acc
            | .errSe e => .errSe e
            | .pncSe => .pncSe
            | .noFuelSe => .noFuelSe
        | .Code =>
          match r₂.read_usize with
          | .error e => .errSe e
          | .ok (num_funcs, r₃) =>
            match codeSectionLoop fuel acc.imports num_funcs 0 r₃ acc.signatures acc.functions with
            | .okS (fns, r₄) => parseSections fuel n r₄ { acc with functions := fns }
            | .errSe e => .errSe e
            | .pncSe => .pncSe
            | .noFuelSe => .noFuelSe
        | .Data =>
          match r₂.read_usize with
          | .error e => .errSe e
          | .ok (num_segments, r₃) =>
            match dataSectionLoop fuel num_segments r₃ acc.data_segments with
            | .okS (segs, r₄) => parseSections fuel n r₄ { acc with data_segments := segs }
            | .errSe e => .errSe e
            | .pncSe => .pncSe
            | .noFuelSe => .noFuelSe

/-- The empty loader state. -/
def emptyAcc : ParseAcc := ⟨[], [], 0, [], [], []⟩

/-- `parse` from lib.rs: expect the `\0asm` magic, read the version,
then run the section loop. -/
def parse (fuel : Nat) (code : List Nat) : SRes WasmModule :=
  match Reader.expect_bytes ⟨code, 0⟩ [0x00, 0x61, 0x73, 0x6D] with
  | .error e => .errSe e
  | .ok r₁ =>
    match r₁.read_u32 with
    | .error e => .errSe e
    | .ok (_, r₂) => parseSections fuel fuel r₂ emptyAcc

/-! ## Remaining specification-side definitions -/

/-- Modelled from the spec: standard (mathematical) unsigned LEB128
decoding of a byte list — no width truncation, no length cap.  Returns
the decoded value and the remaining bytes, or `none` when the list runs
out before a byte with a clear continuation bit. -/
def decodeLeb : List Nat → Option (Nat × List Nat)
  | [] => none
  | b :: rest =>
    if b < 128 then
      some (b, rest)
    else
      match decodeLeb rest with
      | some (v, r) => some (b % 128 + 128 * v, r)
      | none => none

/-- The locals-arena bookkeeping preserved by every interpreter step:
whenever the call stack is nonempty its bottom (root) frame has locals
offset 0, and once it is empty the arena is empty. -/
def LocalsInv (s : EvalState) : Prop :=
  (s.ctx.call_stack = [] → s.ctx.locals = [])
  ∧ (∀ f, s.ctx.call_stack.getLast? = some f → f.locals_offset = 0)

/-- Projection: the operand stack of a normally terminated run. -/
def evalStackOf : EvalRes → Option (List Nat)
  | .okE s => some s.ctx.stack
  | _ => none

/-- Projection: the locals arena of a normally terminated run. -/
def evalLocalsOf : EvalRes → Option (List Nat)
  | .okE s => some s.ctx.locals
  | _ => none

/-- Projection: did the run abort with a Rust panic? -/
def evalIsPanic : EvalRes → Bool
  | .pncE => true
  | _ => false

/-- Projection: the jump-target map entry computed by `parse_code`. -/
def pcJumpTarget (res : PCRes) (p : Nat) : Option Nat :=
  match res with
  | .okC info _ _ => info.jump_targets p
  | _ => none

/-- Projection: the top frame's cursor after a continuing step. -/
def stepPosOf : StepRes → Option Nat
  | .contS s => (s.ctx.call_stack.head?).map (·.pos)
  | _ => none

/-- Projection: the operand stack after a continuing step. -/
def stepStackOf : StepRes → Option (List Nat)
  | .contS s => some s.ctx.stack
  | _ => none

/-! ## Concrete inputs used by counterexamples and witnesses -/

/-- Opaque float operations instantiated with constants (the concrete
runs below never reach them). -/
def constFloatOps : FloatOps := ⟨fun _ _ => 0, fun _ _ => 0, fun _ _ => 0, fun _ _ => false⟩

/-- A module with a single defined function (no parameters, no
results, no locals) whose body and jump-target map are given. -/
def oneFuncModule (code : List Nat) (jt : Nat → Option Nat) : WasmModule :=
  ⟨[⟨some ⟨⟨[], []⟩, 0, code, jt, [], [], 0, 0⟩, some [101], some 0⟩], [], [], [], []⟩

/-- Body of the `if` block-type counterexample:
`i64.const 5; if (result i64) …empty… end; end`. -/
def ifI64Code : List Nat := [0x42, 0x05, 0x04, 0x7E, 0x0b, 0x0b]

/-- The loader's jump targets for `ifI64Code`. -/
def ifI64Jt : Nat → Option Nat := fun p => if p = 2 then some 5 else none

/-- Body of the `else`-fallthrough input:
`i32.const 1; if (result i32); else; i32.const 5; end; i32.const 7; end`. -/
def elseFallCode : List Nat := [0x41, 0x01, 0x04, 0x7F, 0x05, 0x41, 0x05, 0x0b, 0x41, 0x07, 0x0b]

/-- The loader's jump targets for `elseFallCode`: the `if` at 2 maps
past its `else` (5), the `else` at 4 maps past the matching `end`
(8). -/
def elseFallJt : Nat → Option Nat :=
  fun p => if p = 2 then some 5 else if p = 4 then some 8 else none

/-- Body of the negative `i64.const` input: `i64.const -1; end`
(`0x7f` is the signed LEB128 encoding of `-1`). -/
def i64ConstNegCode : List Nat := [0x42, 0x7f, 0x0b]

/-- Body of the out-of-bounds load input:
`i32.const 0; i32.load align=0 offset=0; end`, to be run with an empty
linear memory. -/
def oobLoadCode : List Nat := [0x41, 0x00, 0x28, 0x00, 0x00, 0x0b]

/-- A body that terminates immediately: a single `end`. -/
def trivialCode : List Nat := [0x0b]

/-- A module whose single function takes one i32 parameter and returns
an i32 (used by the signature-mismatch witness); the body is a bare
`end`. -/
def sigModule : WasmModule :=
  ⟨[⟨some ⟨⟨[.I32], [.I32]⟩, 0, trivialCode, fun _ => none, [.I32], [0], 4, 0⟩,
     some [102], some 0⟩], [], [], [], []⟩

/-- A function body for the walker: `block (void) { if (i32) ... else ...
end } end`, terminated by the function-level `end`. -/
def bracketCode : List Nat := [0x02, 0x40, 0x04, 0x7F, 0x05, 0x0b, 0x0b, 0x0b]

def bracketEvents : List Event :=
  [⟨0, .openEv .blockE⟩, ⟨2, .openEv .ifE⟩, ⟨4, .elseEv⟩, ⟨5, .endEv⟩, ⟨6, .endEv⟩]

def bracketJt : Nat → Option Nat :=
  jtInsert (jtInsert (jtInsert (fun _ => none) 2 5) 4 6) 0 7

/-! # Lemmas and theorems -/

/-! ## Bytes -/

theorem toLe_length (n v : Nat) : (toLe n v).length = n := by
  induction n generalizing v with
  | zero => rfl
  | succ n ih => simp [toLe, ih]

theorem fromLe_toLe (n v : Nat) (h : v < 2 ^ (8 * n)) : fromLe (toLe n v) = v := by
  induction n generalizing v with
  | zero =>
    simp only [Nat.mul_zero, pow_zero, Nat.lt_one_iff] at h
    simp [toLe, fromLe, h]
  | succ n ih =>
    have hdiv : v / 256 < 2 ^ (8 * n) := by
      apply Nat.div_lt_of_lt_mul
      calc v < 2 ^ (8 * (n + 1)) := h
        _ = 2 ^ (8 * n) * 256 := by ring
        _ = 256 * 2 ^ (8 * n) := by ring
    simp only [toLe, fromLe, ih (v / 256) hdiv, Nat.mod_mod_of_dvd]
    omega

theorem fromLe_lt (bs : List Nat) : fromLe bs < 2 ^ (8 * bs.length) := by
  induction bs with
  | nil => simp [fromLe]
  | cons b bs ih =>
    simp only [fromLe, List.length_cons]
    have hb : b % 256 < 256 := Nat.mod_lt _ (by norm_num)
    calc (b % 256) + 256 * fromLe bs
        < 256 + 256 * fromLe bs := by omega
      _ ≤ 256 * (fromLe bs + 1) := by ring_nf; omega
      _ ≤ 256 * 2 ^ (8 * bs.length) := Nat.mul_le_mul_left _ (by omega)
      _ = 2 ^ (8 * (bs.length + 1)) := by ring

/-! ## Disjoint-bits arithmetic -/

theorem testBit_mul_two_pow_low (p n i : Nat) (hi : i < n) :
    (p * 2 ^ n).testBit i = false := by
  have h0 : (0 : Nat) < 2 ^ n := Nat.pos_pow_of_pos n (by norm_num)
  have h := Nat.testBit_mul_pow_two_add p h0 i
  rw [Nat.add_zero, Nat.mul_comm] at h
  simpa [hi] using h

theorem lor_mul_two_pow (a p n : Nat) (h : a < 2 ^ n) :
    a ||| p * 2 ^ n = a + p * 2 ^ n := by
  apply Nat.eq_of_testBit_eq
  intro i
  rw [Nat.testBit_lor]
  have hadd : (a + p * 2 ^ n).testBit i = if i < n then a.testBit i else p.testBit (i - n) := by
    have hh := Nat.testBit_mul_pow_two_add p h i
    rw [Nat.mul_comm] at hh
    rw [Nat.add_comm]
    exact hh
  by_cases hi : i < n
  · rw [hadd, if_pos hi, testBit_mul_two_pow_low p n i hi, Bool.or_false]
  · rw [hadd, if_neg hi]
    have ha : a.testBit i = false :=
      Nat.testBit_lt_two_pow
        (lt_of_lt_of_le h (Nat.pow_le_pow_right (by norm_num) (le_of_not_lt hi)))
    have hmul : (p * 2 ^ n).testBit i = p.testBit (i - n) := by
      have h0 : (0 : Nat) < 2 ^ n := Nat.pos_pow_of_pos n (by norm_num)
      have hh := Nat.testBit_mul_pow_two_add p h0 i
      rw [Nat.add_zero, Nat.mul_comm] at hh
      rw [hh, if_neg hi]
    rw [ha, hmul, Bool.false_or]

theorem and128_eq_zero_iff (b : Nat) (hb : b < 256) : (b &&& 128 = 0) ↔ b < 128 := by
  have h : b &&& 128 = (b.testBit 7).toNat * 2 ^ 7 := by
    have hh := Nat.and_two_pow b 7
    norm_num at hh ⊢
    exact hh
  rw [h, Nat.testBit_to_div_mod]
  have h7 : (2 : Nat) ^ 7 = 128 := by norm_num
  rw [h7]
  rcases Nat.lt_or_ge b 128 with hlt | hge
  · have hd : b / 128 % 2 = 0 := by omega
    simp [hd, hlt]
  · have hd : b / 128 % 2 = 1 := by omega
    simp [hd, Nat.not_lt.mpr hge]

theorem and127_eq_mod (b : Nat) : b &&& 127 = b % 128 := by
  have h : (127 : Nat) = 2 ^ 7 - 1 := by norm_num
  rw [h, Nat.and_pow_two_sub_one_eq_mod]

/-! ## C9: the unsigned LEB decoder -/

theorem lebTerm_eq (b kk res : Nat) (hres : res < 2 ^ (7 * kk))
    (hbound : res + 2 ^ (7 * kk) * (b % 128) < 2 ^ 64) :
    (res ||| ((b &&& 127) <<< (7 * kk % 64)) % 2 ^ 64) = res + 2 ^ (7 * kk) * (b % 128) := by
  rw [and127_eq_mod]
  by_cases hk : 7 * kk < 64
  · rw [Nat.mod_eq_of_lt hk, Nat.shiftLeft_eq]
    have hterm : b % 128 * 2 ^ (7 * kk) < 2 ^ 64 := by
      rw [Nat.mul_comm]
      omega
    rw [Nat.mod_eq_of_lt hterm, lor_mul_two_pow res (b % 128) (7 * kk) hres]
    ring
  · have hge : 2 ^ 64 ≤ 2 ^ (7 * kk) := Nat.pow_le_pow_right (by norm_num) (by omega)
    have hz : b % 128 = 0 := by
      by_contra hnz
      have h1 : 1 ≤ b % 128 := Nat.one_le_iff_ne_zero.mpr hnz
      have : 2 ^ (7 * kk) ≤ 2 ^ (7 * kk) * (b % 128) := Nat.le_mul_of_pos_right _ (by omega)
      omega
    simp [hz]

theorem lebLoop_decodes (bs : List Nat) : ∀ kk acc v rest,
    (∀ b ∈ bs, b < 256) →
    decodeLeb bs = some (v, rest) →
    acc < 2 ^ (7 * kk) →
    acc + 2 ^ (7 * kk) * v < 2 ^ 64 →
    ∃ lastb sh k, lebLoop bs acc (7 * kk) = some (acc + 2 ^ (7 * kk) * v, lastb, sh, k) := by
  induction bs with
  | nil =>
    intro kk acc v rest _ hdec _ _
    simp [decodeLeb] at hdec
  | cons b tail ih =>
    intro kk acc v rest hbytes hdec hacc hbound
    have hb : b < 256 := hbytes b (List.mem_cons_self b tail)
    by_cases hlt : b < 128
    · -- terminator byte
      have hveq : v = b := by
        simp [decodeLeb, hlt] at hdec
        exact hdec.1.symm
      have hand : b &&& 128 = 0 := (and128_eq_zero_iff b hb).mpr hlt
      have hbm : b % 128 = b := Nat.mod_eq_of_lt hlt
      refine ⟨b, 7 * kk + 7, 1, ?_⟩
      simp only [lebLoop, hand, if_pos]
      rw [lebTerm_eq b kk acc hacc (by rw [hbm, ← hveq]; exact hbound)]
      rw [hbm, hveq]
    · -- continuation byte
      have hdec' : ∃ v' , decodeLeb tail = some (v', rest) ∧ v = b % 128 + 128 * v' := by
        simp only [decodeLeb, if_neg hlt] at hdec
        cases htail : decodeLeb tail with
        | some p =>
          obtain ⟨v', r'⟩ := p
          rw [htail] at hdec
          simp only [Option.some.injEq, Prod.mk.injEq] at hdec
          obtain ⟨h1, h2⟩ := hdec
          subst h2
          exact ⟨v', rfl, h1.symm⟩
        | none => rw [htail] at hdec; simp at hdec
      obtain ⟨v', htail, hv⟩ := hdec'
      have hand : ¬ (b &&& 128 = 0) := by
        rw [and128_eq_zero_iff b hb]
        omega
      have hple : b % 128 ≤ v := by omega
      have hbound₁ : acc + 2 ^ (7 * kk) * (b % 128) < 2 ^ 64 := by
        have : 2 ^ (7 * kk) * (b % 128) ≤ 2 ^ (7 * kk) * v := Nat.mul_le_mul_left _ hple
        omega
      have hacc' : acc + 2 ^ (7 * kk) * (b % 128) < 2 ^ (7 * (kk + 1)) := by
        have h1 : b % 128 ≤ 127 := by omega
        have h2 : 2 ^ (7 * kk) * (b % 128) ≤ 2 ^ (7 * kk) * 127 := Nat.mul_le_mul_left _ h1
        have h3 : 2 ^ (7 * (kk + 1)) = 2 ^ (7 * kk) * 128 := by ring
        omega
      have hbound' : (acc + 2 ^ (7 * kk) * (b % 128)) + 2 ^ (7 * (kk + 1)) * v' < 2 ^ 64 := by
        have h3 : 2 ^ (7 * (kk + 1)) = 2 ^ (7 * kk) * 128 := by ring
        have : acc + 2 ^ (7 * kk) * (b % 128) + 2 ^ (7 * (kk + 1)) * v'
            = acc + 2 ^ (7 * kk) * v := by rw [hv, h3]; ring
        omega
      have hbytes' : ∀ x ∈ tail, x < 256 := fun x hx => hbytes x (List.mem_cons_of_mem b hx)
      obtain ⟨lastb, sh, k, hrec⟩ := ih (kk + 1) (acc + 2 ^ (7 * kk) * (b % 128)) v' rest
        hbytes' htail hacc' hbound'
      refine ⟨lastb, sh, k + 1, ?_⟩
      simp only [lebLoop, hand, if_neg, ite_false]
      rw [lebTerm_eq b kk acc hacc hbound₁]
      have h7 : 7 * kk + 7 = 7 * (kk + 1) := by ring
      rw [h7, hrec]
      have hval : acc + 2 ^ (7 * kk) * (b % 128) + 2 ^ (7 * (kk + 1)) * v'
          = acc + 2 ^ (7 * kk) * v := by
        rw [hv]; ring
      rw [hval]

theorem lebLoop_none (bs : List Nat) : ∀ acc sh,
    (∀ b ∈ bs, b < 256) →
    decodeLeb bs = none →
    lebLoop bs acc sh = none := by
  induction bs with
  | nil => intro acc sh _ _; rfl
  | cons b tail ih =>
    intro acc sh hbytes hdec
    have hb : b < 256 := hbytes b (List.mem_cons_self b tail)
    have hlt : ¬ b < 128 := by
      intro hlt
      simp [decodeLeb, hlt] at hdec
    have htail : decodeLeb tail = none := by
      simp only [decodeLeb, if_neg hlt] at hdec
      cases htail : decodeLeb tail with
      | some p => obtain ⟨v', r'⟩ := p; rw [htail] at hdec; simp at hdec
      | none => rfl
    have hand : ¬ (b &&& 128 = 0) := by
      rw [and128_eq_zero_iff b hb]; omega
    simp only [lebLoop, hand, ite_false]
    rw [ih _ _ (fun x hx => hbytes x (List.mem_cons_of_mem b hx)) htail]

/-- C9.  `Reader::read_unsigned` is standard LEB128 decoding with no
length cap: on every byte sequence that is an LEB128 encoding of a
64-bit value — of any length, redundant continuation bytes included —
it returns `Ok` with that value, and it fails (with `EndOfStream`)
exactly when the stream ends before a byte with a clear continuation
bit. -/
theorem read_unsigned_is_standard_leb (data : List Nat) (pos : Nat)
    (hbytes : ∀ b ∈ data, b < 256) :
    (∀ v rest, decodeLeb (data.drop pos) = some (v, rest) → v < 2 ^ 64 →
      ∃ r', Reader.read_unsigned ⟨data, pos⟩ = .ok (v, r')) ∧
    (decodeLeb (data.drop pos) = none →
      Reader.read_unsigned ⟨data, pos⟩ = .error (.EndOfStream data.length)) := by
  have hbytes' : ∀ b ∈ data.drop pos, b < 256 :=
    fun b hb => hbytes b (List.mem_of_mem_drop hb)
  constructor
  · intro v rest hdec hv
    have h0 : (0 : Nat) < 2 ^ (7 * 0) := by norm_num
    have hb0 : 0 + 2 ^ (7 * 0) * v < 2 ^ 64 := by simpa using hv
    obtain ⟨lastb, sh, k, hloop⟩ := lebLoop_decodes (data.drop pos) 0 0 v rest hbytes' hdec h0 hb0
    refine ⟨⟨data, pos + k⟩, ?_⟩
    simp only [Reader.read_unsigned, Reader.read_number_raw]
    have : (7 : Nat) * 0 = 0 := by norm_num
    rw [this] at hloop
    rw [hloop]
    simp
  · intro hdec
    simp only [Reader.read_unsigned, Reader.read_number_raw]
    rw [lebLoop_none (data.drop pos) 0 0 hbytes' hdec]

/-- Witness for C9: an 11-byte encoding of 0 with ten redundant
continuation bytes decodes to `Ok(0)`, and an all-continuation stream
fails with `EndOfStream`. -/
theorem read_unsigned_is_standard_leb_witness :
    (∀ b ∈ [0x80, 0x80, 0x80, 0x80, 0x80, 0x80, 0x80, 0x80, 0x80, 0x80, 0x00], b < 256) ∧
    decodeLeb ([0x80, 0x80, 0x80, 0x80, 0x80, 0x80, 0x80, 0x80, 0x80, 0x80,
      (0x00 : Nat)].drop 0) = some (0, []) ∧
    (∃ r', Reader.read_unsigned
        ⟨[0x80, 0x80, 0x80, 0x80, 0x80, 0x80, 0x80, 0x80, 0x80, 0x80, 0x00], 0⟩ =
      .ok (0, r')) ∧
    decodeLeb ([0x80, (0x80 : Nat)].drop 0) = none ∧
    Reader.read_unsigned ⟨[0x80, 0x80], 0⟩ = .error (.EndOfStream 2) := by
  refine ⟨by decide, by decide, ?_, by decide, ?_⟩
  · exact (read_unsigned_is_standard_leb
      [0x80, 0x80, 0x80, 0x80, 0x80, 0x80, 0x80, 0x80, 0x80, 0x80, 0x00] 0
      (by decide)).1 0 [] (by decide) (by norm_num)
  · exact (read_unsigned_is_standard_leb [0x80, 0x80] 0 (by decide)).2 (by decide)

/-! ## Operand-stack lemmas -/

theorem pop_bytes_append (s l : List Nat) : pop_bytes (s ++ l) l.length = .ok (s, l) := by
  simp only [pop_bytes, List.length_append]
  rw [if_pos (by omega)]
  have h1 : s.length + l.length - l.length = s.length := by omega
  rw [h1, List.take_left, List.drop_left]

theorem pop_bytes_append' (s l : List Nat) (n : Nat) (h : l.length = n) :
    pop_bytes (s ++ l) n = .ok (s, l) := by
  subst h
  exact pop_bytes_append s l

theorem pop_i32_append (s : List Nat) (a : Nat) (ha : a < 2 ^ 32) :
    pop_i32 (s ++ toLe 4 a) = .ok (a, s) := by
  simp only [pop_i32]
  rw [pop_bytes_append' s (toLe 4 a) 4 (toLe_length 4 a)]
  dsimp only
  rw [fromLe_toLe 4 a (by norm_num; omega)]

theorem pop_i64_append (s : List Nat) (a : Nat) (ha : a < 2 ^ 64) :
    pop_i64 (s ++ toLe 8 a) = .ok (a, s) := by
  simp only [pop_i64]
  rw [pop_bytes_append' s (toLe 8 a) 8 (toLe_length 8 a)]
  dsimp only
  rw [fromLe_toLe 8 a (by norm_num; omega)]

theorem binOp32_append (f : Nat → Nat → Nat) (s : List Nat) (a b : Nat)
    (ha : a < 2 ^ 32) (hb : b < 2 ^ 32) :
    binOp32 f (s ++ toLe 4 a ++ toLe 4 b) = .ok (push_i32 s (f a b)) := by
  simp only [binOp32, pop_i32_append _ b hb, pop_i32_append _ a ha]

/-! ## C8: i32.add / i32.sub / i32.mul wrap -/

/-- C8.  With two i32 patterns `a` (lower) and `b` (top) on the stack,
the `i32.add`, `i32.sub` and `i32.mul` handlers replace them by the
two's-complement wrapping sum `(a+b) mod 2^32`, difference
`(a + 2^32 - b) mod 2^32` and product `(a*b) mod 2^32`, and advance the
cursor past the one-byte opcode — also when the mathematical result
lies outside the 32-bit range. -/
theorem i32_add_sub_mul_wrap (mod : WasmModule) (imports : List ImportedFunc)
    (fops : FloatOps) (func : FuncBody) (frame : StackFrame) (rest : List StackFrame)
    (s0 mem glob lcl : List Nat) (a b : Nat)
    (hfunc : mod.get_function_by_index frame.func_idx = some func)
    (ha : a < 2 ^ 32) (hb : b < 2 ^ 32) :
    (func.code.get? frame.pos = some 0x6a →
      step mod imports fops ⟨⟨s0 ++ toLe 4 a ++ toLe 4 b, frame :: rest, lcl⟩, mem, glob⟩ =
        .contS ⟨⟨s0 ++ toLe 4 ((a + b) % 2 ^ 32),
          { frame with pos := frame.pos + 1 } :: rest, lcl⟩, mem, glob⟩) ∧
    (func.code.get? frame.pos = some 0x6b →
      step mod imports fops ⟨⟨s0 ++ toLe 4 a ++ toLe 4 b, frame :: rest, lcl⟩, mem, glob⟩ =
        .contS ⟨⟨s0 ++ toLe 4 ((a + (2 ^ 32 - b % 2 ^ 32)) % 2 ^ 32),
          { frame with pos := frame.pos + 1 } :: rest, lcl⟩, mem, glob⟩) ∧
    (func.code.get? frame.pos = some 0x6c →
      step mod imports fops ⟨⟨s0 ++ toLe 4 a ++ toLe 4 b, frame :: rest, lcl⟩, mem, glob⟩ =
        .contS ⟨⟨s0 ++ toLe 4 (a * b % 2 ^ 32),
          { frame with pos := frame.pos + 1 } :: rest, lcl⟩, mem, glob⟩) := by
  refine ⟨?_, ?_, ?_⟩ <;> intro hop <;>
    (simp only [step, hfunc, hop]
     norm_num
     rw [← List.append_assoc, binOp32_append _ _ _ _ ha hb]
     simp [push_i32])

/-- Witness for C8: `0xFFFFFFFF + 2` wraps to `1` (and likewise the
sub/mul cases are exercised by the same theorem at this input). -/
theorem i32_add_sub_mul_wrap_witness :
    step (oneFuncModule [0x6a] (fun _ => none)) [] constFloatOps
      ⟨⟨[] ++ toLe 4 (2 ^ 32 - 1) ++ toLe 4 2, ⟨0, 0, 0, none, []⟩ :: [], []⟩, [], []⟩ =
    .contS ⟨⟨[] ++ toLe 4 ((2 ^ 32 - 1 + 2) % 2 ^ 32), ⟨0, 1, 0, none, []⟩ :: [], []⟩, [], []⟩ :=
  (i32_add_sub_mul_wrap (oneFuncModule [0x6a] (fun _ => none)) [] constFloatOps
    ⟨⟨[], []⟩, 0, [0x6a], fun _ => none, [], [], 0, 0⟩ ⟨0, 0, 0, none, []⟩ []
    [] [] [] [] (2 ^ 32 - 1) 2 rfl (by norm_num) (by norm_num)).1 rfl

/-! ## C7: signature mismatch leaves state untouched -/

theorem zipKindsEq_eq_true_iff (a b : List TypeKind) (h : a.length = b.length) :
    zipKindsEq a b = true ↔ a = b := by
  induction a generalizing b with
  | nil =>
    cases b with
    | nil => simp [zipKindsEq]
    | cons y ys => simp at h
  | cons x xs ih =>
    cases b with
    | nil => simp at h
    | cons y ys =>
      have hlen : xs.length = ys.length := by
        simp only [List.length_cons] at h
        omega
      simp only [zipKindsEq, List.zip_cons_cons, List.all_cons, Bool.and_eq_true,
        decide_eq_true_eq, List.cons.injEq]
      rw [show (List.all (xs.zip ys) fun p => decide (p.1 = p.2)) = zipKindsEq xs ys from rfl]
      rw [ih ys hlen]

/-- C7.  If the named function exists and has a body but the argument
kind list differs from its parameter list (in arity or in any
position), `execute_function` returns `InvalidSignature` and the
operand stack, linear memory and globals are exactly as passed in: no
mutation is observable. -/
theorem execute_function_sig_mismatch (fuel : Nat) (mod : WasmModule)
    (func_name : List Nat) (argTypes : List TypeKind) (argsBytes : List Nat)
    (resType : TypeKind) (ctx : VmContext) (memory globals : List Nat)
    (imports : List ImportedFunc) (fops : FloatOps) (func_idx : Nat) (func : FuncBody)
    (hname : mod.get_function_index_by_name func_name = some func_idx)
    (hbody : (mod.functions.get? func_idx).bind (·.body) = some func)
    (hmis : func.signature.params ≠ argTypes) :
    execute_function fuel mod func_name argTypes argsBytes resType ctx memory globals
      imports fops = .errX .InvalidSignature ⟨ctx, memory, globals⟩ := by
  simp only [execute_function, hname, hbody]
  by_cases hlen : func.signature.params.length = argTypes.length
  · have hz : ¬ zipKindsEq func.signature.params argTypes = true := by
      intro hh
      exact hmis ((zipKindsEq_eq_true_iff _ _ hlen).mp hh)
    simp [hlen, hz]
  · simp [hlen]

/-- Witness for C7: calling the one-i32-parameter function of
`sigModule` with an empty argument tuple yields `InvalidSignature` and
returns the state unchanged. -/
theorem execute_function_sig_mismatch_witness :
    execute_function 10 sigModule [102] [] [] .I32 ⟨[7], [], [8]⟩ [1] [2] [] constFloatOps =
      .errX .InvalidSignature ⟨⟨[7], [], [8]⟩, [1], [2]⟩ :=
  execute_function_sig_mismatch 10 sigModule [102] [] [] .I32 ⟨[7], [], [8]⟩ [1] [2] []
    constFloatOps 0 ⟨⟨[.I32], [.I32]⟩, 0, trivialCode, fun _ => none, [.I32], [0], 4, 0⟩
    rfl rfl (by decide)

/-! ## C3: the else handler overshoots by one byte -/

/-- C3 (code bug).  For `elseFallCode` the loader maps the `else` at
offset 4 to 8, the slot immediately past the matching `end` at 7 — but
on fallthrough the interpreter's `else` handler sets the cursor to
`jump_targets[else_offset] + 1 = 9`, skipping the first byte of the
`i32.const 7` that follows the `end`; the byte `0x07` is then read as
an opcode and the run panics in the `todo!` arm, instead of executing
`i32.const 7` and terminating normally. -/
theorem else_skips_extra_byte :
    pcJumpTarget (parse_code 20 ⟨elseFallCode, 0⟩) 2 = some 5 ∧
    pcJumpTarget (parse_code 20 ⟨elseFallCode, 0⟩) 4 = some 8 ∧
    stepPosOf (step (oneFuncModule elseFallCode elseFallJt) [] constFloatOps
      ⟨⟨[], [⟨0, 4, 0, none, []⟩], []⟩, [], []⟩) = some 9 ∧
    evalIsPanic (evaluate 20 (oneFuncModule elseFallCode elseFallJt) 0 []
      ⟨[], [], []⟩ [] [] [] constFloatOps) = true := by
  decide

/-! ## C4: i64.const decodes its immediate as unsigned LEB -/

/-- C4 (code bug).  The byte `0x7f` is the signed LEB128 encoding of
`-1` (as `read_signed` itself confirms), but the `i64.const` handler
decodes it with `read_usize` and pushes 127; the claim's value, the
two's-complement pattern of `-1`, is `2^64 - 1 ≠ 127`. -/
theorem i64_const_unsigned_decode :
    Reader.read_signed ⟨[0x7f], 0⟩ = .ok (-1, ⟨[0x7f], 1⟩) ∧
    evalStackOf (evaluate 20 (oneFuncModule i64ConstNegCode (fun _ => none)) 0 []
      ⟨[], [], []⟩ [] [] [] constFloatOps) = some (toLe 8 127) ∧
    (127 : Nat) ≠ patOfInt64 (-1) :=
  ⟨rfl, by decide, by decide⟩

/-! ## C5: out-of-bounds loads panic instead of trapping -/

/-- C5 (code bug).  Running `i32.load` at effective address 0 with an
empty linear memory: `Memory::read_bytes_at` correctly reports the
out-of-bounds access as `None`, but the handler `unwrap`s it, so the
run ends in a panic, not in a typed `MemoryAccess` trap returned to
the caller. -/
theorem oob_load_panics :
    read_bytes_at [] 0 4 = none ∧
    evalIsPanic (evaluate 20 (oneFuncModule oobLoadCode (fun _ => none)) 0 []
      ⟨[], [], []⟩ [] [] [] constFloatOps) = true := by
  decide

/-! ## C2: the `if` condition's kind follows the block-type immediate -/

/-- C2 (counterexample).  Executing `if` with block type `0x7E` (i64)
on a stack holding the eight bytes of `i64.const 5` pops all eight
bytes (the stack continues empty), not the four bytes of an i32 — had
it popped an i32, the four bytes of `toLe 4 5` would remain.  The whole
run of `ifI64Code` likewise ends with an empty stack. -/
theorem if_condition_kind_cex :
    stepStackOf (step (oneFuncModule ifI64Code ifI64Jt) [] constFloatOps
      ⟨⟨toLe 8 5, [⟨0, 2, 0, none, []⟩], []⟩, [], []⟩) = some [] ∧
    (toLe 8 5).length = 8 ∧
    ([] : List Nat) ≠ toLe 4 5 ∧
    evalStackOf (evaluate 20 (oneFuncModule ifI64Code ifI64Jt) 0 []
      ⟨[], [], []⟩ [] [] [] constFloatOps) = some [] := by
  decide

/-- C2 (amended).  The `if` handler pops a condition whose kind is
given by the block-type immediate — four bytes for an i32/f32 block
type, eight for an i64/f64 — and when the condition equals zero (for
floats: the pattern with its sign bit cleared is zero, the IEEE-754
test against `0.0`) it sets the cursor to `jump_targets[if_offset]`,
landing immediately past the matching `else`/`end`; on a non-zero
condition it falls through into the then-arm. -/
theorem if_pops_condition_by_blocktype (mod : WasmModule) (imports : List ImportedFunc)
    (fops : FloatOps) (func : FuncBody) (frame : StackFrame) (rest : List StackFrame)
    (s0 mem glob lcl : List Nat) (v t : Nat)
    (hfunc : mod.get_function_by_index frame.func_idx = some func)
    (hop : func.code.get? frame.pos = some 0x04)
    (hjt : func.jump_targets (func.offset + frame.pos) = some t) :
    (func.code.get? (frame.pos + 1) = some 0x7F → v < 2 ^ 32 →
      step mod imports fops ⟨⟨s0 ++ toLe 4 v, frame :: rest, lcl⟩, mem, glob⟩ =
        .contS ⟨⟨s0, { frame with pos := if v = 0 then t else frame.pos + 2 } :: rest,
          lcl⟩, mem, glob⟩) ∧
    (func.code.get? (frame.pos + 1) = some 0x7E → v < 2 ^ 64 →
      step mod imports fops ⟨⟨s0 ++ toLe 8 v, frame :: rest, lcl⟩, mem, glob⟩ =
        .contS ⟨⟨s0, { frame with pos := if v = 0 then t else frame.pos + 2 } :: rest,
          lcl⟩, mem, glob⟩) ∧
    (func.code.get? (frame.pos + 1) = some 0x7D → v < 2 ^ 32 →
      step mod imports fops ⟨⟨s0 ++ toLe 4 v, frame :: rest, lcl⟩, mem, glob⟩ =
        .contS ⟨⟨s0, { frame with pos := if v % 2 ^ 31 = 0 then t else frame.pos + 2 } :: rest,
          lcl⟩, mem, glob⟩) ∧
    (func.code.get? (frame.pos + 1) = some 0x7C → v < 2 ^ 64 →
      step mod imports fops ⟨⟨s0 ++ toLe 8 v, frame :: rest, lcl⟩, mem, glob⟩ =
        .contS ⟨⟨s0, { frame with pos := if v % 2 ^ 63 = 0 then t else frame.pos + 2 } :: rest,
          lcl⟩, mem, glob⟩) := by
  refine ⟨?_, ?_, ?_, ?_⟩ <;> intro htb hv
  · simp only [step, hfunc, hop]
    norm_num
    simp only [TypeKind.read, Reader.read_u8, htb]
    norm_num [pop_i32_append _ v hv]
    by_cases hz : v = 0 <;> simp [hz, hjt]
  · simp only [step, hfunc, hop]
    norm_num
    simp only [TypeKind.read, Reader.read_u8, htb]
    norm_num [pop_i64_append _ v hv]
    by_cases hz : v = 0 <;> simp [hz, hjt]
  · simp only [step, hfunc, hop]
    norm_num
    simp only [TypeKind.read, Reader.read_u8, htb]
    norm_num [pop_i32_append _ v hv, f32NeZero]
    by_cases hz : v % (2147483648 : Nat) = 0 <;> simp [hz, hjt]
  · simp only [step, hfunc, hop]
    norm_num
    simp only [TypeKind.read, Reader.read_u8, htb]
    norm_num [pop_i64_append _ v hv, f64NeZero]
    by_cases hz : v % (9223372036854775808 : Nat) = 0 <;> simp [hz, hjt]

/-- Witness for C2 (amended): an `if` with i32 block type and the
nonzero condition 1 pops four bytes and falls through into the
then-arm (cursor 2). -/
theorem if_pops_condition_by_blocktype_witness :
    step (oneFuncModule [0x04, 0x7F, 0x0b, 0x0b] (fun p => if p = 0 then some 4 else none))
      [] constFloatOps ⟨⟨[] ++ toLe 4 1, [⟨0, 0, 0, none, []⟩], []⟩, [], []⟩ =
    .contS ⟨⟨[], [⟨0, if (1 : Nat) = 0 then 4 else 0 + 2, 0, none, []⟩], []⟩, [], []⟩ :=
  (if_pops_condition_by_blocktype
    (oneFuncModule [0x04, 0x7F, 0x0b, 0x0b] (fun p => if p = 0 then some 4 else none)) []
    constFloatOps
    ⟨⟨[], []⟩, 0, [0x04, 0x7F, 0x0b, 0x0b], fun p => if p = 0 then some 4 else none,
      [], [], 0, 0⟩
    ⟨0, 0, 0, none, []⟩ [] [] [] [] [] 1 4 rfl rfl rfl).1 rfl (by norm_num)

/-! ## C6: the locals arena after a normal termination -/

/-- C6 (counterexample).  An invocation on a VM context whose locals
arena holds four leftover bytes terminates normally with the arena
drained to length 0, not to the pre-invocation length 4: the root
frame's locals offset is hardcoded to 0. -/
theorem locals_not_restored_cex :
    evalLocalsOf (evaluate 20 (oneFuncModule trivialCode (fun _ => none)) 0 []
      ⟨[], [], [9, 9, 9, 9]⟩ [] [] [] constFloatOps) = some [] ∧
    ([9, 9, 9, 9] : List Nat).length = 4 ∧
    ¬ (([] : List Nat).length = 4) := by
  decide

theorem inv_cons {s : EvalState} (frame : StackFrame) {rest : List StackFrame}
    (hcs : s.ctx.call_stack = frame :: rest) (hinv : LocalsInv s) {fr' : StackFrame}
    (hoff : fr'.locals_offset = frame.locals_offset)
    (stack' locals' mem' glob' : List Nat) :
    LocalsInv ⟨⟨stack', fr' :: rest, locals'⟩, mem', glob'⟩ := by
  constructor
  · intro hc
    simp at hc
  · intro f hf
    cases rest with
    | nil =>
      simp only [List.getLast?_singleton, Option.some.injEq] at hf
      subst hf
      rw [hoff]
      exact hinv.2 frame (by rw [hcs]; rfl)
    | cons r rs =>
      rw [List.getLast?_cons_cons] at hf
      exact hinv.2 f (by rw [hcs, List.getLast?_cons_cons]; exact hf)

theorem inv_pop {s : EvalState} (frame : StackFrame) {rest : List StackFrame}
    (hcs : s.ctx.call_stack = frame :: rest) (hinv : LocalsInv s)
    (stack' mem' glob' : List Nat) :
    LocalsInv ⟨⟨stack', rest, s.ctx.locals.take frame.locals_offset⟩, mem', glob'⟩ := by
  constructor
  · intro hc
    simp only at hc
    subst hc
    have h0 : frame.locals_offset = 0 := hinv.2 frame (by rw [hcs]; rfl)
    rw [h0]
    rfl
  · intro f hf
    simp only at hf
    cases rest with
    | nil => simp [List.getLast?] at hf
    | cons r rs =>
      exact hinv.2 f (by rw [hcs, List.getLast?_cons_cons]; exact hf)

theorem inv_do_call {mod : WasmModule} {imports : List ImportedFunc} {s₁ s₂ : EvalState}
    {idx : Nat} (h : do_call mod imports s₁ idx = .okR s₂) (hinv : LocalsInv s₁) :
    LocalsInv s₂ := by
  simp only [do_call] at h
  split at h
  · split at h
    · injection h with h'
      subst h'
      constructor
      · intro hc
        simp at hc
      · intro f hf
        simp only at hf
        cases hcs : s₁.ctx.call_stack with
        | nil =>
          rw [hcs] at hf
          simp only [List.getLast?_singleton, Option.some.injEq] at hf
          subst hf
          have : s₁.ctx.locals = [] := hinv.1 hcs
          simp [this]
        | cons r rs =>
          rw [hcs, List.getLast?_cons_cons] at hf
          exact hinv.2 f (by rw [hcs]; exact hf)
    · cases h
  · split at h
    · injection h with h'
      subst h'
      exact ⟨fun hc => hinv.1 hc, fun f hf => hinv.2 f hf⟩
    · cases h

/-- Every step taken from a nonempty call stack either continues with
the locals bookkeeping intact, or stops with a typed error or a panic
(never with `doneS`). -/
theorem step_cons_cases (mod : WasmModule) (imports : List ImportedFunc) (fops : FloatOps)
    (stk lcl mem glob : List Nat) (frame : StackFrame) (rest : List StackFrame)
    (hinv : LocalsInv ⟨⟨stk, frame :: rest, lcl⟩, mem, glob⟩) :
    (∃ s'', step mod imports fops ⟨⟨stk, frame :: rest, lcl⟩, mem, glob⟩ = .contS s'' ∧
      LocalsInv s'') ∨
    (∃ e s₀, step mod imports fops ⟨⟨stk, frame :: rest, lcl⟩, mem, glob⟩ = .errS e s₀) ∨
    (step mod imports fops ⟨⟨stk, frame :: rest, lcl⟩, mem, glob⟩ = .pncS) := by
  generalize hs : step mod imports fops ⟨⟨stk, frame :: rest, lcl⟩, mem, glob⟩ = res
  rw [step] at hs
  dsimp only at hs
  split at hs
  · subst hs
    exact Or.inr (Or.inr rfl)
  rename_i func hfunc
  split at hs
  · split at hs
    · subst hs
      exact Or.inl ⟨_, rfl, inv_pop frame (by rfl) hinv _ _ _⟩
    · subst hs
      exact Or.inr (Or.inr rfl)
  rename_i op hop
  by_cases hA0 : op = 0x00
  · rw [if_pos hA0] at hs
    repeat' split at hs
    all_goals subst hs
    all_goals (first
        | exact Or.inl ⟨_, rfl, inv_pop frame (by rfl) hinv _ _ _⟩
        | exact Or.inl ⟨_, rfl, inv_cons frame (by rfl) hinv (by rfl) _ _ _ _⟩
        | exact Or.inl ⟨_, rfl, inv_do_call (by assumption)
            (inv_cons frame (by rfl) hinv (by rfl) _ _ _ _)⟩
        | exact Or.inr (Or.inl ⟨_, _, rfl⟩)
        | exact Or.inr (Or.inr rfl))
  rw [if_neg hA0] at hs
  by_cases hA1 : op = 0x02
  · rw [if_pos hA1] at hs
    repeat' split at hs
    all_goals subst hs
    all_goals (first
        | exact Or.inl ⟨_, rfl, inv_pop frame (by rfl) hinv _ _ _⟩
        | exact Or.inl ⟨_, rfl, inv_cons frame (by rfl) hinv (by rfl) _ _ _ _⟩
        | exact Or.inl ⟨_, rfl, inv_do_call (by assumption)
            (inv_cons frame (by rfl) hinv (by rfl) _ _ _ _)⟩
        | exact Or.inr (Or.inl ⟨_, _, rfl⟩)
        | exact Or.inr (Or.inr rfl))
  rw [if_neg hA1] at hs
  by_cases hA2 : op = 0x03
  · rw [if_pos hA2] at hs
    repeat' split at hs
    all_goals subst hs
    all_goals (first
        | exact Or.inl ⟨_, rfl, inv_pop frame (by rfl) hinv _ _ _⟩
        | exact Or.inl ⟨_, rfl, inv_cons frame (by rfl) hinv (by rfl) _ _ _ _⟩
        | exact Or.inl ⟨_, rfl, inv_do_call (by assumption)
            (inv_cons frame (by rfl) hinv (by rfl) _ _ _ _)⟩
        | exact Or.inr (Or.inl ⟨_, _, rfl⟩)
        | exact Or.inr (Or.inr rfl))
  rw [if_neg hA2] at hs
  by_cases hA3 : op = 0x04
  · rw [if_pos hA3] at hs
    repeat' split at hs
    all_goals subst hs
    all_goals (first
        | exact Or.inl ⟨_, rfl, inv_pop frame (by rfl) hinv _ _ _⟩
        | exact Or.inl ⟨_, rfl, inv_cons frame (by rfl) hinv (by rfl) _ _ _ _⟩
        | exact Or.inl ⟨_, rfl, inv_do_call (by assumption)
            (inv_cons frame (by rfl) hinv (by rfl) _ _ _ _)⟩
        | exact Or.inr (Or.inl ⟨_, _, rfl⟩)
        | exact Or.inr (Or.inr rfl))
  rw [if_neg hA3] at hs
  by_cases hA4 : op = 0x05
  · rw [if_pos hA4] at hs
    repeat' split at hs
    all_goals subst hs
    all_goals (first
        | exact Or.inl ⟨_, rfl, inv_pop frame (by rfl) hinv _ _ _⟩
        | exact Or.inl ⟨_, rfl, inv_cons frame (by rfl) hinv (by rfl) _ _ _ _⟩
        | exact Or.inl ⟨_, rfl, inv_do_call (by assumption)
            (inv_cons frame (by rfl) hinv (by rfl) _ _ _ _)⟩
        | exact Or.inr (Or.inl ⟨_, _, rfl⟩)
        | exact Or.inr (Or.inr rfl))
  rw [if_neg hA4] at hs
  by_cases hA5 : op = 0x0b
  · rw [if_pos hA5] at hs
    repeat' split at hs
    all_goals subst hs
    all_goals (first
        | exact Or.inl ⟨_, rfl, inv_pop frame (by rfl) hinv _ _ _⟩
        | exact Or.inl ⟨_, rfl, inv_cons frame (by rfl) hinv (by rfl) _ _ _ _⟩
        | exact Or.inl ⟨_, rfl, inv_do_call (by assumption)
            (inv_cons frame (by rfl) hinv (by rfl) _ _ _ _)⟩
        | exact Or.inr (Or.inl ⟨_, _, rfl⟩)
        | exact Or.inr (Or.inr rfl))
  rw [if_neg hA5] at hs
  by_cases hA6 : op = 0x0c
  · rw [if_pos hA6] at hs
    repeat' split at hs
    all_goals subst hs
    all_goals (first
        | exact Or.inl ⟨_, rfl, inv_pop frame (by rfl) hinv _ _ _⟩
        | exact Or.inl ⟨_, rfl, inv_cons frame (by rfl) hinv (by rfl) _ _ _ _⟩
        | exact Or.inl ⟨_, rfl, inv_do_call (by assumption)
            (inv_cons frame (by rfl) hinv (by rfl) _ _ _ _)⟩
        | exact Or.inr (Or.inl ⟨_, _, rfl⟩)
        | exact Or.inr (Or.inr rfl))
  rw [if_neg hA6] at hs
  by_cases hA7 : op = 0x0d
  · rw [if_pos hA7] at hs
    repeat' split at hs
    all_goals subst hs
    all_goals (first
        | exact Or.inl ⟨_, rfl, inv_pop frame (by rfl) hinv _ _ _⟩
        | exact Or.inl ⟨_, rfl, inv_cons frame (by rfl) hinv (by rfl) _ _ _ _⟩
        | exact Or.inl ⟨_, rfl, inv_do_call (by assumption)
            (inv_cons frame (by rfl) hinv (by rfl) _ _ _ _)⟩
        | exact Or.inr (Or.inl ⟨_, _, rfl⟩)
        | exact Or.inr (Or.inr rfl))
  rw [if_neg hA7] at hs
  by_cases hA8 : op = 0x0e
  · rw [if_pos hA8] at hs
    repeat' split at hs
    all_goals subst hs
    all_goals (first
        | exact Or.inl ⟨_, rfl, inv_pop frame (by rfl) hinv _ _ _⟩
        | exact Or.inl ⟨_, rfl, inv_cons frame (by rfl) hinv (by rfl) _ _ _ _⟩
        | exact Or.inl ⟨_, rfl, inv_do_call (by assumption)
            (inv_cons frame (by rfl) hinv (by rfl) _ _ _ _)⟩
        | exact Or.inr (Or.inl ⟨_, _, rfl⟩)
        | exact Or.inr (Or.inr rfl))
  rw [if_neg hA8] at hs
  by_cases hA9 : op = 0x0f
  · rw [if_pos hA9] at hs
    repeat' split at hs
    all_goals subst hs
    all_goals (first
        | exact Or.inl ⟨_, rfl, inv_pop frame (by rfl) hinv _ _ _⟩
        | exact Or.inl ⟨_, rfl, inv_cons frame (by rfl) hinv (by rfl) _ _ _ _⟩
        | exact Or.inl ⟨_, rfl, inv_do_call (by assumption)
            (inv_cons frame (by rfl) hinv (by rfl) _ _ _ _)⟩
        | exact Or.inr (Or.inl ⟨_, _, rfl⟩)
        | exact Or.inr (Or.inr rfl))
  rw [if_neg hA9] at hs
  by_cases hA10 : op = 0x10
  · rw [if_pos hA10] at hs
    repeat' split at hs
    all_goals subst hs
    all_goals (first
        | exact Or.inl ⟨_, rfl, inv_pop frame (by rfl) hinv _ _ _⟩
        | exact Or.inl ⟨_, rfl, inv_cons frame (by rfl) hinv (by rfl) _ _ _ _⟩
        | exact Or.inl ⟨_, rfl, inv_do_call (by assumption)
            (inv_cons frame (by rfl) hinv (by rfl) _ _ _ _)⟩
        | exact Or.inr (Or.inl ⟨_, _, rfl⟩)
        | exact Or.inr (Or.inr rfl))
  rw [if_neg hA10] at hs
  by_cases hA11 : op = 0x11
  · rw [if_pos hA11] at hs
    repeat' split at hs
    all_goals subst hs
    all_goals (first
        | exact Or.inl ⟨_, rfl, inv_pop frame (by rfl) hinv _ _ _⟩
        | exact Or.inl ⟨_, rfl, inv_cons frame (by rfl) hinv (by rfl) _ _ _ _⟩
        | exact Or.inl ⟨_, rfl, inv_do_call (by assumption)
            (inv_cons frame (by rfl) hinv (by rfl) _ _ _ _)⟩
        | exact Or.inr (Or.inl ⟨_, _, rfl⟩)
        | exact Or.inr (Or.inr rfl))
  rw [if_neg hA11] at hs
  by_cases hA12 : op = 0x1a
  · rw [if_pos hA12] at hs
    repeat' split at hs
    all_goals subst hs
    all_goals (first
        | exact Or.inl ⟨_, rfl, inv_pop frame (by rfl) hinv _ _ _⟩
        | exact Or.inl ⟨_, rfl, inv_cons frame (by rfl) hinv (by rfl) _ _ _ _⟩
        | exact Or.inl ⟨_, rfl, inv_do_call (by assumption)
            (inv_cons frame (by rfl) hinv (by rfl) _ _ _ _)⟩
        | exact Or.inr (Or.inl ⟨_, _, rfl⟩)
        | exact Or.inr (Or.inr rfl))
  rw [if_neg hA12] at hs
  by_cases hA13 : op = 0x1b
  · rw [if_pos hA13] at hs
    repeat' split at hs
    all_goals subst hs
    all_goals (first
        | exact Or.inl ⟨_, rfl, inv_pop frame (by rfl) hinv _ _ _⟩
        | exact Or.inl ⟨_, rfl, inv_cons frame (by rfl) hinv (by rfl) _ _ _ _⟩
        | exact Or.inl ⟨_, rfl, inv_do_call (by assumption)
            (inv_cons frame (by rfl) hinv (by rfl) _ _ _ _)⟩
        | exact Or.inr (Or.inl ⟨_, _, rfl⟩)
        | exact Or.inr (Or.inr rfl))
  rw [if_neg hA13] at hs
  by_cases hA14 : op = 0x20
  · rw [if_pos hA14] at hs
    repeat' split at hs
    all_goals subst hs
    all_goals (first
        | exact Or.inl ⟨_, rfl, inv_pop frame (by rfl) hinv _ _ _⟩
        | exact Or.inl ⟨_, rfl, inv_cons frame (by rfl) hinv (by rfl) _ _ _ _⟩
        | exact Or.inl ⟨_, rfl, inv_do_call (by assumption)
            (inv_cons frame (by rfl) hinv (by rfl) _ _ _ _)⟩
        | exact Or.inr (Or.inl ⟨_, _, rfl⟩)
        | exact Or.inr (Or.inr rfl))
  rw [if_neg hA14] at hs
  by_cases hA15 : op = 0x21
  · rw [if_pos hA15] at hs
    repeat' split at hs
    all_goals subst hs
    all_goals (first
        | exact Or.inl ⟨_, rfl, inv_pop frame (by rfl) hinv _ _ _⟩
        | exact Or.inl ⟨_, rfl, inv_cons frame (by rfl) hinv (by rfl) _ _ _ _⟩
        | exact Or.inl ⟨_, rfl, inv_do_call (by assumption)
            (inv_cons frame (by rfl) hinv (by rfl) _ _ _ _)⟩
        | exact Or.inr (Or.inl ⟨_, _, rfl⟩)
        | exact Or.inr (Or.inr rfl))
  rw [if_neg hA15] at hs
  by_cases hA16 : op = 0x22
  · rw [if_pos hA16] at hs
    repeat' split at hs
    all_goals subst hs
    all_goals (first
        | exact Or.inl ⟨_, rfl, inv_pop frame (by rfl) hinv _ _ _⟩
        | exact Or.inl ⟨_, rfl, inv_cons frame (by rfl) hinv (by rfl) _ _ _ _⟩
        | exact Or.inl ⟨_, rfl, inv_do_call (by assumption)
            (inv_cons frame (by rfl) hinv (by rfl) _ _ _ _)⟩
        | exact Or.inr (Or.inl ⟨_, _, rfl⟩)
        | exact Or.inr (Or.inr rfl))
  rw [if_neg hA16] at hs
  by_cases hA17 : op = 0x23
  · rw [if_pos hA17] at hs
    repeat' split at hs
    all_goals subst hs
    all_goals (first
        | exact Or.inl ⟨_, rfl, inv_pop frame (by rfl) hinv _ _ _⟩
        | exact Or.inl ⟨_, rfl, inv_cons frame (by rfl) hinv (by rfl) _ _ _ _⟩
        | exact Or.inl ⟨_, rfl, inv_do_call (by assumption)
            (inv_cons frame (by rfl) hinv (by rfl) _ _ _ _)⟩
        | exact Or.inr (Or.inl ⟨_, _, rfl⟩)
        | exact Or.inr (Or.inr rfl))
  rw [if_neg hA17] at hs
  by_cases hA18 : op = 0x24
  · rw [if_pos hA18] at hs
    repeat' split at hs
    all_goals subst hs
    all_goals (first
        | exact Or.inl ⟨_, rfl, inv_pop frame (by rfl) hinv _ _ _⟩
        | exact Or.inl ⟨_, rfl, inv_cons frame (by rfl) hinv (by rfl) _ _ _ _⟩
        | exact Or.inl ⟨_, rfl, inv_do_call (by assumption)
            (inv_cons frame (by rfl) hinv (by rfl) _ _ _ _)⟩
        | exact Or.inr (Or.inl ⟨_, _, rfl⟩)
        | exact Or.inr (Or.inr rfl))
  rw [if_neg hA18] at hs
  by_cases hA19 : 0x28 ≤ op ∧ op ≤ 0x35
  · rw [if_pos hA19] at hs
    repeat' split at hs
    all_goals subst hs
    all_goals (first
        | exact Or.inl ⟨_, rfl, inv_pop frame (by rfl) hinv _ _ _⟩
        | exact Or.inl ⟨_, rfl, inv_cons frame (by rfl) hinv (by rfl) _ _ _ _⟩
        | exact Or.inl ⟨_, rfl, inv_do_call (by assumption)
            (inv_cons frame (by rfl) hinv (by rfl) _ _ _ _)⟩
        | exact Or.inr (Or.inl ⟨_, _, rfl⟩)
        | exact Or.inr (Or.inr rfl))
  rw [if_neg hA19] at hs
  by_cases hA20 : 0x36 ≤ op ∧ op ≤ 0x3e
  · rw [if_pos hA20] at hs
    repeat' split at hs
    all_goals subst hs
    all_goals (first
        | exact Or.inl ⟨_, rfl, inv_pop frame (by rfl) hinv _ _ _⟩
        | exact Or.inl ⟨_, rfl, inv_cons frame (by rfl) hinv (by rfl) _ _ _ _⟩
        | exact Or.inl ⟨_, rfl, inv_do_call (by assumption)
            (inv_cons frame (by rfl) hinv (by rfl) _ _ _ _)⟩
        | exact Or.inr (Or.inl ⟨_, _, rfl⟩)
        | exact Or.inr (Or.inr rfl))
  rw [if_neg hA20] at hs
  by_cases hA21 : op = 0x41
  · rw [if_pos hA21] at hs
    repeat' split at hs
    all_goals subst hs
    all_goals (first
        | exact Or.inl ⟨_, rfl, inv_pop frame (by rfl) hinv _ _ _⟩
        | exact Or.inl ⟨_, rfl, inv_cons frame (by rfl) hinv (by rfl) _ _ _ _⟩
        | exact Or.inl ⟨_, rfl, inv_do_call (by assumption)
            (inv_cons frame (by rfl) hinv (by rfl) _ _ _ _)⟩
        | exact Or.inr (Or.inl ⟨_, _, rfl⟩)
        | exact Or.inr (Or.inr rfl))
  rw [if_neg hA21] at hs
  by_cases hA22 : op = 0x42
  · rw [if_pos hA22] at hs
    repeat' split at hs
    all_goals subst hs
    all_goals (first
        | exact Or.inl ⟨_, rfl, inv_pop frame (by rfl) hinv _ _ _⟩
        | exact Or.inl ⟨_, rfl, inv_cons frame (by rfl) hinv (by rfl) _ _ _ _⟩
        | exact Or.inl ⟨_, rfl, inv_do_call (by assumption)
            (inv_cons frame (by rfl) hinv (by rfl) _ _ _ _)⟩
        | exact Or.inr (Or.inl ⟨_, _, rfl⟩)
        | exact Or.inr (Or.inr rfl))
  rw [if_neg hA22] at hs
  by_cases hA23 : op = 0x43
  · rw [if_pos hA23] at hs
    repeat' split at hs
    all_goals subst hs
    all_goals (first
        | exact Or.inl ⟨_, rfl, inv_pop frame (by rfl) hinv _ _ _⟩
        | exact Or.inl ⟨_, rfl, inv_cons frame (by rfl) hinv (by rfl) _ _ _ _⟩
        | exact Or.inl ⟨_, rfl, inv_do_call (by assumption)
            (inv_cons frame (by rfl) hinv (by rfl) _ _ _ _)⟩
        | exact Or.inr (Or.inl ⟨_, _, rfl⟩)
        | exact Or.inr (Or.inr rfl))
  rw [if_neg hA23] at hs
  by_cases hA24 : op = 0x44
  · rw [if_pos hA24] at hs
    repeat' split at hs
    all_goals subst hs
    all_goals (first
        | exact Or.inl ⟨_, rfl, inv_pop frame (by rfl) hinv _ _ _⟩
        | exact Or.inl ⟨_, rfl, inv_cons frame (by rfl) hinv (by rfl) _ _ _ _⟩
        | exact Or.inl ⟨_, rfl, inv_do_call (by assumption)
            (inv_cons frame (by rfl) hinv (by rfl) _ _ _ _)⟩
        | exact Or.inr (Or.inl ⟨_, _, rfl⟩)
        | exact Or.inr (Or.inr rfl))
  rw [if_neg hA24] at hs
  by_cases hA25 : op = 0x45
  · rw [if_pos hA25] at hs
    repeat' split at hs
    all_goals subst hs
    all_goals (first
        | exact Or.inl ⟨_, rfl, inv_pop frame (by rfl) hinv _ _ _⟩
        | exact Or.inl ⟨_, rfl, inv_cons frame (by rfl) hinv (by rfl) _ _ _ _⟩
        | exact Or.inl ⟨_, rfl, inv_do_call (by assumption)
            (inv_cons frame (by rfl) hinv (by rfl) _ _ _ _)⟩
        | exact Or.inr (Or.inl ⟨_, _, rfl⟩)
        | exact Or.inr (Or.inr rfl))
  rw [if_neg hA25] at hs
  by_cases hA26 : op = 0x46
  · rw [if_pos hA26] at hs
    repeat' split at hs
    all_goals subst hs
    all_goals (first
        | exact Or.inl ⟨_, rfl, inv_pop frame (by rfl) hinv _ _ _⟩
        | exact Or.inl ⟨_, rfl, inv_cons frame (by rfl) hinv (by rfl) _ _ _ _⟩
        | exact Or.inl ⟨_, rfl, inv_do_call (by assumption)
            (inv_cons frame (by rfl) hinv (by rfl) _ _ _ _)⟩
        | exact Or.inr (Or.inl ⟨_, _, rfl⟩)
        | exact Or.inr (Or.inr rfl))
  rw [if_neg hA26] at hs
  by_cases hA27 : op = 0x47
  · rw [if_pos hA27] at hs
    repeat' split at hs
    all_goals subst hs
    all_goals (first
        | exact Or.inl ⟨_, rfl, inv_pop frame (by rfl) hinv _ _ _⟩
        | exact Or.inl ⟨_, rfl, inv_cons frame (by rfl) hinv (by rfl) _ _ _ _⟩
        | exact Or.inl ⟨_, rfl, inv_do_call (by assumption)
            (inv_cons frame (by rfl) hinv (by rfl) _ _ _ _)⟩
        | exact Or.inr (Or.inl ⟨_, _, rfl⟩)
        | exact Or.inr (Or.inr rfl))
  rw [if_neg hA27] at hs
  by_cases hA28 : op = 0x48
  · rw [if_pos hA28] at hs
    repeat' split at hs
    all_goals subst hs
    all_goals (first
        | exact Or.inl ⟨_, rfl, inv_pop frame (by rfl) hinv _ _ _⟩
        | exact Or.inl ⟨_, rfl, inv_cons frame (by rfl) hinv (by rfl) _ _ _ _⟩
        | exact Or.inl ⟨_, rfl, inv_do_call (by assumption)
            (inv_cons frame (by rfl) hinv (by rfl) _ _ _ _)⟩
        | exact Or.inr (Or.inl ⟨_, _, rfl⟩)
        | exact Or.inr (Or.inr rfl))
  rw [if_neg hA28] at hs
  by_cases hA29 : op = 0x49
  · rw [if_pos hA29] at hs
    repeat' split at hs
    all_goals subst hs
    all_goals (first
        | exact Or.inl ⟨_, rfl, inv_pop frame (by rfl) hinv _ _ _⟩
        | exact Or.inl ⟨_, rfl, inv_cons frame (by rfl) hinv (by rfl) _ _ _ _⟩
        | exact Or.inl ⟨_, rfl, inv_do_call (by assumption)
            (inv_cons frame (by rfl) hinv (by rfl) _ _ _ _)⟩
        | exact Or.inr (Or.inl ⟨_, _, rfl⟩)
        | exact Or.inr (Or.inr rfl))
  rw [if_neg hA29] at hs
  by_cases hA30 : op = 0x4a
  · rw [if_pos hA30] at hs
    repeat' split at hs
    all_goals subst hs
    all_goals (first
        | exact Or.inl ⟨_, rfl, inv_pop frame (by rfl) hinv _ _ _⟩
        | exact Or.inl ⟨_, rfl, inv_cons frame (by rfl) hinv (by rfl) _ _ _ _⟩
        | exact Or.inl ⟨_, rfl, inv_do_call (by assumption)
            (inv_cons frame (by rfl) hinv (by rfl) _ _ _ _)⟩
        | exact Or.inr (Or.inl ⟨_, _, rfl⟩)
        | exact Or.inr (Or.inr rfl))
  rw [if_neg hA30] at hs
  by_cases hA31 : op = 0x4b
  · rw [if_pos hA31] at hs
    repeat' split at hs
    all_goals subst hs
    all_goals (first
        | exact Or.inl ⟨_, rfl, inv_pop frame (by rfl) hinv _ _ _⟩
        | exact Or.inl ⟨_, rfl, inv_cons frame (by rfl) hinv (by rfl) _ _ _ _⟩
        | exact Or.inl ⟨_, rfl, inv_do_call (by assumption)
            (inv_cons frame (by rfl) hinv (by rfl) _ _ _ _)⟩
        | exact Or.inr (Or.inl ⟨_, _, rfl⟩)
        | exact Or.inr (Or.inr rfl))
  rw [if_neg hA31] at hs
  by_cases hA32 : op = 0x4c
  · rw [if_pos hA32] at hs
    repeat' split at hs
    all_goals subst hs
    all_goals (first
        | exact Or.inl ⟨_, rfl, inv_pop frame (by rfl) hinv _ _ _⟩
        | exact Or.inl ⟨_, rfl, inv_cons frame (by rfl) hinv (by rfl) _ _ _ _⟩
        | exact Or.inl ⟨_, rfl, inv_do_call (by assumption)
            (inv_cons frame (by rfl) hinv (by rfl) _ _ _ _)⟩
        | exact Or.inr (Or.inl ⟨_, _, rfl⟩)
        | exact Or.inr (Or.inr rfl))
  rw [if_neg hA32] at hs
  by_cases hA33 : op = 0x4d
  · rw [if_pos hA33] at hs
    repeat' split at hs
    all_goals subst hs
    all_goals (first
        | exact Or.inl ⟨_, rfl, inv_pop frame (by rfl) hinv _ _ _⟩
        | exact Or.inl ⟨_, rfl, inv_cons frame (by rfl) hinv (by rfl) _ _ _ _⟩
        | exact Or.inl ⟨_, rfl, inv_do_call (by assumption)
            (inv_cons frame (by rfl) hinv (by rfl) _ _ _ _)⟩
        | exact Or.inr (Or.inl ⟨_, _, rfl⟩)
        | exact Or.inr (Or.inr rfl))
  rw [if_neg hA33] at hs
  by_cases hA34 : op = 0x4e
  · rw [if_pos hA34] at hs
    repeat' split at hs
    all_goals subst hs
    all_goals (first
        | exact Or.inl ⟨_, rfl, inv_pop frame (by rfl) hinv _ _ _⟩
        | exact Or.inl ⟨_, rfl, inv_cons frame (by rfl) hinv (by rfl) _ _ _ _⟩
        | exact Or.inl ⟨_, rfl, inv_do_call (by assumption)
            (inv_cons frame (by rfl) hinv (by rfl) _ _ _ _)⟩
        | exact Or.inr (Or.inl ⟨_, _, rfl⟩)
        | exact Or.inr (Or.inr rfl))
  rw [if_neg hA34] at hs
  by_cases hA35 : op = 0x4f
  · rw [if_pos hA35] at hs
    repeat' split at hs
    all_goals subst hs
    all_goals (first
        | exact Or.inl ⟨_, rfl, inv_pop frame (by rfl) hinv _ _ _⟩
        | exact Or.inl ⟨_, rfl, inv_cons frame (by rfl) hinv (by rfl) _ _ _ _⟩
        | exact Or.inl ⟨_, rfl, inv_do_call (by assumption)
            (inv_cons frame (by rfl) hinv (by rfl) _ _ _ _)⟩
        | exact Or.inr (Or.inl ⟨_, _, rfl⟩)
        | exact Or.inr (Or.inr rfl))
  rw [if_neg hA35] at hs
  by_cases hA36 : op = 0x50
  · rw [if_pos hA36] at hs
    repeat' split at hs
    all_goals subst hs
    all_goals (first
        | exact Or.inl ⟨_, rfl, inv_pop frame (by rfl) hinv _ _ _⟩
        | exact Or.inl ⟨_, rfl, inv_cons frame (by rfl) hinv (by rfl) _ _ _ _⟩
        | exact Or.inl ⟨_, rfl, inv_do_call (by assumption)
            (inv_cons frame (by rfl) hinv (by rfl) _ _ _ _)⟩
        | exact Or.inr (Or.inl ⟨_, _, rfl⟩)
        | exact Or.inr (Or.inr rfl))
  rw [if_neg hA36] at hs
  by_cases hA37 : op = 0x52
  · rw [if_pos hA37] at hs
    repeat' split at hs
    all_goals subst hs
    all_goals (first
        | exact Or.inl ⟨_, rfl, inv_pop frame (by rfl) hinv _ _ _⟩
        | exact Or.inl ⟨_, rfl, inv_cons frame (by rfl) hinv (by rfl) _ _ _ _⟩
        | exact Or.inl ⟨_, rfl, inv_do_call (by assumption)
            (inv_cons frame (by rfl) hinv (by rfl) _ _ _ _)⟩
        | exact Or.inr (Or.inl ⟨_, _, rfl⟩)
        | exact Or.inr (Or.inr rfl))
  rw [if_neg hA37] at hs
  by_cases hA38 : op = 0x54
  · rw [if_pos hA38] at hs
    repeat' split at hs
    all_goals subst hs
    all_goals (first
        | exact Or.inl ⟨_, rfl, inv_pop frame (by rfl) hinv _ _ _⟩
        | exact Or.inl ⟨_, rfl, inv_cons frame (by rfl) hinv (by rfl) _ _ _ _⟩
        | exact Or.inl ⟨_, rfl, inv_do_call (by assumption)
            (inv_cons frame (by rfl) hinv (by rfl) _ _ _ _)⟩
        | exact Or.inr (Or.inl ⟨_, _, rfl⟩)
        | exact Or.inr (Or.inr rfl))
  rw [if_neg hA38] at hs
  by_cases hA39 : op = 0x56
  · rw [if_pos hA39] at hs
    repeat' split at hs
    all_goals subst hs
    all_goals (first
        | exact Or.inl ⟨_, rfl, inv_pop frame (by rfl) hinv _ _ _⟩
        | exact Or.inl ⟨_, rfl, inv_cons frame (by rfl) hinv (by rfl) _ _ _ _⟩
        | exact Or.inl ⟨_, rfl, inv_do_call (by assumption)
            (inv_cons frame (by rfl) hinv (by rfl) _ _ _ _)⟩
        | exact Or.inr (Or.inl ⟨_, _, rfl⟩)
        | exact Or.inr (Or.inr rfl))
  rw [if_neg hA39] at hs
  by_cases hA40 : op = 0x5a
  · rw [if_pos hA40] at hs
    repeat' split at hs
    all_goals subst hs
    all_goals (first
        | exact Or.inl ⟨_, rfl, inv_pop frame (by rfl) hinv _ _ _⟩
        | exact Or.inl ⟨_, rfl, inv_cons frame (by rfl) hinv (by rfl) _ _ _ _⟩
        | exact Or.inl ⟨_, rfl, inv_do_call (by assumption)
            (inv_cons frame (by rfl) hinv (by rfl) _ _ _ _)⟩
        | exact Or.inr (Or.inl ⟨_, _, rfl⟩)
        | exact Or.inr (Or.inr rfl))
  rw [if_neg hA40] at hs
  by_cases hA41 : op = 0x63
  · rw [if_pos hA41] at hs
    repeat' split at hs
    all_goals subst hs
    all_goals (first
        | exact Or.inl ⟨_, rfl, inv_pop frame (by rfl) hinv _ _ _⟩
        | exact Or.inl ⟨_, rfl, inv_cons frame (by rfl) hinv (by rfl) _ _ _ _⟩
        | exact Or.inl ⟨_, rfl, inv_do_call (by assumption)
            (inv_cons frame (by rfl) hinv (by rfl) _ _ _ _)⟩
        | exact Or.inr (Or.inl ⟨_, _, rfl⟩)
        | exact Or.inr (Or.inr rfl))
  rw [if_neg hA41] at hs
  by_cases hA42 : op = 0x6a
  · rw [if_pos hA42] at hs
    repeat' split at hs
    all_goals subst hs
    all_goals (first
        | exact Or.inl ⟨_, rfl, inv_pop frame (by rfl) hinv _ _ _⟩
        | exact Or.inl ⟨_, rfl, inv_cons frame (by rfl) hinv (by rfl) _ _ _ _⟩
        | exact Or.inl ⟨_, rfl, inv_do_call (by assumption)
            (inv_cons frame (by rfl) hinv (by rfl) _ _ _ _)⟩
        | exact Or.inr (Or.inl ⟨_, _, rfl⟩)
        | exact Or.inr (Or.inr rfl))
  rw [if_neg hA42] at hs
  by_cases hA43 : op = 0x6b
  · rw [if_pos hA43] at hs
    repeat' split at hs
    all_goals subst hs
    all_goals (first
        | exact Or.inl ⟨_, rfl, inv_pop frame (by rfl) hinv _ _ _⟩
        | exact Or.inl ⟨_, rfl, inv_cons frame (by rfl) hinv (by rfl) _ _ _ _⟩
        | exact Or.inl ⟨_, rfl, inv_do_call (by assumption)
            (inv_cons frame (by rfl) hinv (by rfl) _ _ _ _)⟩
        | exact Or.inr (Or.inl ⟨_, _, rfl⟩)
        | exact Or.inr (Or.inr rfl))
  rw [if_neg hA43] at hs
  by_cases hA44 : op = 0x6c
  · rw [if_pos hA44] at hs
    repeat' split at hs
    all_goals subst hs
    all_goals (first
        | exact Or.inl ⟨_, rfl, inv_pop frame (by rfl) hinv _ _ _⟩
        | exact Or.inl ⟨_, rfl, inv_cons frame (by rfl) hinv (by rfl) _ _ _ _⟩
        | exact Or.inl ⟨_, rfl, inv_do_call (by assumption)
            (inv_cons frame (by rfl) hinv (by rfl) _ _ _ _)⟩
        | exact Or.inr (Or.inl ⟨_, _, rfl⟩)
        | exact Or.inr (Or.inr rfl))
  rw [if_neg hA44] at hs
  by_cases hA45 : op = 0x6d
  · rw [if_pos hA45] at hs
    repeat' split at hs
    all_goals subst hs
    all_goals (first
        | exact Or.inl ⟨_, rfl, inv_pop frame (by rfl) hinv _ _ _⟩
        | exact Or.inl ⟨_, rfl, inv_cons frame (by rfl) hinv (by rfl) _ _ _ _⟩
        | exact Or.inl ⟨_, rfl, inv_do_call (by assumption)
            (inv_cons frame (by rfl) hinv (by rfl) _ _ _ _)⟩
        | exact Or.inr (Or.inl ⟨_, _, rfl⟩)
        | exact Or.inr (Or.inr rfl))
  rw [if_neg hA45] at hs
  by_cases hA46 : op = 0x6e
  · rw [if_pos hA46] at hs
    repeat' split at hs
    all_goals subst hs
    all_goals (first
        | exact Or.inl ⟨_, rfl, inv_pop frame (by rfl) hinv _ _ _⟩
        | exact Or.inl ⟨_, rfl, inv_cons frame (by rfl) hinv (by rfl) _ _ _ _⟩
        | exact Or.inl ⟨_, rfl, inv_do_call (by assumption)
            (inv_cons frame (by rfl) hinv (by rfl) _ _ _ _)⟩
        | exact Or.inr (Or.inl ⟨_, _, rfl⟩)
        | exact Or.inr (Or.inr rfl))
  rw [if_neg hA46] at hs
  by_cases hA47 : op = 0x70
  · rw [if_pos hA47] at hs
    repeat' split at hs
    all_goals subst hs
    all_goals (first
        | exact Or.inl ⟨_, rfl, inv_pop frame (by rfl) hinv _ _ _⟩
        | exact Or.inl ⟨_, rfl, inv_cons frame (by rfl) hinv (by rfl) _ _ _ _⟩
        | exact Or.inl ⟨_, rfl, inv_do_call (by assumption)
            (inv_cons frame (by rfl) hinv (by rfl) _ _ _ _)⟩
        | exact Or.inr (Or.inl ⟨_, _, rfl⟩)
        | exact Or.inr (Or.inr rfl))
  rw [if_neg hA47] at hs
  by_cases hA48 : op = 0x71
  · rw [if_pos hA48] at hs
    repeat' split at hs
    all_goals subst hs
    all_goals (first
        | exact Or.inl ⟨_, rfl, inv_pop frame (by rfl) hinv _ _ _⟩
        | exact Or.inl ⟨_, rfl, inv_cons frame (by rfl) hinv (by rfl) _ _ _ _⟩
        | exact Or.inl ⟨_, rfl, inv_do_call (by assumption)
            (inv_cons frame (by rfl) hinv (by rfl) _ _ _ _)⟩
        | exact Or.inr (Or.inl ⟨_, _, rfl⟩)
        | exact Or.inr (Or.inr rfl))
  rw [if_neg hA48] at hs
  by_cases hA49 : op = 0x72
  · rw [if_pos hA49] at hs
    repeat' split at hs
    all_goals subst hs
    all_goals (first
        | exact Or.inl ⟨_, rfl, inv_pop frame (by rfl) hinv _ _ _⟩
        | exact Or.inl ⟨_, rfl, inv_cons frame (by rfl) hinv (by rfl) _ _ _ _⟩
        | exact Or.inl ⟨_, rfl, inv_do_call (by assumption)
            (inv_cons frame (by rfl) hinv (by rfl) _ _ _ _)⟩
        | exact Or.inr (Or.inl ⟨_, _, rfl⟩)
        | exact Or.inr (Or.inr rfl))
  rw [if_neg hA49] at hs
  by_cases hA50 : op = 0x73
  · rw [if_pos hA50] at hs
    repeat' split at hs
    all_goals subst hs
    all_goals (first
        | exact Or.inl ⟨_, rfl, inv_pop frame (by rfl) hinv _ _ _⟩
        | exact Or.inl ⟨_, rfl, inv_cons frame (by rfl) hinv (by rfl) _ _ _ _⟩
        | exact Or.inl ⟨_, rfl, inv_do_call (by assumption)
            (inv_cons frame (by rfl) hinv (by rfl) _ _ _ _)⟩
        | exact Or.inr (Or.inl ⟨_, _, rfl⟩)
        | exact Or.inr (Or.inr rfl))
  rw [if_neg hA50] at hs
  by_cases hA51 : op = 0x74
  · rw [if_pos hA51] at hs
    repeat' split at hs
    all_goals subst hs
    all_goals (first
        | exact Or.inl ⟨_, rfl, inv_pop frame (by rfl) hinv _ _ _⟩
        | exact Or.inl ⟨_, rfl, inv_cons frame (by rfl) hinv (by rfl) _ _ _ _⟩
        | exact Or.inl ⟨_, rfl, inv_do_call (by assumption)
            (inv_cons frame (by rfl) hinv (by rfl) _ _ _ _)⟩
        | exact Or.inr (Or.inl ⟨_, _, rfl⟩)
        | exact Or.inr (Or.inr rfl))
  rw [if_neg hA51] at hs
  by_cases hA52 : op = 0x76
  · rw [if_pos hA52] at hs
    repeat' split at hs
    all_goals subst hs
    all_goals (first
        | exact Or.inl ⟨_, rfl, inv_pop frame (by rfl) hinv _ _ _⟩
        | exact Or.inl ⟨_, rfl, inv_cons frame (by rfl) hinv (by rfl) _ _ _ _⟩
        | exact Or.inl ⟨_, rfl, inv_do_call (by assumption)
            (inv_cons frame (by rfl) hinv (by rfl) _ _ _ _)⟩
        | exact Or.inr (Or.inl ⟨_, _, rfl⟩)
        | exact Or.inr (Or.inr rfl))
  rw [if_neg hA52] at hs
  by_cases hA53 : op = 0x7c
  · rw [if_pos hA53] at hs
    repeat' split at hs
    all_goals subst hs
    all_goals (first
        | exact Or.inl ⟨_, rfl, inv_pop frame (by rfl) hinv _ _ _⟩
        | exact Or.inl ⟨_, rfl, inv_cons frame (by rfl) hinv (by rfl) _ _ _ _⟩
        | exact Or.inl ⟨_, rfl, inv_do_call (by assumption)
            (inv_cons frame (by rfl) hinv (by rfl) _ _ _ _)⟩
        | exact Or.inr (Or.inl ⟨_, _, rfl⟩)
        | exact Or.inr (Or.inr rfl))
  rw [if_neg hA53] at hs
  by_cases hA54 : op = 0x7e
  · rw [if_pos hA54] at hs
    repeat' split at hs
    all_goals subst hs
    all_goals (first
        | exact Or.inl ⟨_, rfl, inv_pop frame (by rfl) hinv _ _ _⟩
        | exact Or.inl ⟨_, rfl, inv_cons frame (by rfl) hinv (by rfl) _ _ _ _⟩
        | exact Or.inl ⟨_, rfl, inv_do_call (by assumption)
            (inv_cons frame (by rfl) hinv (by rfl) _ _ _ _)⟩
        | exact Or.inr (Or.inl ⟨_, _, rfl⟩)
        | exact Or.inr (Or.inr rfl))
  rw [if_neg hA54] at hs
  by_cases hA55 : op = 0x80
  · rw [if_pos hA55] at hs
    repeat' split at hs
    all_goals subst hs
    all_goals (first
        | exact Or.inl ⟨_, rfl, inv_pop frame (by rfl) hinv _ _ _⟩
        | exact Or.inl ⟨_, rfl, inv_cons frame (by rfl) hinv (by rfl) _ _ _ _⟩
        | exact Or.inl ⟨_, rfl, inv_do_call (by assumption)
            (inv_cons frame (by rfl) hinv (by rfl) _ _ _ _)⟩
        | exact Or.inr (Or.inl ⟨_, _, rfl⟩)
        | exact Or.inr (Or.inr rfl))
  rw [if_neg hA55] at hs
  by_cases hA56 : op = 0x82
  · rw [if_pos hA56] at hs
    repeat' split at hs
    all_goals subst hs
    all_goals (first
        | exact Or.inl ⟨_, rfl, inv_pop frame (by rfl) hinv _ _ _⟩
        | exact Or.inl ⟨_, rfl, inv_cons frame (by rfl) hinv (by rfl) _ _ _ _⟩
        | exact Or.inl ⟨_, rfl, inv_do_call (by assumption)
            (inv_cons frame (by rfl) hinv (by rfl) _ _ _ _)⟩
        | exact Or.inr (Or.inl ⟨_, _, rfl⟩)
        | exact Or.inr (Or.inr rfl))
  rw [if_neg hA56] at hs
  by_cases hA57 : op = 0x83
  · rw [if_pos hA57] at hs
    repeat' split at hs
    all_goals subst hs
    all_goals (first
        | exact Or.inl ⟨_, rfl, inv_pop frame (by rfl) hinv _ _ _⟩
        | exact Or.inl ⟨_, rfl, inv_cons frame (by rfl) hinv (by rfl) _ _ _ _⟩
        | exact Or.inl ⟨_, rfl, inv_do_call (by assumption)
            (inv_cons frame (by rfl) hinv (by rfl) _ _ _ _)⟩
        | exact Or.inr (Or.inl ⟨_, _, rfl⟩)
        | exact Or.inr (Or.inr rfl))
  rw [if_neg hA57] at hs
  by_cases hA58 : op = 0x84
  · rw [if_pos hA58] at hs
    repeat' split at hs
    all_goals subst hs
    all_goals (first
        | exact Or.inl ⟨_, rfl, inv_pop frame (by rfl) hinv _ _ _⟩
        | exact Or.inl ⟨_, rfl, inv_cons frame (by rfl) hinv (by rfl) _ _ _ _⟩
        | exact Or.inl ⟨_, rfl, inv_do_call (by assumption)
            (inv_cons frame (by rfl) hinv (by rfl) _ _ _ _)⟩
        | exact Or.inr (Or.inl ⟨_, _, rfl⟩)
        | exact Or.inr (Or.inr rfl))
  rw [if_neg hA58] at hs
  by_cases hA59 : op = 0x86
  · rw [if_pos hA59] at hs
    repeat' split at hs
    all_goals subst hs
    all_goals (first
        | exact Or.inl ⟨_, rfl, inv_pop frame (by rfl) hinv _ _ _⟩
        | exact Or.inl ⟨_, rfl, inv_cons frame (by rfl) hinv (by rfl) _ _ _ _⟩
        | exact Or.inl ⟨_, rfl, inv_do_call (by assumption)
            (inv_cons frame (by rfl) hinv (by rfl) _ _ _ _)⟩
        | exact Or.inr (Or.inl ⟨_, _, rfl⟩)
        | exact Or.inr (Or.inr rfl))
  rw [if_neg hA59] at hs
  by_cases hA60 : op = 0x88
  · rw [if_pos hA60] at hs
    repeat' split at hs
    all_goals subst hs
    all_goals (first
        | exact Or.inl ⟨_, rfl, inv_pop frame (by rfl) hinv _ _ _⟩
        | exact Or.inl ⟨_, rfl, inv_cons frame (by rfl) hinv (by rfl) _ _ _ _⟩
        | exact Or.inl ⟨_, rfl, inv_do_call (by assumption)
            (inv_cons frame (by rfl) hinv (by rfl) _ _ _ _)⟩
        | exact Or.inr (Or.inl ⟨_, _, rfl⟩)
        | exact Or.inr (Or.inr rfl))
  rw [if_neg hA60] at hs
  by_cases hA61 : op = 0x92
  · rw [if_pos hA61] at hs
    repeat' split at hs
    all_goals subst hs
    all_goals (first
        | exact Or.inl ⟨_, rfl, inv_pop frame (by rfl) hinv _ _ _⟩
        | exact Or.inl ⟨_, rfl, inv_cons frame (by rfl) hinv (by rfl) _ _ _ _⟩
        | exact Or.inl ⟨_, rfl, inv_do_call (by assumption)
            (inv_cons frame (by rfl) hinv (by rfl) _ _ _ _)⟩
        | exact Or.inr (Or.inl ⟨_, _, rfl⟩)
        | exact Or.inr (Or.inr rfl))
  rw [if_neg hA61] at hs
  by_cases hA62 : op = 0xa1
  · rw [if_pos hA62] at hs
    repeat' split at hs
    all_goals subst hs
    all_goals (first
        | exact Or.inl ⟨_, rfl, inv_pop frame (by rfl) hinv _ _ _⟩
        | exact Or.inl ⟨_, rfl, inv_cons frame (by rfl) hinv (by rfl) _ _ _ _⟩
        | exact Or.inl ⟨_, rfl, inv_do_call (by assumption)
            (inv_cons frame (by rfl) hinv (by rfl) _ _ _ _)⟩
        | exact Or.inr (Or.inl ⟨_, _, rfl⟩)
        | exact Or.inr (Or.inr rfl))
  rw [if_neg hA62] at hs
  by_cases hA63 : op = 0xa2
  · rw [if_pos hA63] at hs
    repeat' split at hs
    all_goals subst hs
    all_goals (first
        | exact Or.inl ⟨_, rfl, inv_pop frame (by rfl) hinv _ _ _⟩
        | exact Or.inl ⟨_, rfl, inv_cons frame (by rfl) hinv (by rfl) _ _ _ _⟩
        | exact Or.inl ⟨_, rfl, inv_do_call (by assumption)
            (inv_cons frame (by rfl) hinv (by rfl) _ _ _ _)⟩
        | exact Or.inr (Or.inl ⟨_, _, rfl⟩)
        | exact Or.inr (Or.inr rfl))
  rw [if_neg hA63] at hs
  by_cases hA64 : op = 0xa7
  · rw [if_pos hA64] at hs
    repeat' split at hs
    all_goals subst hs
    all_goals (first
        | exact Or.inl ⟨_, rfl, inv_pop frame (by rfl) hinv _ _ _⟩
        | exact Or.inl ⟨_, rfl, inv_cons frame (by rfl) hinv (by rfl) _ _ _ _⟩
        | exact Or.inl ⟨_, rfl, inv_do_call (by assumption)
            (inv_cons frame (by rfl) hinv (by rfl) _ _ _ _)⟩
        | exact Or.inr (Or.inl ⟨_, _, rfl⟩)
        | exact Or.inr (Or.inr rfl))
  rw [if_neg hA64] at hs
  by_cases hA65 : op = 0xad
  · rw [if_pos hA65] at hs
    repeat' split at hs
    all_goals subst hs
    all_goals (first
        | exact Or.inl ⟨_, rfl, inv_pop frame (by rfl) hinv _ _ _⟩
        | exact Or.inl ⟨_, rfl, inv_cons frame (by rfl) hinv (by rfl) _ _ _ _⟩
        | exact Or.inl ⟨_, rfl, inv_do_call (by assumption)
            (inv_cons frame (by rfl) hinv (by rfl) _ _ _ _)⟩
        | exact Or.inr (Or.inl ⟨_, _, rfl⟩)
        | exact Or.inr (Or.inr rfl))
  rw [if_neg hA65] at hs
  by_cases hA66 : op = 0xbe
  · rw [if_pos hA66] at hs
    repeat' split at hs
    all_goals subst hs
    all_goals (first
        | exact Or.inl ⟨_, rfl, inv_pop frame (by rfl) hinv _ _ _⟩
        | exact Or.inl ⟨_, rfl, inv_cons frame (by rfl) hinv (by rfl) _ _ _ _⟩
        | exact Or.inl ⟨_, rfl, inv_do_call (by assumption)
            (inv_cons frame (by rfl) hinv (by rfl) _ _ _ _)⟩
        | exact Or.inr (Or.inl ⟨_, _, rfl⟩)
        | exact Or.inr (Or.inr rfl))
  rw [if_neg hA66] at hs
  by_cases hA67 : op = 0xc0
  · rw [if_pos hA67] at hs
    repeat' split at hs
    all_goals subst hs
    all_goals (first
        | exact Or.inl ⟨_, rfl, inv_pop frame (by rfl) hinv _ _ _⟩
        | exact Or.inl ⟨_, rfl, inv_cons frame (by rfl) hinv (by rfl) _ _ _ _⟩
        | exact Or.inl ⟨_, rfl, inv_do_call (by assumption)
            (inv_cons frame (by rfl) hinv (by rfl) _ _ _ _)⟩
        | exact Or.inr (Or.inl ⟨_, _, rfl⟩)
        | exact Or.inr (Or.inr rfl))
  rw [if_neg hA67] at hs
  subst hs
  exact Or.inr (Or.inr rfl)

theorem evaluateLoop_ok_locals (mod : WasmModule) (imports : List ImportedFunc)
    (fops : FloatOps) : ∀ (fuel : Nat) (s s' : EvalState), LocalsInv s →
    evaluateLoop fuel mod imports fops s = .okE s' → s'.ctx.locals = [] := by
  intro fuel
  induction fuel with
  | zero =>
    intro s s' _ h
    cases h
  | succ fuel ih =>
    intro s s' hinv h
    obtain ⟨⟨stk, cs, lcl⟩, mem, glob⟩ := s
    cases cs with
    | nil =>
      have hstep : step mod imports fops ⟨⟨stk, [], lcl⟩, mem, glob⟩ =
          .doneS ⟨⟨stk, [], lcl⟩, mem, glob⟩ := rfl
      rw [evaluateLoop, hstep] at h
      injection h with h'
      subst h'
      exact hinv.1 rfl
    | cons frame rest =>
      rcases step_cons_cases mod imports fops stk lcl mem glob frame rest hinv with
        ⟨s'', hstep, hinv'⟩ | ⟨e, s₀, hstep⟩ | hstep
      · rw [evaluateLoop, hstep] at h
        exact ih s'' s' hinv' h
      · rw [evaluateLoop, hstep] at h
        cases h
      · rw [evaluateLoop, hstep] at h
        cases h

/-- C6 (amended).  Whatever the pre-invocation contents of the locals
arena, a normally terminating `evaluate` leaves the arena truncated to
the root frame's locals offset, which `evaluate` fixes at 0: the arena
is empty afterwards.  The claimed leak-freedom relative to the
pre-invocation length therefore holds exactly when that length was 0
(as it is after any previous normally terminated invocation). -/
theorem evaluate_ok_drains_locals (fuel : Nat) (mod : WasmModule) (func_idx : Nat)
    (args : List Nat) (ctx : VmContext) (globals memory : List Nat)
    (imports : List ImportedFunc) (fops : FloatOps) (s' : EvalState)
    (h : evaluate fuel mod func_idx args ctx globals memory imports fops = .okE s') :
    s'.ctx.locals = [] := by
  simp only [evaluate] at h
  cases hf : mod.get_function_by_index func_idx with
  | none =>
    rw [hf] at h
    cases h
  | some func =>
    rw [hf] at h
    refine evaluateLoop_ok_locals mod imports fops fuel _ s' ?_ h
    constructor
    · intro hc
      cases hc
    · intro f hf
      simp only [List.getLast?_singleton, Option.some.injEq] at hf
      subst hf
      rfl

/-- Witness for C6 (amended): the concrete run of `trivialCode` with a
dirty arena terminates normally and the theorem yields the drained
arena. -/
theorem evaluate_ok_drains_locals_witness :
    evaluate 20 (oneFuncModule trivialCode (fun _ => none)) 0 [] ⟨[], [], [9, 9, 9, 9]⟩
      [] [] [] constFloatOps = .okE ⟨⟨[], [], []⟩, [], []⟩ ∧
    (⟨⟨[], [], []⟩, [], []⟩ : EvalState).ctx.locals = [] :=
  ⟨rfl, evaluate_ok_drains_locals 20 (oneFuncModule trivialCode (fun _ => none)) 0 []
    ⟨[], [], [9, 9, 9, 9]⟩ [] [] [] constFloatOps ⟨⟨[], [], []⟩, [], []⟩ rfl⟩

/-! ## C1: generic list helpers -/

theorem find?_congr {α : Type} (p q : α → Bool) :
    ∀ (l : List α), (∀ x ∈ l, p x = q x) → l.find? p = l.find? q := by
  intro l
  induction l with
  | nil => intro _; rfl
  | cons a t ih =>
    intro h
    have ha := h a (List.mem_cons_self a t)
    by_cases hp : p a = true
    · rw [List.find?_cons_of_pos _ hp, List.find?_cons_of_pos _ (ha ▸ hp)]
    · rw [List.find?_cons_of_neg _ (by simpa using hp),
        List.find?_cons_of_neg _ (by rw [← ha]; simpa using hp)]
      exact ih (fun x hx => h x (List.mem_cons_of_mem a hx))

theorem any_eq_find_isSome {α : Type} (p : α → Bool) :
    ∀ (l : List α), l.any p = (l.find? p).isSome := by
  intro l
  induction l with
  | nil => rfl
  | cons a t ih =>
    by_cases hp : p a = true
    · simp [List.find?_cons_of_pos _ hp, hp]
    · rw [List.find?_cons_of_neg _ (by simpa using hp)]
      simp only [List.any_cons, hp, Bool.false_or]
      exact ih

/-! ## C1: behaviour of the declarative matching data under appending
one event -/

theorem posAt_append_lt (E : List Event) (e : Event) (i : Nat) (h : i < E.length) :
    posAt (E ++ [e]) i = posAt E i := by
  simp [posAt, List.getElem?_append_left h]

theorem posAt_append_self (E : List Event) (e : Event) :
    posAt (E ++ [e]) E.length = e.pos := by
  simp [posAt, List.get?_concat_length]

theorem kindAt_append_lt (E : List Event) (e : Event) (i : Nat) (h : i < E.length) :
    kindAt (E ++ [e]) i = kindAt E i := by
  simp [kindAt, List.getElem?_append_left h]

theorem kindAt_append_self (E : List Event) (e : Event) :
    kindAt (E ++ [e]) E.length = e.kind := by
  simp [kindAt, List.get?_concat_length]

theorem deltaSum_append_le (E F : List Event) (a b : Nat) (h : b ≤ E.length) :
    deltaSum (E ++ F) a b = deltaSum E a b := by
  simp [deltaSum, List.take_append_of_le_length h]

theorem deltaSum_of_le (E : List Event) (a b : Nat) (h : a ≥ b) :
    deltaSum E a b = 0 := by
  have : ((E.take b).drop a) = [] :=
    List.drop_eq_nil_of_le (le_trans (List.length_take_le b E) h)
  simp [deltaSum, this]

theorem deltaSum_concat (E : List Event) (e : Event) (a : Nat) (h : a ≤ E.length) :
    deltaSum (E ++ [e]) a (E.length + 1) = deltaSum E a E.length + e.kind.delta := by
  have h1 : (E ++ [e]).take (E.length + 1) = E ++ [e] := by
    apply List.take_of_length_le
    simp
  have h2 : E.take E.length = E := List.take_length E
  simp [deltaSum, h1, h2, List.drop_append_of_le_length h]

theorem isMatchIdxB_append_lt (E : List Event) (e : Event) (i j : Nat)
    (h : j < E.length) :
    isMatchIdxB (E ++ [e]) i j = isMatchIdxB E i j := by
  simp only [isMatchIdxB, kindAt_append_lt E e j h,
    deltaSum_append_le E [e] (i + 1) j (le_of_lt h), List.length_append,
    List.length_cons, List.length_nil]
  simp [h, Nat.lt_succ_of_lt h]

theorem isMatchIdxB_append_self (E : List Event) (e : Event) (i : Nat)
    (h : i < E.length) :
    isMatchIdxB (E ++ [e]) i E.length =
      (e.kind.isTerm && decide (deltaSum E (i + 1) E.length = 0)) := by
  simp only [isMatchIdxB, kindAt_append_self,
    deltaSum_append_le E [e] (i + 1) E.length (le_refl _)]
  simp [h]

theorem matchedB_append_self (E : List Event) (e : Event) :
    matchedB (E ++ [e]) E.length = false := by
  rw [Bool.eq_false_iff]
  intro hc
  simp only [matchedB, List.any_eq_true, List.mem_range, List.length_append,
    List.length_cons, List.length_nil] at hc
  obtain ⟨j, hj, hb⟩ := hc
  simp only [isMatchIdxB, Bool.and_eq_true, decide_eq_true_eq] at hb
  have := hb.1.1.1
  omega
theorem matchedB_eq_isSome (E : List Event) (i : Nat) :
    matchedB E i = (matchIdx E i).isSome := by
  simp [matchedB, matchIdx, any_eq_find_isSome]

theorem matchIdx_append_of_some (E : List Event) (e : Event) (i j : Nat)
    (hj : matchIdx E i = some j) :
    matchIdx (E ++ [e]) i = some j := by
  have hcongr : (List.range E.length).find? (isMatchIdxB (E ++ [e]) i) =
      (List.range E.length).find? (isMatchIdxB E i) := by
    apply find?_congr
    intro x hx
    exact isMatchIdxB_append_lt E e i x (List.mem_range.mp hx)
  simp only [matchIdx, List.length_append, List.length_cons, List.length_nil,
    List.range_succ, List.find?_append, hcongr]
  simp only [matchIdx] at hj
  simp [hj]

theorem matchIdx_append_of_none (E : List Event) (e : Event) (i : Nat)
    (hj : matchIdx E i = none) :
    matchIdx (E ++ [e]) i =
      (if isMatchIdxB (E ++ [e]) i E.length then some E.length else none) := by
  have hcongr : (List.range E.length).find? (isMatchIdxB (E ++ [e]) i) =
      (List.range E.length).find? (isMatchIdxB E i) := by
    apply find?_congr
    intro x hx
    exact isMatchIdxB_append_lt E e i x (List.mem_range.mp hx)
  simp only [matchIdx, List.length_append, List.length_cons, List.length_nil,
    List.range_succ, List.find?_append, hcongr]
  simp only [matchIdx] at hj
  simp only [hj, Option.none_orElse]
  by_cases hb : isMatchIdxB (E ++ [e]) i E.length = true
  · simp [List.find?, hb]
  · simp only [Bool.not_eq_true] at hb
    simp [List.find?, hb]

theorem matchedB_append_lt (E : List Event) (e : Event) (i : Nat) (h : i < E.length) :
    matchedB (E ++ [e]) i =
      (matchedB E i || isMatchIdxB (E ++ [e]) i E.length) := by
  rw [matchedB_eq_isSome, matchedB_eq_isSome]
  cases hm : matchIdx E i with
  | some j => simp [matchIdx_append_of_some E e i j hm]
  | none =>
    rw [matchIdx_append_of_none E e i hm]
    by_cases hb : isMatchIdxB (E ++ [e]) i E.length = true
    · simp [hb]
    · simp only [Bool.not_eq_true] at hb
      simp [hb]

theorem isOpeningAt_append_lt (E : List Event) (e : Event) (i : Nat)
    (h : i < E.length) :
    isOpeningAt (E ++ [e]) i = isOpeningAt E i := by
  simp only [isOpeningAt, kindAt_append_lt E e i h, List.length_append,
    List.length_cons, List.length_nil]
  simp [h, Nat.lt_succ_of_lt h]

theorem isOpeningAt_append_self (E : List Event) (e : Event) :
    isOpeningAt (E ++ [e]) E.length = e.kind.isOpening := by
  simp [isOpeningAt, kindAt_append_self]

theorem metaOf_append_lt (E : List Event) (e : Event) (i : Nat) (h : i < E.length) :
    metaOf (E ++ [e]) i = metaOf E i := by
  simp [metaOf, kindAt_append_lt E e i h, posAt_append_lt E e i h]

theorem mem_openIndices_iff (E : List Event) (i : Nat) :
    i ∈ openIndices E ↔ (isOpeningAt E i = true ∧ matchedB E i = false) := by
  simp only [openIndices, List.mem_reverse, List.mem_filter, List.mem_range,
    Bool.and_eq_true, Bool.not_eq_true']
  constructor
  · rintro ⟨_, h2, h3⟩
    exact ⟨h2, h3⟩
  · rintro ⟨h2, h3⟩
    refine ⟨?_, h2, h3⟩
    simp only [isOpeningAt, Bool.and_eq_true, decide_eq_true_eq] at h2
    exact h2.1

theorem mem_openIndices_lt (E : List Event) (i : Nat) (h : i ∈ openIndices E) :
    i < E.length := by
  have := (mem_openIndices_iff E i).mp h
  simp only [isOpeningAt, Bool.and_eq_true, decide_eq_true_eq] at this
  exact this.1.1

theorem openIndices_nodup (E : List Event) : (openIndices E).Nodup := by
  simp only [openIndices, List.nodup_reverse]
  exact (List.nodup_range E.length).filter _

theorem metaOf_offset_of_opening (E : List Event) (i : Nat)
    (h : isOpeningAt E i = true) : (metaOf E i).offset = posAt E i := by
  simp only [isOpeningAt, Bool.and_eq_true] at h
  cases hk : kindAt E i <;> simp [metaOf, hk] <;>
    simp [hk, EvKind.isOpening] at h

theorem posAt_lt_posAt (E : List Event) (hpi : PosIncr E) (i j : Nat)
    (hij : i < j) (hj : j < E.length) : posAt E i < posAt E j := by
  have hi : i < E.length := lt_trans hij hj
  have := (List.pairwise_iff_get.mp hpi) ⟨i, by simpa using hi⟩ ⟨j, by simpa using hj⟩
    (by simpa using hij)
  simpa [posAt, List.getElem?_eq_getElem hi, List.getElem?_eq_getElem hj] using this

theorem posAt_ne_posAt (E : List Event) (hpi : PosIncr E) (i j : Nat)
    (hne : i ≠ j) (hi : i < E.length) (hj : j < E.length) :
    posAt E i ≠ posAt E j := by
  rcases lt_or_gt_of_ne hne with hlt | hgt
  · exact ne_of_lt (posAt_lt_posAt E hpi i j hlt hj)
  · exact (ne_of_lt (posAt_lt_posAt E hpi j i hgt hi)).symm

theorem posIncr_append (E : List Event) (e : Event) (hpi : PosIncr E)
    (hb : ∀ x ∈ E, x.pos < e.pos) : PosIncr (E ++ [e]) := by
  simp only [PosIncr, List.map_append, List.map_cons, List.map_nil]
  rw [List.pairwise_append]
  refine ⟨hpi, List.pairwise_singleton _ _, ?_⟩
  intro a ha b hb'
  simp only [List.mem_map] at ha
  obtain ⟨x, hx, hxa⟩ := ha
  simp only [List.mem_singleton] at hb'
  subst hb'
  subst hxa
  exact hb x hx
theorem openIndices_append (E : List Event) (e : Event) :
    openIndices (E ++ [e]) =
      (if e.kind.isOpening then [E.length] else []) ++
        (openIndices E).filter (fun i => ! isMatchIdxB (E ++ [e]) i E.length) := by
  have hcongr : ∀ i ∈ List.range E.length,
      (isOpeningAt (E ++ [e]) i && ! matchedB (E ++ [e]) i) =
        ((isOpeningAt E i && ! matchedB E i) &&
          ! isMatchIdxB (E ++ [e]) i E.length) := by
    intro i hi
    have hilt := List.mem_range.mp hi
    rw [isOpeningAt_append_lt E e i hilt, matchedB_append_lt E e i hilt]
    cases isOpeningAt E i <;> cases matchedB E i <;>
      cases isMatchIdxB (E ++ [e]) i E.length <;> rfl
  have hn : (isOpeningAt (E ++ [e]) E.length && ! matchedB (E ++ [e]) E.length) =
      e.kind.isOpening := by
    rw [isOpeningAt_append_self, matchedB_append_self]
    cases e.kind.isOpening <;> rfl
  simp only [openIndices, List.length_append, List.length_cons, List.length_nil,
    List.range_succ, List.filter_append]
  rw [List.filter_congr hcongr]
  have hsplit : List.filter (fun i => (isOpeningAt E i && ! matchedB E i) &&
      ! isMatchIdxB (E ++ [e]) i E.length) (List.range E.length) =
      List.filter (fun i => ! isMatchIdxB (E ++ [e]) i E.length)
        (List.filter (fun i => isOpeningAt E i && ! matchedB E i)
          (List.range E.length)) := by
    rw [List.filter_filter]
    exact List.filter_congr (fun a _ => by
      cases isOpeningAt E a <;> cases matchedB E a <;>
        cases isMatchIdxB (E ++ [e]) a E.length <;> rfl)
  rw [hsplit]
  have hfe : List.filter (fun i => isOpeningAt E i && ! matchedB E i)
      (List.range E.length) = (openIndices E).reverse := by
    simp [openIndices]
  rw [hfe]
  simp only [List.filter_cons, List.filter_nil, hn]
  rw [List.reverse_append, ← List.filter_reverse, List.reverse_reverse]
  cases e.kind.isOpening <;> simp
theorem invStep (off p : Nat) (k : EvKind) (E : List Event) (st st' : ParserStateM)
    (hinv : Inv off E st) (hpi : PosIncr E) (hbound : ∀ x ∈ E, x.pos < p)
    (happ : applyEvent off st ⟨p, k⟩ = some st') :
    Inv off (E ++ [⟨p, k⟩]) st' := by
  obtain ⟨hblocks, hdepth, htargets⟩ := hinv
  cases k with
  | openEv ok =>
    simp only [applyEvent, Option.some.injEq] at happ
    have hfilter : (openIndices E).filter
        (fun i => ! isMatchIdxB (E ++ [⟨p, .openEv ok⟩]) i E.length) = openIndices E := by
      apply List.filter_eq_self.mpr
      intro i hi
      have hlt := mem_openIndices_lt E i hi
      rw [isMatchIdxB_append_self E _ i hlt]
      rfl
    have hoi : openIndices (E ++ [⟨p, .openEv ok⟩]) = E.length :: openIndices E := by
      rw [openIndices_append, hfilter]
      rfl
    refine ⟨?_, ?_, ?_⟩
    · rw [hoi, ← happ]
      simp only [List.map_cons]
      have hhead : metaOf (E ++ [⟨p, .openEv ok⟩]) E.length = ⟨ok.toW, p⟩ := by
        simp [metaOf, kindAt_append_self, posAt_append_self]
      rw [hhead]
      have htail : (openIndices E).map (metaOf (E ++ [⟨p, .openEv ok⟩])) =
          (openIndices E).map (metaOf E) := by
        apply List.map_congr_left
        intro i hi
        exact metaOf_append_lt E _ i (mem_openIndices_lt E i hi)
      rw [htail, ← hblocks]
    · rw [hoi]
      intro s hs
      match s with
      | 0 =>
        simp only [List.get]
        rw [deltaSum_of_le _ _ _ (by simp)]
        rfl
      | s + 1 =>
        simp only [List.get, List.length_cons] at hs ⊢
        have hs' : s < (openIndices E).length := by omega
        have hi := List.get_mem (openIndices E) s hs'
        have hlt := mem_openIndices_lt E _ hi
        simp only [List.length_append, List.length_cons, List.length_nil]
        rw [deltaSum_concat E _ _ (by omega)]
        rw [hdepth s hs']
        simp only [EvKind.delta]
        push_cast
        ring
    · intro i hio hm
      have hilt : i < E.length + 1 := by
        simp only [isOpeningAt, Bool.and_eq_true, decide_eq_true_eq,
          List.length_append, List.length_cons, List.length_nil] at hio
        exact hio.1
      by_cases hin : i = E.length
      · subst hin
        rw [matchedB_append_self] at hm
        cases hm
      have hiltn : i < E.length := by omega
      rw [matchedB_append_lt E _ i hiltn, isMatchIdxB_append_self E _ i hiltn] at hm
      have hmE : matchedB E i = true := by
        simpa [EvKind.isTerm] using hm
      have hioE : isOpeningAt E i = true := by
        rwa [isOpeningAt_append_lt E _ i hiltn] at hio
      obtain ⟨j, hj, hval⟩ := htargets i hioE hmE
      have hjlt : j < E.length :=
        List.mem_range.mp (List.mem_of_find?_eq_some hj)
      refine ⟨j, matchIdx_append_of_some E _ i j hj, ?_⟩
      rw [posAt_append_lt E _ i hiltn, posAt_append_lt E _ j hjlt, ← happ]
      exact hval
  | elseEv =>
    cases hbl : st.blocks with
    | nil => simp [applyEvent, hbl] at happ
    | cons b bs =>
      simp only [applyEvent, hbl] at happ
      by_cases hbk : b.kind = .If
      · rw [if_pos hbk] at happ
        simp only [Option.some.injEq] at happ
        rw [hbl] at hblocks
        cases hoi0 : openIndices E with
        | nil => rw [hoi0] at hblocks; simp at hblocks
        | cons i₀ tl =>
          rw [hoi0] at hblocks hdepth
          simp only [List.map_cons, List.cons.injEq] at hblocks
          obtain ⟨hb, hbs⟩ := hblocks
          have hi₀mem : i₀ ∈ openIndices E := by rw [hoi0]; exact List.mem_cons_self _ _
          obtain ⟨hi₀o, hi₀m⟩ := (mem_openIndices_iff E i₀).mp hi₀mem
          have hi₀lt : i₀ < E.length := mem_openIndices_lt E i₀ hi₀mem
          have hd0 : deltaSum E (i₀ + 1) E.length = 0 := by
            have := hdepth 0 (by simp)
            simpa using this
          have htl : ∀ s (hs : s < tl.length),
              deltaSum E (tl.get ⟨s, hs⟩ + 1) E.length = (s : Int) + 1 := by
            intro s hs
            have := hdepth (s + 1) (by simp; omega)
            simp only [List.get] at this
            rw [this]
            push_cast
            ring
          have htlmem : ∀ i ∈ tl, i ∈ openIndices E := by
            intro i hi
            rw [hoi0]
            exact List.mem_cons_of_mem _ hi
          have hmatchn : isMatchIdxB (E ++ [⟨p, .elseEv⟩]) i₀ E.length = true := by
            rw [isMatchIdxB_append_self E _ i₀ hi₀lt]
            simp [EvKind.isTerm, hd0]
          have hnomatchtl : ∀ i ∈ tl,
              isMatchIdxB (E ++ [⟨p, .elseEv⟩]) i E.length = false := by
            intro i hi
            obtain ⟨⟨s, hs⟩, hget⟩ := List.mem_iff_get.mp hi
            have hlt := mem_openIndices_lt E i (htlmem i hi)
            rw [isMatchIdxB_append_self E _ i hlt]
            have := htl s hs
            rw [hget] at this
            simp only [this, Bool.and_eq_false_iff, decide_eq_false_iff_not]
            right
            intro hc
            omega
          have hoi' : openIndices (E ++ [⟨p, .elseEv⟩]) = E.length :: tl := by
            rw [openIndices_append, hoi0]
            simp only [List.filter_cons, hmatchn, Bool.not_true, List.filter_nil]
            rw [List.filter_eq_self.mpr (fun i hi => by simp [hnomatchtl i hi])]
            rfl
          refine ⟨?_, ?_, ?_⟩
          · rw [hoi', ← happ]
            simp only [List.map_cons]
            have hhead : metaOf (E ++ [⟨p, .elseEv⟩]) E.length = ⟨.Else, p⟩ := by
              simp [metaOf, kindAt_append_self, posAt_append_self]
            rw [hhead]
            have htail : tl.map (metaOf (E ++ [⟨p, .elseEv⟩])) = tl.map (metaOf E) := by
              apply List.map_congr_left
              intro i hi
              exact metaOf_append_lt E _ i (mem_openIndices_lt E i (htlmem i hi))
            rw [htail, ← hbs]
          · rw [hoi']
            intro s hs
            match s with
            | 0 =>
              simp only [List.get]
              rw [deltaSum_of_le _ _ _ (by simp)]
              rfl
            | s + 1 =>
              simp only [List.get, List.length_cons] at hs ⊢
              have hs' : s < tl.length := by omega
              have hi := List.get_mem tl s hs'
              have hlt := mem_openIndices_lt E _ (htlmem _ hi)
              simp only [List.length_append, List.length_cons, List.length_nil]
              rw [deltaSum_concat E _ _ (by omega)]
              rw [htl s hs']
              simp only [EvKind.delta]
              push_cast
              ring
          · intro i hio hm
            have hilt : i < E.length + 1 := by
              simp only [isOpeningAt, Bool.and_eq_true, decide_eq_true_eq,
                List.length_append, List.length_cons, List.length_nil] at hio
              exact hio.1
            by_cases hin : i = E.length
            · subst hin
              rw [matchedB_append_self] at hm
              cases hm
            have hiltn : i < E.length := by omega
            have hioE : isOpeningAt E i = true := by
              rwa [isOpeningAt_append_lt E _ i hiltn] at hio
            rw [matchedB_append_lt E _ i hiltn] at hm
            have hoff : b.offset = posAt E i₀ := by
              rw [hb]
              exact metaOf_offset_of_opening E i₀ hi₀o
            by_cases hmE : matchedB E i = true
            · obtain ⟨j, hj, hval⟩ := htargets i hioE hmE
              have hjlt : j < E.length :=
                List.mem_range.mp (List.mem_of_find?_eq_some hj)
              refine ⟨j, matchIdx_append_of_some E _ i j hj, ?_⟩
              rw [posAt_append_lt E _ i hiltn, posAt_append_lt E _ j hjlt, ← happ]
              have hne : i ≠ i₀ := by
                intro hc
                rw [hc] at hmE
                rw [hmE] at hi₀m
                cases hi₀m
              simp only [jtInsert, hoff]
              rw [if_neg (posAt_ne_posAt E hpi i i₀ hne hiltn hi₀lt)]
              exact hval
            · simp only [Bool.not_eq_true] at hmE
              rw [hmE, Bool.false_or] at hm
              have hmem : i ∈ openIndices E := (mem_openIndices_iff E i).mpr ⟨hioE, hmE⟩
              rw [hoi0] at hmem
              have hii₀ : i = i₀ := by
                rcases List.mem_cons.mp hmem with h | h
                · exact h
                · exact absurd hm (by simp [hnomatchtl i h])
              subst hii₀
              have hnone : matchIdx E i = none := by
                have := matchedB_eq_isSome E i
                rw [hmE] at this
                exact Option.not_isSome_iff_eq_none.mp (by simp [← this])
              refine ⟨E.length, ?_, ?_⟩
              · rw [matchIdx_append_of_none E _ i hnone, if_pos hm]
              · rw [posAt_append_lt E _ i hiltn, posAt_append_self, ← happ]
                simp [jtInsert, hoff]
      · rw [if_neg hbk] at happ
        cases happ
  | endEv =>
    cases hbl : st.blocks with
    | nil => simp [applyEvent, hbl] at happ
    | cons b bs =>
      simp only [applyEvent, hbl, Option.some.injEq] at happ
      rw [hbl] at hblocks
      cases hoi0 : openIndices E with
      | nil => rw [hoi0] at hblocks; simp at hblocks
      | cons i₀ tl =>
        rw [hoi0] at hblocks hdepth
        simp only [List.map_cons, List.cons.injEq] at hblocks
        obtain ⟨hb, hbs⟩ := hblocks
        have hi₀mem : i₀ ∈ openIndices E := by rw [hoi0]; exact List.mem_cons_self _ _
        obtain ⟨hi₀o, hi₀m⟩ := (mem_openIndices_iff E i₀).mp hi₀mem
        have hi₀lt : i₀ < E.length := mem_openIndices_lt E i₀ hi₀mem
        have hd0 : deltaSum E (i₀ + 1) E.length = 0 := by
          have := hdepth 0 (by simp)
          simpa using this
        have htl : ∀ s (hs : s < tl.length),
            deltaSum E (tl.get ⟨s, hs⟩ + 1) E.length = (s : Int) + 1 := by
          intro s hs
          have := hdepth (s + 1) (by simp; omega)
          simp only [List.get] at this
          rw [this]
          push_cast
          ring
        have htlmem : ∀ i ∈ tl, i ∈ openIndices E := by
          intro i hi
          rw [hoi0]
          exact List.mem_cons_of_mem _ hi
        have hmatchn : isMatchIdxB (E ++ [⟨p, .endEv⟩]) i₀ E.length = true := by
          rw [isMatchIdxB_append_self E _ i₀ hi₀lt]
          simp [EvKind.isTerm, hd0]
        have hnomatchtl : ∀ i ∈ tl,
            isMatchIdxB (E ++ [⟨p, .endEv⟩]) i E.length = false := by
          intro i hi
          obtain ⟨⟨s, hs⟩, hget⟩ := List.mem_iff_get.mp hi
          have hlt := mem_openIndices_lt E i (htlmem i hi)
          rw [isMatchIdxB_append_self E _ i hlt]
          have := htl s hs
          rw [hget] at this
          simp only [this, Bool.and_eq_false_iff, decide_eq_false_iff_not]
          right
          intro hc
          omega
        have hoi' : openIndices (E ++ [⟨p, .endEv⟩]) = tl := by
          rw [openIndices_append, hoi0]
          simp only [List.filter_cons, hmatchn, Bool.not_true, List.filter_nil]
          rw [List.filter_eq_self.mpr (fun i hi => by simp [hnomatchtl i hi])]
          rfl
        refine ⟨?_, ?_, ?_⟩
        · rw [hoi', ← happ]
          have htail : tl.map (metaOf (E ++ [⟨p, .endEv⟩])) = tl.map (metaOf E) := by
            apply List.map_congr_left
            intro i hi
            exact metaOf_append_lt E _ i (mem_openIndices_lt E i (htlmem i hi))
          rw [htail, ← hbs]
        · rw [hoi']
          intro s hs
          have hi := List.get_mem tl s hs
          have hlt := mem_openIndices_lt E _ (htlmem _ hi)
          simp only [List.length_append, List.length_cons, List.length_nil]
          rw [deltaSum_concat E _ _ (by omega)]
          rw [htl s hs]
          simp [EvKind.delta]
        · intro i hio hm
          have hilt : i < E.length + 1 := by
            simp only [isOpeningAt, Bool.and_eq_true, decide_eq_true_eq,
              List.length_append, List.length_cons, List.length_nil] at hio
            exact hio.1
          by_cases hin : i = E.length
          · subst hin
            rw [isOpeningAt_append_self] at hio
            cases hio
          have hiltn : i < E.length := by omega
          have hioE : isOpeningAt E i = true := by
            rwa [isOpeningAt_append_lt E _ i hiltn] at hio
          rw [matchedB_append_lt E _ i hiltn] at hm
          have hoff : b.offset = posAt E i₀ := by
            rw [hb]
            exact metaOf_offset_of_opening E i₀ hi₀o
          by_cases hmE : matchedB E i = true
          · obtain ⟨j, hj, hval⟩ := htargets i hioE hmE
            have hjlt : j < E.length :=
              List.mem_range.mp (List.mem_of_find?_eq_some hj)
            refine ⟨j, matchIdx_append_of_some E _ i j hj, ?_⟩
            rw [posAt_append_lt E _ i hiltn, posAt_append_lt E _ j hjlt, ← happ]
            have hne : i ≠ i₀ := by
              intro hc
              rw [hc] at hmE
              rw [hmE] at hi₀m
              cases hi₀m
            simp only [jtInsert, hoff]
            rw [if_neg (posAt_ne_posAt E hpi i i₀ hne hiltn hi₀lt)]
            exact hval
          · simp only [Bool.not_eq_true] at hmE
            rw [hmE, Bool.false_or] at hm
            have hmem : i ∈ openIndices E := (mem_openIndices_iff E i).mpr ⟨hioE, hmE⟩
            rw [hoi0] at hmem
            have hii₀ : i = i₀ := by
              rcases List.mem_cons.mp hmem with h | h
              · exact h
              · exact absurd hm (by simp [hnomatchtl i h])
            subst hii₀
            have hnone : matchIdx E i = none := by
              have := matchedB_eq_isSome E i
              rw [hmE] at this
              exact Option.not_isSome_iff_eq_none.mp (by simp [← this])
            refine ⟨E.length, ?_, ?_⟩
            · rw [matchIdx_append_of_none E _ i hnone, if_pos hm]
            · rw [posAt_append_lt E _ i hiltn, posAt_append_self, ← happ]
              simp [jtInsert, hoff]
/-! ## C1: the walker preserves the reader data and advances the cursor -/

theorem read_u8_ok (r : Reader) (b : Nat) (r' : Reader)
    (h : r.read_u8 = .ok (b, r')) : r'.data = r.data ∧ r'.pos = r.pos + 1 := by
  simp only [Reader.read_u8] at h
  cases hg : r.data.get? r.pos <;> rw [hg] at h <;> cases h
  exact ⟨rfl, rfl⟩

theorem read_bytes_ok (r : Reader) (n : Nat) (bs : List Nat) (r' : Reader)
    (h : r.read_bytes n = .ok (bs, r')) : r'.data = r.data ∧ r'.pos = r.pos + n := by
  simp only [Reader.read_bytes] at h
  split at h <;> cases h
  exact ⟨rfl, rfl⟩

theorem read_number_raw_ok (r : Reader) (t : Nat × Nat × Nat) (r' : Reader)
    (h : r.read_number_raw = .ok (t, r')) : r'.data = r.data ∧ r.pos ≤ r'.pos := by
  simp only [Reader.read_number_raw] at h
  split at h <;> cases h
  exact ⟨rfl, Nat.le_add_right _ _⟩

theorem read_usize_ok (r : Reader) (v : Nat) (r' : Reader)
    (h : r.read_usize = .ok (v, r')) : r'.data = r.data ∧ r.pos ≤ r'.pos := by
  simp only [Reader.read_usize, Reader.read_unsigned] at h
  cases hr : r.read_number_raw with
  | error e => rw [hr] at h; cases h
  | ok value =>
    rw [hr] at h
    obtain ⟨⟨res, b, sh⟩, r₂⟩ := value
    cases h
    exact read_number_raw_ok r _ _ hr

theorem read_signed_ok (r : Reader) (v : Int) (r' : Reader)
    (h : r.read_signed = .ok (v, r')) : r'.data = r.data ∧ r.pos ≤ r'.pos := by
  simp only [Reader.read_signed] at h
  cases hr : r.read_number_raw with
  | error e => rw [hr] at h; cases h
  | ok value =>
    obtain ⟨⟨res, b, sh⟩, r₂⟩ := value
    rw [hr] at h
    have h1 := read_number_raw_ok r _ _ hr
    dsimp only at h
    split at h <;> cases h <;> exact h1

theorem read_f32_ok (r : Reader) (v : Nat) (r' : Reader)
    (h : r.read_f32 = .ok (v, r')) : r'.data = r.data ∧ r.pos ≤ r'.pos := by
  simp only [Reader.read_f32] at h
  cases hr : r.read_bytes 4 with
  | error e => rw [hr] at h; cases h
  | ok value =>
    obtain ⟨bs, r₂⟩ := value
    rw [hr] at h
    have h1 := read_bytes_ok r 4 bs r₂ hr
    dsimp only at h
    cases h
    exact ⟨h1.1, by omega⟩

theorem read_f64_ok (r : Reader) (v : Nat) (r' : Reader)
    (h : r.read_f64 = .ok (v, r')) : r'.data = r.data ∧ r.pos ≤ r'.pos := by
  simp only [Reader.read_f64] at h
  cases hr : r.read_bytes 8 with
  | error e => rw [hr] at h; cases h
  | ok value =>
    obtain ⟨bs, r₂⟩ := value
    rw [hr] at h
    have h1 := read_bytes_ok r 8 bs r₂ hr
    dsimp only at h
    cases h
    exact ⟨h1.1, by omega⟩

theorem readLebVec_ok : ∀ (n : Nat) (r r' : Reader),
    readLebVec n r = .ok r' → r'.data = r.data ∧ r.pos ≤ r'.pos := by
  intro n
  induction n with
  | zero =>
    intro r r' h
    cases h
    exact ⟨rfl, le_refl _⟩
  | succ n ih =>
    intro r r' h
    simp only [readLebVec] at h
    cases hr : r.read_usize with
    | error e => rw [hr] at h; cases h
    | ok value =>
      obtain ⟨v, r₁⟩ := value
      rw [hr] at h
      dsimp only at h
      have h1 := read_usize_ok r v r₁ hr
      have h2 := ih r₁ r' h
      exact ⟨h2.1.trans h1.1, h1.2.trans h2.2⟩

theorem readImm_ok (k : ImmKind) (r r' : Reader)
    (h : readImm k r = .ok r') : r'.data = r.data ∧ r.pos ≤ r'.pos := by
  cases k with
  | u8K =>
    simp only [readImm] at h
    cases hr : r.read_u8 with
    | error e => rw [hr] at h; cases h
    | ok value =>
      obtain ⟨b, r₁⟩ := value
      rw [hr] at h
      dsimp only at h
      have h1 := read_u8_ok r b r₁ hr
      cases h
      exact ⟨h1.1, by omega⟩
  | lebK =>
    simp only [readImm] at h
    cases hr : r.read_usize with
    | error e => rw [hr] at h; cases h
    | ok value =>
      obtain ⟨v, r₁⟩ := value
      rw [hr] at h
      dsimp only at h
      have h1 := read_usize_ok r v r₁ hr
      cases h
      exact h1
  | slebK =>
    simp only [readImm] at h
    cases hr : r.read_signed with
    | error e => rw [hr] at h; cases h
    | ok value =>
      obtain ⟨v, r₁⟩ := value
      rw [hr] at h
      dsimp only at h
      have h1 := read_signed_ok r v r₁ hr
      cases h
      exact h1
  | f32K =>
    simp only [readImm] at h
    cases hr : r.read_f32 with
    | error e => rw [hr] at h; cases h
    | ok value =>
      obtain ⟨v, r₁⟩ := value
      rw [hr] at h
      dsimp only at h
      have h1 := read_f32_ok r v r₁ hr
      cases h
      exact h1
  | f64K =>
    simp only [readImm] at h
    cases hr : r.read_f64 with
    | error e => rw [hr] at h; cases h
    | ok value =>
      obtain ⟨v, r₁⟩ := value
      rw [hr] at h
      dsimp only at h
      have h1 := read_f64_ok r v r₁ hr
      cases h
      exact h1
  | brTableK =>
    simp only [readImm] at h
    cases hr : r.read_usize with
    | error e => rw [hr] at h; cases h
    | ok value =>
      obtain ⟨n, r₁⟩ := value
      rw [hr] at h
      dsimp only at h
      have h1 := read_usize_ok r n r₁ hr
      cases hv : readLebVec n r₁ with
      | error e => rw [hv] at h; cases h
      | ok r₂ =>
        rw [hv] at h
        dsimp only at h
        have h2 := readLebVec_ok n r₁ r₂ hv
        cases hd : r₂.read_usize with
        | error e => rw [hd] at h; cases h
        | ok value =>
          obtain ⟨d, r₃⟩ := value
          rw [hd] at h
          dsimp only at h
          have h3 := read_usize_ok r₂ d r₃ hd
          cases h
          exact ⟨h3.1.trans (h2.1.trans h1.1), le_trans h1.2 (le_trans h2.2 h3.2)⟩

theorem readImms_ok : ∀ (ks : List ImmKind) (r r' : Reader),
    readImms ks r = .ok r' → r'.data = r.data ∧ r.pos ≤ r'.pos := by
  intro ks
  induction ks with
  | nil =>
    intro r r' h
    cases h
    exact ⟨rfl, le_refl _⟩
  | cons k ks ih =>
    intro r r' h
    simp only [readImms] at h
    cases hr : readImm k r with
    | error e => rw [hr] at h; cases h
    | ok r₁ =>
      rw [hr] at h
      dsimp only at h
      have h1 := readImm_ok k r r₁ hr
      have h2 := ih r₁ r' h
      exact ⟨h2.1.trans h1.1, h1.2.trans h2.2⟩

theorem typeKind_read_ok (r : Reader) (ty : TypeKind) (r' : Reader)
    (h : TypeKind.read r = .ok (ty, r')) : r'.data = r.data ∧ r'.pos = r.pos + 1 := by
  simp only [TypeKind.read] at h
  cases hr : r.read_u8 with
  | error e => rw [hr] at h; cases h
  | ok value =>
    obtain ⟨b, r₁⟩ := value
    rw [hr] at h
    have h1 := read_u8_ok r b r₁ hr
    dsimp only at h
    repeat' split at h
    all_goals cases h
    all_goals exact h1
theorem applyEvent_end_none (off p : Nat) (st : ParserStateM)
    (h : applyEvent off st ⟨p, .endEv⟩ = none) : st.blocks = [] := by
  cases hbl : st.blocks with
  | nil => rfl
  | cons b bs => simp [applyEvent, hbl] at h

theorem parse_opcode_cont (r : Reader) (off : Nat) (st : ParserStateM)
    (r' : Reader) (st' : ParserStateM) (ev : Option Event)
    (h : parse_opcode r off st = .cont r' st' ev) :
    r'.data = r.data ∧ r.pos < r'.pos ∧
      ((ev = none ∧ st' = st) ∨
        (∃ e, ev = some e ∧ e.pos = r.pos ∧ applyEvent off st e = some st')) := by
  simp only [parse_opcode] at h
  cases hr : r.read_u8 with
  | error e => rw [hr] at h; cases h
  | ok value =>
    obtain ⟨op, r₁⟩ := value
    rw [hr] at h
    have h1 := read_u8_ok r op r₁ hr
    dsimp only at h
    by_cases h02 : op = 0x02
    · rw [if_pos h02] at h
      cases hb : r₁.read_u8 with
      | error e => rw [hb] at h; cases h
      | ok value =>
        obtain ⟨bt, r₂⟩ := value
        rw [hb] at h
        dsimp only at h
        have h2 := read_u8_ok r₁ bt r₂ hb
        cases ha : applyEvent off st ⟨r.pos, .openEv .blockE⟩ with
        | none => rw [ha] at h; cases h
        | some st₂ =>
          rw [ha] at h
          dsimp only at h
          cases h
          exact ⟨by rw [h2.1, h1.1], by omega, Or.inr ⟨_, rfl, rfl, ha⟩⟩
    rw [if_neg h02] at h
    by_cases h03 : op = 0x03
    · rw [if_pos h03] at h
      cases hb : r₁.read_u8 with
      | error e => rw [hb] at h; cases h
      | ok value =>
        obtain ⟨bt, r₂⟩ := value
        rw [hb] at h
        dsimp only at h
        have h2 := read_u8_ok r₁ bt r₂ hb
        cases ha : applyEvent off st ⟨r.pos, .openEv .loopE⟩ with
        | none => rw [ha] at h; cases h
        | some st₂ =>
          rw [ha] at h
          dsimp only at h
          cases h
          exact ⟨by rw [h2.1, h1.1], by omega, Or.inr ⟨_, rfl, rfl, ha⟩⟩
    rw [if_neg h03] at h
    by_cases h04 : op = 0x04
    · rw [if_pos h04] at h
      cases hb : TypeKind.read r₁ with
      | error e => rw [hb] at h; cases h
      | ok value =>
        obtain ⟨ty, r₂⟩ := value
        rw [hb] at h
        dsimp only at h
        have h2 := typeKind_read_ok r₁ ty r₂ hb
        cases ha : applyEvent off st ⟨r.pos, .openEv .ifE⟩ with
        | none => rw [ha] at h; cases h
        | some st₂ =>
          rw [ha] at h
          dsimp only at h
          cases h
          exact ⟨by rw [h2.1, h1.1], by omega, Or.inr ⟨_, rfl, rfl, ha⟩⟩
    rw [if_neg h04] at h
    by_cases h05 : op = 0x05
    · rw [if_pos h05] at h
      cases ha : applyEvent off st ⟨r.pos, .elseEv⟩ with
      | none => rw [ha] at h; cases h
      | some st₂ =>
        rw [ha] at h
        dsimp only at h
        cases h
        exact ⟨h1.1, by omega, Or.inr ⟨_, rfl, rfl, ha⟩⟩
    rw [if_neg h05] at h
    by_cases h0b : op = 0x0b
    · rw [if_pos h0b] at h
      cases ha : applyEvent off st ⟨r.pos, .endEv⟩ with
      | none => rw [ha] at h; cases h
      | some st₂ =>
        rw [ha] at h
        dsimp only at h
        cases h
        exact ⟨h1.1, by omega, Or.inr ⟨_, rfl, rfl, ha⟩⟩
    rw [if_neg h0b] at h
    cases hi : readImms (immsOf op) r₁ with
    | error e => rw [hi] at h; cases h
    | ok r₂ =>
      rw [hi] at h
      dsimp only at h
      cases h
      have h2 := readImms_ok (immsOf op) r₁ _ hi
      exact ⟨by rw [h2.1, h1.1], by omega, Or.inl ⟨rfl, rfl⟩⟩

theorem parse_opcode_brk (r : Reader) (off : Nat) (st : ParserStateM)
    (r' : Reader) (st' : ParserStateM)
    (h : parse_opcode r off st = .brk r' st') : st' = st ∧ st.blocks = [] := by
  simp only [parse_opcode] at h
  cases hr : r.read_u8 with
  | error e => rw [hr] at h; cases h
  | ok value =>
    obtain ⟨op, r₁⟩ := value
    rw [hr] at h
    dsimp only at h
    by_cases h02 : op = 0x02
    · rw [if_pos h02] at h
      cases hb : r₁.read_u8 with
      | error e => rw [hb] at h; cases h
      | ok value =>
        obtain ⟨bt, r₂⟩ := value
        rw [hb] at h
        dsimp only at h
        cases ha : applyEvent off st ⟨r.pos, .openEv .blockE⟩ with
        | none => rw [ha] at h; cases h
        | some st₂ => rw [ha] at h; dsimp only at h; cases h
    rw [if_neg h02] at h
    by_cases h03 : op = 0x03
    · rw [if_pos h03] at h
      cases hb : r₁.read_u8 with
      | error e => rw [hb] at h; cases h
      | ok value =>
        obtain ⟨bt, r₂⟩ := value
        rw [hb] at h
        dsimp only at h
        cases ha : applyEvent off st ⟨r.pos, .openEv .loopE⟩ with
        | none => rw [ha] at h; cases h
        | some st₂ => rw [ha] at h; dsimp only at h; cases h
    rw [if_neg h03] at h
    by_cases h04 : op = 0x04
    · rw [if_pos h04] at h
      cases hb : TypeKind.read r₁ with
      | error e => rw [hb] at h; cases h
      | ok value =>
        obtain ⟨ty, r₂⟩ := value
        rw [hb] at h
        dsimp only at h
        cases ha : applyEvent off st ⟨r.pos, .openEv .ifE⟩ with
        | none => rw [ha] at h; cases h
        | some st₂ => rw [ha] at h; dsimp only at h; cases h
    rw [if_neg h04] at h
    by_cases h05 : op = 0x05
    · rw [if_pos h05] at h
      cases ha : applyEvent off st ⟨r.pos, .elseEv⟩ with
      | none => rw [ha] at h; cases h
      | some st₂ => rw [ha] at h; dsimp only at h; cases h
    rw [if_neg h05] at h
    by_cases h0b : op = 0x0b
    · rw [if_pos h0b] at h
      cases ha : applyEvent off st ⟨r.pos, .endEv⟩ with
      | none =>
        rw [ha] at h
        dsimp only at h
        cases h
        exact ⟨rfl, applyEvent_end_none off r.pos st ha⟩
      | some st₂ => rw [ha] at h; dsimp only at h; cases h
    rw [if_neg h0b] at h
    cases hi : readImms (immsOf op) r₁ with
    | error e => rw [hi] at h; cases h
    | ok r₂ => rw [hi] at h; dsimp only at h; cases h

theorem Inv_nil (off : Nat) : Inv off [] ⟨[], fun _ => none⟩ := by
  refine ⟨?_, ?_, ?_⟩
  · simp [openIndices]
  · intro s hs
    simp [openIndices] at hs
  · intro i hio
    simp [isOpeningAt] at hio

theorem parseCodeLoop_inv (off : Nat) : ∀ (fuel : Nat) (r : Reader)
    (st : ParserStateM) (E : List Event) (r'' : Reader) (st'' : ParserStateM)
    (evs : List Event),
    Inv off E st → PosIncr E → (∀ x ∈ E, x.pos < r.pos) →
    parseCodeLoop fuel r off st = .done r'' st'' evs →
    Inv off (E ++ evs) st'' ∧ st''.blocks = [] := by
  intro fuel
  induction fuel with
  | zero =>
    intro r st E r'' st'' evs _ _ _ h
    cases h
  | succ fuel ih =>
    intro r st E r'' st'' evs hinv hpi hbound h
    rw [parseCodeLoop] at h
    cases hp : parse_opcode r off st with
    | cont r₁ st₁ ev =>
      rw [hp] at h
      dsimp only at h
      obtain ⟨hdata, hpos, hcase⟩ := parse_opcode_cont r off st r₁ st₁ ev hp
      cases hrec : parseCodeLoop fuel r₁ off st₁ with
      | done r₂ st₂ evs₂ =>
        rw [hrec] at h
        dsimp only at h
        cases h
        rcases hcase with ⟨hev, hst⟩ | ⟨e, hev, hepos, happ⟩
        · subst hev
          subst hst
          have := ih r₁ st₁ E _ _ _ hinv hpi
            (fun x hx => lt_trans (hbound x hx) hpos) hrec
          simpa using this
        · subst hev
          obtain ⟨ep, ek⟩ := e
          dsimp only at hepos
          subst hepos
          have hinv' := invStep off r.pos ek E st st₁ hinv hpi hbound happ
          have hpi' := posIncr_append E ⟨r.pos, ek⟩ hpi hbound
          have hbound' : ∀ x ∈ E ++ [(⟨r.pos, ek⟩ : Event)], x.pos < r₁.pos := by
            intro x hx
            rcases List.mem_append.mp hx with hx | hx
            · exact lt_trans (hbound x hx) hpos
            · simp only [List.mem_singleton] at hx
              subst hx
              exact hpos
          have hres := ih r₁ st₁ (E ++ [⟨r.pos, ek⟩]) _ _ _ hinv' hpi' hbound' hrec
          refine ⟨?_, hres.2⟩
          have hassoc : E ++ ((some (⟨r.pos, ek⟩ : Event)).toList ++ evs₂) =
              (E ++ [(⟨r.pos, ek⟩ : Event)]) ++ evs₂ := by
            simp
          rw [hassoc]
          exact hres.1
      | perrP e => rw [hrec] at h; cases h
      | pncP => rw [hrec] at h; cases h
      | noFuel => rw [hrec] at h; cases h
    | brk r₁ st₁ =>
      rw [hp] at h
      dsimp only at h
      cases h
      obtain ⟨hst, hbl⟩ := parse_opcode_brk r off st _ _ hp
      subst hst
      constructor
      · simpa using hinv
      · exact hbl
    | perr e => rw [hp] at h; cases h
    | pnc => rw [hp] at h; cases h
/-- C1: for every function body accepted by `parse_code`, and every
structured-control opening event (`block`, `loop`, `if`, `else`) at
module-absolute offset `posAt evs i`, the jump-target map has an entry
there, and it holds the function-relative offset just past the
structurally matching terminator (the first later `else`/`end` at the
same nesting depth). -/
theorem parse_code_jump_targets (fuel : Nat) (r : Reader) (info : CodeInfo)
    (r' : Reader) (evs : List Event)
    (h : parse_code fuel r = .okC info r' evs) (i : Nat)
    (hop : isOpeningAt evs i = true) :
    ∃ j, matchIdx evs i = some j ∧
      info.jump_targets (posAt evs i) = some (posAt evs j + 1 - info.offset) := by
  simp only [parse_code] at h
  cases hloop : parseCodeLoop fuel r r.pos ⟨[], fun _ => none⟩ with
  | done r₂ st₂ evs₂ =>
    rw [hloop] at h
    dsimp only at h
    cases h
    obtain ⟨hinv, hempty⟩ := parseCodeLoop_inv r.pos fuel r ⟨[], fun _ => none⟩
      [] _ _ _ (Inv_nil r.pos) (by simp [PosIncr]) (by simp) hloop
    simp only [List.nil_append] at hinv
    obtain ⟨hblocks, hdepth, htargets⟩ := hinv
    have hoi : openIndices evs = [] := by
      rw [hempty] at hblocks
      exact List.map_eq_nil.mp hblocks.symm
    have hm : matchedB evs i = true := by
      by_contra hc
      have hmem : i ∈ openIndices evs :=
        (mem_openIndices_iff _ _).mpr ⟨hop, by simpa using hc⟩
      rw [hoi] at hmem
      cases hmem
    simpa using htargets i hop hm
  | perrP e => rw [hloop] at h; cases h
  | pncP => rw [hloop] at h; cases h
  | noFuel => rw [hloop] at h; cases h

theorem parse_code_jump_targets_witness :
    ∃ j, matchIdx bracketEvents 1 = some j ∧
      bracketJt (posAt bracketEvents 1) = some (posAt bracketEvents j + 1 - 0) :=
  parse_code_jump_targets 20 ⟨bracketCode, 0⟩ ⟨0, bracketCode, bracketJt⟩
    ⟨bracketCode, 8⟩ bracketEvents rfl 1 (by decide)

theorem sectionKind_read_invalid (r : Reader) (b : Nat)
    (hb : r.data.get? r.pos = some b)
    (hbad : b ∉ ([0x00, 0x01, 0x02, 0x03, 0x04, 0x05, 0x06, 0x07, 0x09,
      0x0A, 0x0B] : List Nat)) :
    SectionKind.read r = .error (.InvalidValue r.pos b) := by
  simp only [List.mem_cons, List.not_mem_nil, or_false, not_or] at hbad
  obtain ⟨h0, h1, h2, h3, h4, h5, h6, h7, h9, hA, hB⟩ := hbad
  simp only [SectionKind.read, Reader.read_u8, hb]
  simp [h0, h1, h2, h3, h4, h5, h6, h7, h9, hA, hB]

theorem parseSections_stop (fuel n : Nat) (r : Reader) (acc : ParseAcc)
    (e : ParserError) (h : SectionKind.read r = .error e) :
    parseSections fuel (n + 1) r acc = assembleModule acc := by
  rw [parseSections, h]

/-- C10: after the magic and the version word, a section-kind byte that
is not one of the eleven recognized discriminants (such as 0x08) makes
`parse` stop consuming input and return `Ok` with the module assembled
from the sections already read, not a parse error. -/
theorem parse_stops_at_unknown_section (fuel : Nat) (version rest : List Nat)
    (b : Nat) (hv : version.length = 4)
    (hbad : b ∉ ([0x00, 0x01, 0x02, 0x03, 0x04, 0x05, 0x06, 0x07, 0x09,
      0x0A, 0x0B] : List Nat)) :
    parse (fuel + 1) ([0x00, 0x61, 0x73, 0x6D] ++ version ++ b :: rest) =
      .okS ⟨[], [], [], [], []⟩ := by
  have hlen : ([0x00, 0x61, 0x73, 0x6D] ++ version ++ b :: rest).length =
      9 + rest.length := by
    simp [hv]
    omega
  simp only [parse]
  have hmagic : Reader.expect_bytes ⟨[0x00, 0x61, 0x73, 0x6D] ++ version ++ b :: rest, 0⟩
      [0x00, 0x61, 0x73, 0x6D] =
      .ok ⟨[0x00, 0x61, 0x73, 0x6D] ++ version ++ b :: rest, 4⟩ := by
    simp only [Reader.expect_bytes]
    rw [if_pos (by simp only [hlen, List.length_cons, List.length_nil]; omega),
      if_pos (by simp)]
    rfl
  rw [hmagic]
  dsimp only
  have hu32 : Reader.read_u32 ⟨[0x00, 0x61, 0x73, 0x6D] ++ version ++ b :: rest, 4⟩ =
      .ok (fromLe ((([0x00, 0x61, 0x73, 0x6D] ++ version ++ b :: rest).drop 4).take 4),
        ⟨[0x00, 0x61, 0x73, 0x6D] ++ version ++ b :: rest, 8⟩) := by
    simp only [Reader.read_u32, Reader.read_bytes]
    rw [if_pos (by simp only [hlen, List.length_cons, List.length_nil]; omega)]
  rw [hu32]
  dsimp only
  have hget : ([0x00, 0x61, 0x73, 0x6D] ++ version ++ b :: rest).get? 8 = some b := by
    rw [List.append_assoc]
    simp only [List.get?_eq_getElem?]
    rw [List.getElem?_append_right (by simp)]
    simp only [List.length_cons, List.length_nil]
    rw [List.getElem?_append_right (by simp [hv])]
    simp [hv]
  have hkind := sectionKind_read_invalid ⟨[0x00, 0x61, 0x73, 0x6D] ++ version ++ b :: rest, 8⟩
    b hget hbad
  rw [parseSections_stop (fuel + 1) fuel _ emptyAcc _ hkind]
  rfl
theorem parse_stops_at_unknown_section_witness :
    parse 5 ([0x00, 0x61, 0x73, 0x6D] ++ [0x01, 0x00, 0x00, 0x00] ++ 0x08 :: []) =
      .okS ⟨[], [], [], [], []⟩ :=
  parse_stops_at_unknown_section 4 [0x01, 0x00, 0x00, 0x00] [] 0x08 (by decide)
    (by decide)

end Uwasm
